import Mathlib

/-!
# pragmash: the block-structured parser (`lexer.go`)

A shallow embedding of `ParseProgram`, `parseContext.nextBlock`,
`parseContext.readBlockBody`, `parseContext.readForLoop`,
`parseContext.readWhileLoop`, `endsWithOpenCurly`, `tokenToArgument` and
`tokensToCommand`, followed by theorems about them.

Conventions of the embedding:

* The Go methods mutate `p.current`.  Here every method takes the cursor as an
  argument and returns the pair (outcome, cursor after the call).
* A Go `(value, error)` result is an `Outcome`: `ok v` for `(v, nil)`,
  `error msg` for `(nil, errors.New(msg))`.  A run-time panic of the Go code
  (index out of range, negative `make` length) is `panic`.
* The recursion of the Go code is not structural (an embedded-command token is
  re-tokenized by an arbitrary tokenizer), so the recursive functions take a
  `fuel : Nat`; `outOfFuel` is an artefact of the model and never a Go result.
  Every call of `nextBlock`, `readBlockBody`, `readForLoop`, `readWhileLoop` and
  every turn of the `ParseProgram` loop uses up one unit of fuel, and so does
  every re-tokenization of an embedded-command token in `tokenToArgument`.
* `Tokenize` and `ParseScript` are not part of `lexer.go`; they are parameters.
-/

namespace Pragmash

/-! ## Data model -/

/-- Modelled from the spec: the declaration of `Token` is not in `lexer.go`.
The code reads the fields `Text` (a string) and `Command` (a bool, true for an
embedded-command token). -/
structure Token where
  Text : String
  Command : Bool
deriving DecidableEq, Repr

mutual
/-- Modelled from the spec: the declaration of `Argument` is not in `lexer.go`.
The code builds it positionally as `Argument{text, command}` where `command`
is a `*Command` (nil for a literal argument). -/
inductive Argument where
  | mk (Text : String) (Command : Option Command) : Argument
/-- Modelled from the spec: the declaration of `Command` is not in `lexer.go`.
The code builds it positionally as `Command{args[0], args[1:]}`: a name
Argument and the ordered parameter Arguments. -/
inductive Command where
  | mk (Name : Argument) (Arguments : List Argument) : Command
end

/-- Modelled from the spec: the declarations of `Block`, `ForBlock` and
`WhileBlock` are not in `lexer.go`.  `Block` is the interface implemented by
`*Command` (the CommandBlock of the spec), `*ForBlock` (built as
`ForBlock{key, value, body}` with `key` a `*Argument`) and `*WhileBlock` (built
as `WhileBlock{condition, body}`). -/
inductive Block where
  | CommandBlock (cmd : Command) : Block
  | ForBlock (Key : Option Argument) (Value : Argument) (Body : List Block) : Block
  | WhileBlock (Cond : List Argument) (Body : List Block) : Block

/-- Modelled from the spec: the declaration of `Script` is not in `lexer.go`.
The code indexes `LogicalLines` (strings) and `LineStarts` (ints) by the
cursor.  The two lists are not forced to have equal length here. -/
structure Script where
  LogicalLines : List String
  LineStarts : List Int

/-- What a Go call returning `(value, error)` can do. -/
inductive Outcome (α : Type) where
  | ok (a : α) : Outcome α
  | error (msg : String) : Outcome α
  | panic : Outcome α
  | outOfFuel : Outcome α

/-- The external tokenizer `Tokenize(line) ([]Token, error)`; the error is
represented by its message. -/
abbrev Tokenizer := String → Except String (List Token)

/-- The external line splitter `ParseScript(text) (*Script, error)`. -/
abbrev Splitter := String → Except String Script

/-- Decimal rendering of a Go `int`, `strconv.Itoa`. -/
def Itoa (i : Int) : String := toString i

/-! ## Argument / command builder -/

/-- The conversion loops of `tokensToCommand`, `readForLoop` and
`readWhileLoop`: convert the tokens in order with `conv`, stop at the first
conversion that does not succeed and return what it returned. -/
def convertTokens (conv : Token → Outcome Argument) : List Token → Outcome (List Argument)
  | [] => .ok []
  | x :: xs =>
    match conv x with
    | .ok arg =>
      match convertTokens conv xs with
      | .ok args => .ok (arg :: args)
      | .error e => .error e
      | .panic => .panic
      | .outOfFuel => .outOfFuel
    | .error e => .error e
    | .panic => .panic
    | .outOfFuel => .outOfFuel

/-- The body of `tokensToCommand`, with the call to `tokenToArgument`
abstracted as `conv`. -/
def tokensToCommandWith (conv : Token → Outcome Argument) (t : List Token) : Outcome Command :=
  if t.length = 0 then .error "No tokens in command."
  else
    match convertTokens conv t with
    | .ok (name :: params) => .ok (Command.mk name params)
    | .ok [] => .panic
    | .error e => .error e
    | .panic => .panic
    | .outOfFuel => .outOfFuel

/-- Go `tokenToArgument`. -/
def tokenToArgument (Tokenize : Tokenizer) : Nat → Token → Outcome Argument
  | fuel, t =>
    if !t.Command then .ok (Argument.mk t.Text none)
    else
      match fuel with
      | 0 => .outOfFuel
      | fuel + 1 =>
        match Tokenize t.Text with
        | .error e => .error e
        | .ok tokens =>
          match tokensToCommandWith (tokenToArgument Tokenize fuel) tokens with
          | .ok command => .ok (Argument.mk "" (some command))
          | .error e => .error e
          | .panic => .panic
          | .outOfFuel => .outOfFuel

/-- Go `tokensToCommand`. -/
def tokensToCommand (Tokenize : Tokenizer) (fuel : Nat) (t : List Token) : Outcome Command :=
  tokensToCommandWith (tokenToArgument Tokenize fuel) t

/-- Go `endsWithOpenCurly`.  `t[len(t)-1]` panics on the empty list. -/
def endsWithOpenCurly (t : List Token) : Outcome Bool :=
  if t.length = 1 then .ok false
  else
    match t.getLast? with
    | none => .panic
    | some last => .ok (!last.Command && last.Text == "\x7d")

/-- The tokens `t[1], ..., t[len(t)-2]` visited by the header loops
`for i := 1; i < len(t)-1; i++`. -/
def headerArgs (t : List Token) : List Token :=
  (t.drop 1).take (t.length - 2)

/-- The test of `readBlockBody` on the line at the cursor: `some tokens` when
the tokenizer succeeded with a non-empty list whose first token is the literal
`}`. -/
def closeLine (r : Except String (List Token)) : Option (List Token) :=
  match r with
  | .ok (tok0 :: rest) =>
    if !tok0.Command && tok0.Text == "\x7d" then some (tok0 :: rest) else none
  | _ => none

/-! ## Block-level parser -/

mutual
/-- Go `parseContext.nextBlock`; `none` is the nil Block. -/
def nextBlock (Tokenize : Tokenizer) (script : Script) :
    Nat → Nat → Outcome (Option Block) × Nat
  | 0, current => (.outOfFuel, current)
  | fuel + 1, current =>
    if current = script.LogicalLines.length then (.ok none, current)
    else
      match script.LineStarts[current]? with
      | none => (.panic, current)
      | some lineStart =>
        let errorPrefix := "Error at line " ++ Itoa lineStart ++ ": "
        match script.LogicalLines[current]? with
        | none => (.panic, current)
        | some line =>
          match Tokenize line with
          | .error e => (.error (errorPrefix ++ e), current)
          | .ok [] => (.ok none, current + 1)
          | .ok (tok0 :: rest) =>
            if !tok0.Command && tok0.Text == "for" then
              match readForLoop Tokenize script fuel (tok0 :: rest) (current + 1) with
              | (.ok special, c) => (.ok (some special), c)
              | (.error e, c) => (.error (errorPrefix ++ e), c)
              | (.panic, c) => (.panic, c)
              | (.outOfFuel, c) => (.outOfFuel, c)
            else if !tok0.Command && tok0.Text == "while" then
              match readWhileLoop Tokenize script fuel (tok0 :: rest) (current + 1) with
              | (.ok special, c) => (.ok (some special), c)
              | (.error e, c) => (.error (errorPrefix ++ e), c)
              | (.panic, c) => (.panic, c)
              | (.outOfFuel, c) => (.outOfFuel, c)
            else
              match tokensToCommand Tokenize fuel (tok0 :: rest) with
              | .ok cmd => (.ok (some (Block.CommandBlock cmd)), current + 1)
              | .error e => (.error e, current + 1)
              | .panic => (.panic, current + 1)
              | .outOfFuel => (.outOfFuel, current + 1)
termination_by structural fuel => fuel
/-- Go `parseContext.readBlockBody`: one turn of its `for !p.done()` loop, with
the loop variable `res` as an argument.  The Go function is the call with
`res = []`. -/
def readBlockBody (Tokenize : Tokenizer) (script : Script) :
    Nat → Bool → Nat → List Block → Outcome (List Block) × Nat
  | 0, _, current, _ => (.outOfFuel, current)
  | fuel + 1, allowExtra, current, res =>
    if current ≥ script.LogicalLines.length then (.error "Missing \x7d.", current)
    else
      match script.LogicalLines[current]? with
      | none => (.panic, current)
      | some line =>
        match closeLine (Tokenize line) with
        | some tokens =>
          if !allowExtra && tokens.length > 1 then
            (.error "Unexpected tokens after \x7d.", current)
          else (.ok res, current + 1)
        | none =>
          match nextBlock Tokenize script fuel current with
          | (.error e, c) => (.error e, c)
          | (.ok none, c) => readBlockBody Tokenize script fuel allowExtra c res
          | (.ok (some next), c) =>
            readBlockBody Tokenize script fuel allowExtra c (res ++ [next])
          | (.panic, c) => (.panic, c)
          | (.outOfFuel, c) => (.outOfFuel, c)
termination_by structural fuel => fuel
/-- Go `parseContext.readForLoop`. -/
def readForLoop (Tokenize : Tokenizer) (script : Script) :
    Nat → List Token → Nat → Outcome Block × Nat
  | 0, _, current => (.outOfFuel, current)
  | fuel + 1, t, current =>
    match endsWithOpenCurly t with
    | .ok false => (.error "Missing \x7b in for-loop.", current)
    | .error e => (.error e, current)
    | .panic => (.panic, current)
    | .outOfFuel => (.outOfFuel, current)
    | .ok true =>
      if t.length ≠ 3 ∧ t.length ≠ 4 then
        (.error "Invalid number of arguments for for-loop.", current)
      else
        match convertTokens (tokenToArgument Tokenize fuel) (headerArgs t) with
        | .error e => (.error e, current)
        | .panic => (.panic, current)
        | .outOfFuel => (.outOfFuel, current)
        | .ok args =>
          match readBlockBody Tokenize script fuel false current [] with
          | (.error e, c) => (.error e, c)
          | (.panic, c) => (.panic, c)
          | (.outOfFuel, c) => (.outOfFuel, c)
          | (.ok body, c) =>
            match args with
            | [value] => (.ok (Block.ForBlock none value body), c)
            | key :: value :: _ => (.ok (Block.ForBlock (some key) value body), c)
            | [] => (.panic, c)
termination_by structural fuel => fuel
/-- Go `parseContext.readWhileLoop`. -/
def readWhileLoop (Tokenize : Tokenizer) (script : Script) :
    Nat → List Token → Nat → Outcome Block × Nat
  | 0, _, current => (.outOfFuel, current)
  | fuel + 1, t, current =>
    match endsWithOpenCurly t with
    | .ok false => (.error "Missing \x7b in while-loop.", current)
    | .error e => (.error e, current)
    | .panic => (.panic, current)
    | .outOfFuel => (.outOfFuel, current)
    | .ok true =>
      if t.length < 2 then (.panic, current)
      else
        match convertTokens (tokenToArgument Tokenize fuel) (headerArgs t) with
        | .error e => (.error e, current)
        | .panic => (.panic, current)
        | .outOfFuel => (.outOfFuel, current)
        | .ok args =>
          match readBlockBody Tokenize script fuel false current [] with
          | (.error e, c) => (.error e, c)
          | (.panic, c) => (.panic, c)
          | (.outOfFuel, c) => (.outOfFuel, c)
          | (.ok body, c) => (.ok (Block.WhileBlock args body), c)
termination_by structural fuel => fuel
end

/-- The `for !ctx.done()` loop of `ParseProgram`, with the cursor and the loop
variable `res` as arguments; it also returns the cursor it stopped at. -/
def parseProgramLoop (Tokenize : Tokenizer) (script : Script) :
    Nat → Nat → List Block → Outcome (List Block) × Nat
  | 0, current, _ => (.outOfFuel, current)
  | fuel + 1, current, res =>
    if current ≥ script.LogicalLines.length then (.ok res, current)
    else
      match nextBlock Tokenize script fuel current with
      | (.error e, c) => (.error e, c)
      | (.ok none, c) => parseProgramLoop Tokenize script fuel c res
      | (.ok (some next), c) => parseProgramLoop Tokenize script fuel c (res ++ [next])
      | (.panic, c) => (.panic, c)
      | (.outOfFuel, c) => (.outOfFuel, c)

/-- Go `ParseProgram`. -/
def ParseProgram (ParseScript : Splitter) (Tokenize : Tokenizer) (fuel : Nat)
    (scriptStr : String) : Outcome (List Block) :=
  match ParseScript scriptStr with
  | .error e => .error e
  | .ok script => (parseProgramLoop Tokenize script fuel 0 []).1

/-! ## Spec-side descriptions -/

/-- The literal Argument carrying the text of a token. -/
def literalArgument (t : Token) : Argument := Argument.mk t.Text none

/-- The CommandBlock the spec promises for a line of literal tokens: the first
token is the name, the others are the parameters; a blank line gives no block. -/
def commandBlockOfLine : List Token → Option Block
  | [] => none
  | t :: rest =>
    some (Block.CommandBlock (Command.mk (literalArgument t) (rest.map literalArgument)))

/-- The script with one more logical line `line`, recorded at original line
number `n`, inserted at index `k`. -/
def insertLine (script : Script) (k : Nat) (line : String) (n : Int) : Script :=
  { LogicalLines := script.LogicalLines.take k ++ line :: script.LogicalLines.drop k,
    LineStarts := script.LineStarts.take k ++ n :: script.LineStarts.drop k }

/-- The cursor of the original script that corresponds to cursor `c` of the
script with a line inserted at index `k`. -/
def unshift (k c : Nat) : Nat := if c ≤ k then c else c - 1

/-! ## Sample inputs -/

/-- A tokenizer given by a finite table; every other text is rejected. -/
def tableTokenizer (tbl : List (String × Except String (List Token))) : Tokenizer :=
  fun s =>
    match tbl.lookup s with
    | some r => r
    | none => .error "unexpected input"

/-- A literal token. -/
def lit (s : String) : Token := { Text := s, Command := false }

/-- An embedded-command token. -/
def emb (s : String) : Token := { Text := s, Command := true }

/-- A small tokenizer used to instantiate the theorems. -/
def sampleTokenizer : Tokenizer :=
  tableTokenizer
    [ ("echo hi", .ok [lit "echo", lit "hi"]),
      ("echo x", .ok [lit "echo", lit "x"]),
      ("echo ()", .ok [lit "echo", emb ""]),
      ("for x \x7d", .ok [lit "for", lit "x", lit "\x7d"]),
      ("for k v \x7d", .ok [lit "for", lit "k", lit "v", lit "\x7d"]),
      ("for x", .ok [lit "for", lit "x"]),
      ("while a b \x7d", .ok [lit "while", lit "a", lit "b", lit "\x7d"]),
      ("while a", .ok [lit "while", lit "a"]),
      ("\x7d", .ok [lit "\x7d"]),
      ("\x7d done", .ok [lit "\x7d", lit "done"]),
      ("\"open", .error "Unterminated quote."),
      ("", .ok []) ]

/-- A splitter given by a finite table; every other text is rejected. -/
def tableSplitter (tbl : List (String × Script)) : Splitter :=
  fun s =>
    match tbl.lookup s with
    | some script => .ok script
    | none => .error "unexpected input"

/-- A splitter that returns the given script for every text. -/
def constSplitter (script : Script) : Splitter := fun _ => .ok script

/-- A tokenizer for nested embedded commands. -/
def nestedTokenizer : Tokenizer :=
  tableTokenizer
    [ ("echo (cat (ls x))", .ok [lit "echo", emb "cat (ls x)"]),
      ("cat (ls x)", .ok [lit "cat", emb "ls x"]),
      ("ls x", .ok [lit "ls", lit "x"]),
      ("echo (\"open)", .ok [lit "echo", emb "\"open"]),
      ("\"open", .error "Unterminated quote."),
      ("", .ok []) ]

/-- A tokenizer whose failure on the embedded text `x` carries the same text as
the arity message of `readForLoop`. -/
def arityTokenizer : Tokenizer :=
  tableTokenizer
    [ ("x", .error "Invalid number of arguments for for-loop."),
      ("echo (x)", .ok [lit "echo", emb "x"]),
      ("\x7d", .ok [lit "\x7d"]) ]

/-! ## The calls of the top-level loop -/

/-- The `nextBlock` calls made by the loop of `ParseProgram` started at cursor
`c`, in call order, each with the cursor it left: the run ends at the end of
input or right after the first call that does not return a (possibly nil)
block.  Running out of fuel is recorded as such a call. -/
def topLevelCalls (Tokenize : Tokenizer) (script : Script) :
    Nat → Nat → List (Outcome (Option Block) × Nat)
  | 0, c => [(.outOfFuel, c)]
  | fuel + 1, c =>
    if c ≥ script.LogicalLines.length then []
    else
      match nextBlock Tokenize script fuel c with
      | (.ok ob, d) => (.ok ob, d) :: topLevelCalls Tokenize script fuel d
      | (r, d) => [(r, d)]

/-- The first call of a run that did not return a block or nil, as the result
`ParseProgram` gives for it. -/
def firstFailure (calls : List (Outcome (Option Block) × Nat)) : Option (Outcome (List Block)) :=
  calls.findSome? fun p =>
    match p.1 with
    | .ok _ => none
    | .error e => some (.error e)
    | .panic => some .panic
    | .outOfFuel => some .outOfFuel

/-- The blocks produced by a run of calls, in call order, the nil results left out. -/
def producedBlocks (calls : List (Outcome (Option Block) × Nat)) : List Block :=
  calls.filterMap fun p =>
    match p.1 with
    | .ok (some b) => some b
    | _ => none

/-- What the spec says `ParseProgram` returns for a run of `nextBlock` calls:
the first failure and no blocks if a call failed, otherwise the produced blocks. -/
def resultOfCalls (calls : List (Outcome (Option Block) × Nat)) : Outcome (List Block) :=
  match firstFailure calls with
  | some r => r
  | none => .ok (producedBlocks calls)

/-! ## Termination measures -/

/-- The length of the longest logical line of a script. -/
def maxLineLength (script : Script) : Nat :=
  (script.LogicalLines.map String.length).foldr max 0

/-- Re-tokenization is well-founded: every embedded-command token has an inner
text strictly shorter than the text it was cut from. -/
def ShrinkingTokenizer (Tokenize : Tokenizer) : Prop :=
  ∀ s ts, Tokenize s = .ok ts → ∀ t ∈ ts, t.Command = true → t.Text.length < s.length

/-! ## Basic facts about the argument / command builder -/

theorem tokenToArgument_of_literal (Tokenize : Tokenizer) (fuel : Nat) (t : Token)
    (h : t.Command = false) :
    tokenToArgument Tokenize fuel t = .ok (literalArgument t) := by
  unfold tokenToArgument
  simp [h, literalArgument]

theorem tokenToArgument_of_command_zero (Tokenize : Tokenizer) (t : Token)
    (h : t.Command = true) : tokenToArgument Tokenize 0 t = .outOfFuel := by
  unfold tokenToArgument
  simp [h]

theorem tokenToArgument_of_command_succ (Tokenize : Tokenizer) (fuel : Nat) (t : Token)
    (h : t.Command = true) :
    tokenToArgument Tokenize (fuel + 1) t =
      match Tokenize t.Text with
      | .error e => .error e
      | .ok tokens =>
        match tokensToCommandWith (tokenToArgument Tokenize fuel) tokens with
        | .ok command => .ok (Argument.mk "" (some command))
        | .error e => .error e
        | .panic => .panic
        | .outOfFuel => .outOfFuel := by
  rw [tokenToArgument]
  simp only [h, Bool.not_true, Bool.false_eq_true, if_false]

theorem convertTokens_literal (Tokenize : Tokenizer) (fuel : Nat) (ts : List Token)
    (h : ∀ t ∈ ts, t.Command = false) :
    convertTokens (tokenToArgument Tokenize fuel) ts = .ok (ts.map literalArgument) := by
  induction ts with
  | nil => rfl
  | cons x xs ih =>
    have hx : x.Command = false := h x (List.mem_cons_self _ _)
    have hxs : ∀ t ∈ xs, t.Command = false := fun t ht => h t (List.mem_cons_of_mem _ ht)
    simp [convertTokens, tokenToArgument_of_literal Tokenize fuel x hx, ih hxs]

theorem tokensToCommand_literal (Tokenize : Tokenizer) (fuel : Nat) (t : Token)
    (rest : List Token) (h : ∀ x ∈ t :: rest, x.Command = false) :
    tokensToCommand Tokenize fuel (t :: rest)
      = .ok (Command.mk (literalArgument t) (rest.map literalArgument)) := by
  simp [tokensToCommand, tokensToCommandWith, convertTokens_literal Tokenize fuel _ h]

/-! ## More fuel never changes a result -/

theorem convertTokens_congr (conv conv' : Token → Outcome Argument) (ts : List Token)
    (h : ∀ t ∈ ts, conv t ≠ .outOfFuel → conv' t = conv t)
    (hr : convertTokens conv ts ≠ .outOfFuel) :
    convertTokens conv' ts = convertTokens conv ts := by
  induction ts with
  | nil => rfl
  | cons x xs ih =>
    have hx := h x (List.mem_cons_self _ _)
    have hxs : ∀ t ∈ xs, conv t ≠ .outOfFuel → conv' t = conv t :=
      fun t ht => h t (List.mem_cons_of_mem _ ht)
    simp only [convertTokens] at hr ⊢
    cases hc : conv x with
    | ok a =>
      rw [hc] at hr
      rw [hx (by rw [hc]; simp), hc]
      simp only [] at hr ⊢
      cases hcs : convertTokens conv xs with
      | ok as => rw [ih hxs (by rw [hcs]; simp), hcs]
      | error e => rw [ih hxs (by rw [hcs]; simp), hcs]
      | panic => rw [ih hxs (by rw [hcs]; simp), hcs]
      | outOfFuel => rw [hcs] at hr; exact absurd rfl hr
    | error e => rw [hx (by rw [hc]; simp), hc]
    | panic => rw [hx (by rw [hc]; simp), hc]
    | outOfFuel => rw [hc] at hr; exact absurd rfl hr

theorem tokensToCommandWith_congr (conv conv' : Token → Outcome Argument) (ts : List Token)
    (h : ∀ t ∈ ts, conv t ≠ .outOfFuel → conv' t = conv t)
    (hr : tokensToCommandWith conv ts ≠ .outOfFuel) :
    tokensToCommandWith conv' ts = tokensToCommandWith conv ts := by
  unfold tokensToCommandWith at hr ⊢
  split
  · rfl
  · rename_i hlen
    rw [if_neg hlen] at hr
    have hc : convertTokens conv ts ≠ .outOfFuel := by
      intro hc
      rw [hc] at hr
      exact hr rfl
    rw [convertTokens_congr conv conv' ts h hc]

theorem tokenToArgument_succ (Tokenize : Tokenizer) (fuel : Nat) :
    ∀ t, tokenToArgument Tokenize fuel t ≠ .outOfFuel →
      tokenToArgument Tokenize (fuel + 1) t = tokenToArgument Tokenize fuel t := by
  induction fuel with
  | zero =>
    intro t h
    cases hc : t.Command with
    | false => rw [tokenToArgument_of_literal _ _ _ hc, tokenToArgument_of_literal _ _ _ hc]
    | true => exact absurd (tokenToArgument_of_command_zero Tokenize t hc) h
  | succ n ih =>
    intro t h
    cases hc : t.Command with
    | false => rw [tokenToArgument_of_literal _ _ _ hc, tokenToArgument_of_literal _ _ _ hc]
    | true =>
      rw [tokenToArgument_of_command_succ _ _ _ hc] at h
      rw [tokenToArgument_of_command_succ _ (n + 1) _ hc,
        tokenToArgument_of_command_succ _ n _ hc]
      cases htk : Tokenize t.Text with
      | error e => rfl
      | ok tokens =>
        rw [htk] at h
        simp only [] at h ⊢
        have hw : tokensToCommandWith (tokenToArgument Tokenize n) tokens ≠ .outOfFuel := by
          intro hw
          rw [hw] at h
          exact h rfl
        rw [tokensToCommandWith_congr _ (tokenToArgument Tokenize (n + 1)) tokens
          (fun t _ ht => ih t ht) hw]

theorem tokenToArgument_mono (Tokenize : Tokenizer) (fuel fuel' : Nat) (hle : fuel ≤ fuel')
    (t : Token) (h : tokenToArgument Tokenize fuel t ≠ .outOfFuel) :
    tokenToArgument Tokenize fuel' t = tokenToArgument Tokenize fuel t := by
  induction hle with
  | refl => rfl
  | step _ ih => rw [tokenToArgument_succ _ _ _ (by rw [ih]; exact h), ih]

theorem convertTokens_mono (Tokenize : Tokenizer) (fuel fuel' : Nat) (hle : fuel ≤ fuel')
    (ts : List Token) (h : convertTokens (tokenToArgument Tokenize fuel) ts ≠ .outOfFuel) :
    convertTokens (tokenToArgument Tokenize fuel') ts
      = convertTokens (tokenToArgument Tokenize fuel) ts :=
  convertTokens_congr _ _ ts (fun t _ ht => tokenToArgument_mono Tokenize fuel fuel' hle t ht) h

theorem tokensToCommand_mono (Tokenize : Tokenizer) (fuel fuel' : Nat) (hle : fuel ≤ fuel')
    (ts : List Token) (h : tokensToCommand Tokenize fuel ts ≠ .outOfFuel) :
    tokensToCommand Tokenize fuel' ts = tokensToCommand Tokenize fuel ts :=
  tokensToCommandWith_congr _ _ ts
    (fun t _ ht => tokenToArgument_mono Tokenize fuel fuel' hle t ht) h

theorem fuel_succ_all (Tokenize : Tokenizer) (script : Script) (fuel : Nat) :
    (∀ c r d, nextBlock Tokenize script fuel c = (r, d) → r ≠ .outOfFuel →
      nextBlock Tokenize script (fuel + 1) c = (r, d)) ∧
    (∀ a c res r d, readBlockBody Tokenize script fuel a c res = (r, d) → r ≠ .outOfFuel →
      readBlockBody Tokenize script (fuel + 1) a c res = (r, d)) ∧
    (∀ t c r d, readForLoop Tokenize script fuel t c = (r, d) → r ≠ .outOfFuel →
      readForLoop Tokenize script (fuel + 1) t c = (r, d)) ∧
    (∀ t c r d, readWhileLoop Tokenize script fuel t c = (r, d) → r ≠ .outOfFuel →
      readWhileLoop Tokenize script (fuel + 1) t c = (r, d)) := by
  induction fuel with
  | zero =>
    refine ⟨?_, ?_, ?_, ?_⟩ <;> intros <;>
      simp_all [nextBlock, readBlockBody, readForLoop, readWhileLoop]
  | succ n ih =>
    obtain ⟨ihN, ihB, ihF, ihW⟩ := ih
    refine ⟨?_, ?_, ?_, ?_⟩
    · intro c r d h hr
      rw [nextBlock] at h ⊢
      repeat' (split at h)
      all_goals simp only [Prod.mk.injEq] at h
      all_goals obtain ⟨rfl, rfl⟩ := h
      all_goals first
        | exact absurd rfl hr
        | (have h1 := ihF _ _ _ _ ‹readForLoop Tokenize script n _ _ = _› (by simp)
           simp [*])
        | (have h1 := ihW _ _ _ _ ‹readWhileLoop Tokenize script n _ _ = _› (by simp)
           simp [*])
        | (have h1 := tokensToCommand_mono Tokenize n (n + 1) (by omega) _
            (by rw [‹tokensToCommand Tokenize n _ = _›]; simp)
           simp [*])
        | simp [*]
    · intro a c res r d h hr
      rw [readBlockBody] at h ⊢
      repeat' (split at h)
      all_goals first
        | (simp only [Prod.mk.injEq] at h
           obtain ⟨rfl, rfl⟩ := h
           first
             | exact absurd rfl hr
             | (have h1 := ihN _ _ _ ‹nextBlock Tokenize script n _ = _› (by simp)
                simp [*])
             | simp [*])
        | (have h1 := ihN _ _ _ ‹nextBlock Tokenize script n _ = _› (by simp)
           have h2 := ihB _ _ _ _ _ h hr
           simp [*])
    · intro t c r d h hr
      rw [readForLoop] at h ⊢
      repeat' (split at h)
      all_goals simp only [Prod.mk.injEq] at h
      all_goals obtain ⟨rfl, rfl⟩ := h
      all_goals first
        | exact absurd rfl hr
        | (have h0 := convertTokens_mono Tokenize n (n + 1) (by omega) _
            (by rw [‹convertTokens (tokenToArgument Tokenize n) _ = _›]; simp)
           have h1 := ihB _ _ _ _ _ ‹readBlockBody Tokenize script n _ _ _ = _› (by simp)
           simp [*])
        | (have h0 := convertTokens_mono Tokenize n (n + 1) (by omega) _
            (by rw [‹convertTokens (tokenToArgument Tokenize n) _ = _›]; simp)
           simp [*])
        | simp [*]
    · intro t c r d h hr
      rw [readWhileLoop] at h ⊢
      repeat' (split at h)
      all_goals simp only [Prod.mk.injEq] at h
      all_goals obtain ⟨rfl, rfl⟩ := h
      all_goals first
        | exact absurd rfl hr
        | (have h0 := convertTokens_mono Tokenize n (n + 1) (by omega) _
            (by rw [‹convertTokens (tokenToArgument Tokenize n) _ = _›]; simp)
           have h1 := ihB _ _ _ _ _ ‹readBlockBody Tokenize script n _ _ _ = _› (by simp)
           simp [*])
        | (have h0 := convertTokens_mono Tokenize n (n + 1) (by omega) _
            (by rw [‹convertTokens (tokenToArgument Tokenize n) _ = _›]; simp)
           simp [*])
        | simp [*]

theorem nextBlock_mono (Tokenize : Tokenizer) (script : Script) (fuel fuel' : Nat)
    (hle : fuel ≤ fuel') (c : Nat) (r : Outcome (Option Block)) (d : Nat)
    (h : nextBlock Tokenize script fuel c = (r, d)) (hr : r ≠ .outOfFuel) :
    nextBlock Tokenize script fuel' c = (r, d) := by
  induction hle with
  | refl => exact h
  | step _ ih => exact (fuel_succ_all Tokenize script _).1 _ _ _ ih hr

theorem readBlockBody_mono (Tokenize : Tokenizer) (script : Script) (fuel fuel' : Nat)
    (hle : fuel ≤ fuel') (a : Bool) (c : Nat) (res : List Block)
    (r : Outcome (List Block)) (d : Nat)
    (h : readBlockBody Tokenize script fuel a c res = (r, d)) (hr : r ≠ .outOfFuel) :
    readBlockBody Tokenize script fuel' a c res = (r, d) := by
  induction hle with
  | refl => exact h
  | step _ ih => exact (fuel_succ_all Tokenize script _).2.1 _ _ _ _ _ ih hr

/-! ## The cursor only moves forward -/

theorem cursor_le_all (Tokenize : Tokenizer) (script : Script) (fuel : Nat) :
    (∀ c r d, nextBlock Tokenize script fuel c = (r, d) → c ≤ d) ∧
    (∀ a c res r d, readBlockBody Tokenize script fuel a c res = (r, d) → c ≤ d) ∧
    (∀ t c r d, readForLoop Tokenize script fuel t c = (r, d) → c ≤ d) ∧
    (∀ t c r d, readWhileLoop Tokenize script fuel t c = (r, d) → c ≤ d) := by
  induction fuel with
  | zero =>
    refine ⟨?_, ?_, ?_, ?_⟩ <;> intros <;>
      simp_all [nextBlock, readBlockBody, readForLoop, readWhileLoop]
  | succ n ih =>
    obtain ⟨ihN, ihB, ihF, ihW⟩ := ih
    refine ⟨?_, ?_, ?_, ?_⟩
    · intro c r d h
      rw [nextBlock] at h
      repeat' (split at h)
      all_goals simp only [Prod.mk.injEq] at h
      all_goals first
        | omega
        | (have h1 := ihF _ _ _ _ ‹readForLoop Tokenize script n _ _ = _›; omega)
        | (have h1 := ihW _ _ _ _ ‹readWhileLoop Tokenize script n _ _ = _›; omega)
    · intro a c res r d h
      rw [readBlockBody] at h
      repeat' (split at h)
      all_goals first
        | (simp only [Prod.mk.injEq] at h; omega)
        | (have h1 := ihN _ _ _ ‹nextBlock Tokenize script n _ = _›
           simp only [Prod.mk.injEq] at h; omega)
        | (have h1 := ihN _ _ _ ‹nextBlock Tokenize script n _ = _›
           have h2 := ihB _ _ _ _ _ h; omega)
    · intro t c r d h
      rw [readForLoop] at h
      repeat' (split at h)
      all_goals simp only [Prod.mk.injEq] at h
      all_goals first
        | omega
        | (have h1 := ihB _ _ _ _ _ ‹readBlockBody Tokenize script n _ _ _ = _›; omega)
    · intro t c r d h
      rw [readWhileLoop] at h
      repeat' (split at h)
      all_goals simp only [Prod.mk.injEq] at h
      all_goals first
        | omega
        | (have h1 := ihB _ _ _ _ _ ‹readBlockBody Tokenize script n _ _ _ = _›; omega)

/-! ## Reading single lines -/

theorem lt_length_of_getElem? {α : Type} {l : List α} {i : Nat} {a : α}
    (h : l[i]? = some a) : i < l.length := by
  by_contra hlt
  rw [List.getElem?_eq_none (by omega)] at h
  cases h

theorem closeLine_of_close {r : Except String (List Token)} {tok0 : Token}
    {rest : List Token} (hr : r = .ok (tok0 :: rest)) (hc : tok0.Command = false)
    (ht : tok0.Text = "\x7d") : closeLine r = some (tok0 :: rest) := by
  subst hr
  simp [closeLine, hc, ht]

theorem nextBlock_literal_line (Tokenize : Tokenizer) (script : Script) (fuel current : Nat)
    (line : String) (ts : List Token)
    (hstart : current < script.LineStarts.length)
    (hline : script.LogicalLines[current]? = some line)
    (htok : Tokenize line = .ok ts)
    (hlit : ∀ t ∈ ts, t.Command = false)
    (hkw : ∀ t, ts.head? = some t → t.Text ≠ "for" ∧ t.Text ≠ "while") :
    nextBlock Tokenize script (fuel + 1) current
      = (.ok (commandBlockOfLine ts), current + 1) := by
  have hlt : current < script.LogicalLines.length := lt_length_of_getElem? hline
  rw [nextBlock]
  simp only [Nat.ne_of_lt hlt, if_false, List.getElem?_eq_getElem hstart, hline, htok]
  cases ts with
  | nil => rfl
  | cons t rest =>
    obtain ⟨hfor, hwhile⟩ := hkw t rfl
    simp [hfor, hwhile, tokensToCommand_literal Tokenize fuel t rest hlit, commandBlockOfLine]

theorem parseProgramLoop_literal (Tokenize : Tokenizer) (script : Script)
    (toks : List (List Token))
    (hwf : script.LineStarts.length = script.LogicalLines.length)
    (htok : script.LogicalLines.map Tokenize = toks.map Except.ok)
    (hlit : ∀ ts ∈ toks, ∀ t ∈ ts, t.Command = false)
    (hkw : ∀ ts ∈ toks, ∀ t, ts.head? = some t → t.Text ≠ "for" ∧ t.Text ≠ "while")
    (k : Nat) : ∀ (fuel current : Nat) (res : List Block),
      current + k = script.LogicalLines.length → k < fuel →
      parseProgramLoop Tokenize script fuel current res
        = (.ok (res ++ (toks.drop current).filterMap commandBlockOfLine),
            script.LogicalLines.length) := by
  have hlen : toks.length = script.LogicalLines.length := by
    have := congrArg List.length htok
    simpa using this.symm
  induction k with
  | zero =>
    intro fuel current res hc hf
    obtain ⟨f, rfl⟩ : ∃ f, fuel = f + 1 := ⟨fuel - 1, by omega⟩
    have hc' : current = script.LogicalLines.length := by omega
    rw [parseProgramLoop]
    simp [hc', ← hlen]
  | succ k ih =>
    intro fuel current res hc hf
    obtain ⟨f, rfl⟩ : ∃ f, fuel = f + 1 := ⟨fuel - 1, by omega⟩
    obtain ⟨g, rfl⟩ : ∃ g, f = g + 1 := ⟨f - 1, by omega⟩
    have hlt : current < script.LogicalLines.length := by omega
    have hlt' : current < toks.length := by omega
    have hline : script.LogicalLines[current]? = some script.LogicalLines[current] :=
      List.getElem?_eq_getElem hlt
    have htk : Tokenize script.LogicalLines[current] = .ok toks[current] := by
      have h1 := congrArg (fun l => l[current]?) htok
      simp only [List.getElem?_map, List.getElem?_eq_getElem hlt,
        List.getElem?_eq_getElem hlt', Option.map_some'] at h1
      exact Option.some.inj h1
    have hmem : toks[current] ∈ toks := List.getElem_mem hlt'
    have hnb := nextBlock_literal_line Tokenize script g current _ _ (by omega) hline htk
      (hlit _ hmem) (hkw _ hmem)
    have hdrop : toks.drop current = toks[current] :: toks.drop (current + 1) :=
      List.drop_eq_getElem_cons hlt'
    rw [parseProgramLoop]
    simp only [ge_iff_le, Nat.not_le.mpr hlt, if_false, hnb]
    cases hcb : commandBlockOfLine toks[current] with
    | none =>
      simp only []
      rw [ih (g + 1) (current + 1) res (by omega) (by omega), hdrop,
        List.filterMap_cons, hcb]
    | some b =>
      simp only []
      rw [ih (g + 1) (current + 1) (res ++ [b]) (by omega) (by omega), hdrop,
        List.filterMap_cons, hcb, List.append_assoc]
      rfl

/-! ## Header conversion -/

theorem endsWithOpenCurly_true_length {t : List Token} (h : endsWithOpenCurly t = .ok true) :
    2 ≤ t.length := by
  unfold endsWithOpenCurly at h
  split at h
  · cases h
  · rename_i h1
    cases t with
    | nil => simp at h
    | cons a as =>
      cases as with
      | nil => simp at h1
      | cons b bs => simp

theorem convertTokens_ok_of_forall (conv : Token → Outcome Argument) (ts : List Token)
    (h : ∀ x ∈ ts, ∃ a, conv x = .ok a) : ∃ args, convertTokens conv ts = .ok args := by
  induction ts with
  | nil => exact ⟨[], rfl⟩
  | cons x xs ih =>
    obtain ⟨a, ha⟩ := h x (List.mem_cons_self _ _)
    obtain ⟨as, has⟩ := ih (fun y hy => h y (List.mem_cons_of_mem _ hy))
    exact ⟨a :: as, by simp [convertTokens, ha, has]⟩

theorem convertTokens_ok_forall₂ (conv : Token → Outcome Argument) :
    ∀ (ts : List Token) (args : List Argument), convertTokens conv ts = .ok args →
      List.Forall₂ (fun t a => conv t = .ok a) ts args := by
  intro ts
  induction ts with
  | nil =>
    intro args h
    simp only [convertTokens, Outcome.ok.injEq] at h
    subst h
    exact List.Forall₂.nil
  | cons x xs ih =>
    intro args h
    simp only [convertTokens] at h
    split at h
    · rename_i a ha
      split at h
      · rename_i as has
        simp only [Outcome.ok.injEq] at h
        subst h
        exact List.Forall₂.cons ha (ih as has)
      all_goals cases h
    all_goals cases h

theorem headerArgs_length (t : List Token) : (headerArgs t).length = t.length - 2 := by
  simp [headerArgs]
  omega

theorem headerArgs_getElem? (t : List Token) (i : Nat) (h : i + 2 < t.length) :
    (headerArgs t)[i]? = t[i + 1]? := by
  simp [headerArgs, List.getElem?_take, List.getElem?_drop]
  intro h'
  omega

/-! ## The control-block readers -/

theorem readForLoop_one (Tokenize : Tokenizer) (script : Script)
    (fuel current : Nat) (kw x m : Token) (v : Argument) (b : List Block) (c : Nat)
    (hopen : endsWithOpenCurly [kw, x, m] = .ok true)
    (hv : tokenToArgument Tokenize fuel x = .ok v)
    (hbody : readBlockBody Tokenize script fuel false current [] = (.ok b, c)) :
    readForLoop Tokenize script (fuel + 1) [kw, x, m] current
      = (.ok (Block.ForBlock none v b), c) := by
  rw [readForLoop]
  simp [hopen, headerArgs, convertTokens, hv, hbody]

theorem readForLoop_two (Tokenize : Tokenizer) (script : Script)
    (fuel current : Nat) (kw x y m : Token) (k v : Argument) (b : List Block) (c : Nat)
    (hopen : endsWithOpenCurly [kw, x, y, m] = .ok true)
    (hk : tokenToArgument Tokenize fuel x = .ok k)
    (hv : tokenToArgument Tokenize fuel y = .ok v)
    (hbody : readBlockBody Tokenize script fuel false current [] = (.ok b, c)) :
    readForLoop Tokenize script (fuel + 1) [kw, x, y, m] current
      = (.ok (Block.ForBlock (some k) v b), c) := by
  rw [readForLoop]
  simp [hopen, headerArgs, convertTokens, hk, hv, hbody]

theorem parseProgramLoop_for_example (Tokenize : Tokenizer)
    (l0 l1 l2 : String) (n0 n1 n2 : Int) (g : Nat)
    (h0 : Tokenize l0 = .ok [lit "for", lit "x", lit "\x7d"])
    (h1 : Tokenize l1 = .ok [lit "echo", lit "x"])
    (h2 : Tokenize l2 = .ok [lit "\x7d"]) :
    parseProgramLoop Tokenize ⟨[l0, l1, l2], [n0, n1, n2]⟩ (g + 5) 0 []
      = (.ok [Block.ForBlock none (Argument.mk "x" none)
          [Block.CommandBlock (Command.mk (Argument.mk "echo" none) [Argument.mk "x" none])]],
        3) := by
  have hcmd : nextBlock Tokenize ⟨[l0, l1, l2], [n0, n1, n2]⟩ (g + 1) 1
      = (.ok (commandBlockOfLine [lit "echo", lit "x"]), 2) :=
    nextBlock_literal_line Tokenize _ g 1 l1 _ (by simp) rfl h1 (by decide) (by simp [lit])
  have hclose : ∀ res, readBlockBody Tokenize ⟨[l0, l1, l2], [n0, n1, n2]⟩ (g + 1) false 2 res
      = (.ok res, 3) := by
    intro res
    rw [readBlockBody]
    simp [h2, closeLine, lit]
  have hbody : readBlockBody Tokenize ⟨[l0, l1, l2], [n0, n1, n2]⟩ (g + 2) false 1 []
      = (.ok [Block.CommandBlock
          (Command.mk (Argument.mk "echo" none) [Argument.mk "x" none])], 3) := by
    rw [readBlockBody]
    simp [h1, closeLine, lit, hcmd, commandBlockOfLine, hclose, literalArgument]
  have hfor := readForLoop_one Tokenize ⟨[l0, l1, l2], [n0, n1, n2]⟩ (g + 2) 1
    (lit "for") (lit "x") (lit "\x7d") _ _ _ rfl
    (tokenToArgument_of_literal Tokenize _ (lit "x") rfl) hbody
  have hnext : nextBlock Tokenize ⟨[l0, l1, l2], [n0, n1, n2]⟩ (g + 4) 0
      = (.ok (some (Block.ForBlock none (Argument.mk "x" none)
          [Block.CommandBlock (Command.mk (Argument.mk "echo" none) [Argument.mk "x" none])])),
        3) := by
    simp only [lit, literalArgument] at hfor
    rw [nextBlock]
    simp [h0, hfor, lit]
  rw [parseProgramLoop]
  simp [hnext]
  rw [parseProgramLoop]
  simp

/-! ## Bodies without a closing line -/

theorem closeLine_eq_none_of {r : Except String (List Token)}
    (h : ∀ tok0 rest, r = .ok (tok0 :: rest) → ¬ (tok0.Command = false ∧ tok0.Text = "\x7d")) :
    closeLine r = none := by
  unfold closeLine
  split
  · rename_i tok0 rest
    have := h tok0 rest rfl
    simp_all
  · rfl

/-- When `nextBlock` returns normally before the end of input, it has consumed
the line at the cursor. -/
theorem nextBlock_ok_advance (Tokenize : Tokenizer) (script : Script) (fuel c : Nat)
    (ob : Option Block) (d : Nat) (h : nextBlock Tokenize script fuel c = (.ok ob, d))
    (hc : c < script.LogicalLines.length) : c + 1 ≤ d := by
  cases fuel with
  | zero => simp [nextBlock] at h
  | succ n =>
    rw [nextBlock] at h
    repeat' (split at h)
    all_goals simp only [Prod.mk.injEq] at h
    all_goals first
      | omega
      | (have h1 := (cursor_le_all Tokenize script n).2.2.1 _ _ _ _
          ‹readForLoop Tokenize script n _ _ = _›; omega)
      | (have h1 := (cursor_le_all Tokenize script n).2.2.2 _ _ _ _
          ‹readWhileLoop Tokenize script n _ _ = _›; omega)
      | (obtain ⟨h1, _⟩ := h; contradiction)

theorem readBlockBody_no_close_not_ok (Tokenize : Tokenizer) (script : Script) (fuel : Nat) :
    ∀ (a : Bool) (cur : Nat) (res b : List Block) (d : Nat),
      (∀ i line, cur ≤ i → script.LogicalLines[i]? = some line →
        closeLine (Tokenize line) = none) →
      readBlockBody Tokenize script fuel a cur res ≠ (.ok b, d) := by
  induction fuel with
  | zero =>
    intro a cur res b d _ h
    simp [readBlockBody] at h
  | succ n ih =>
    intro a cur res b d hno h
    rw [readBlockBody] at h
    repeat' (split at h)
    all_goals first
      | (simp only [Prod.mk.injEq] at h; obtain ⟨h1, _⟩ := h; contradiction)
      | (have hcl := hno cur _ (Nat.le_refl _) ‹script.LogicalLines[cur]? = some _›
         have hh := ‹closeLine _ = some _›
         rw [hcl] at hh
         contradiction)
      | (have hle := (cursor_le_all Tokenize script n).1 _ _ _
          ‹nextBlock Tokenize script n _ = _›
         exact ih _ _ _ _ _ (fun i line hi hl => hno i line (by omega) hl) h)

theorem readBlockBody_missing_close (Tokenize : Tokenizer) (script : Script) (f0 : Nat)
    (fuel : Nat) :
    ∀ (a : Bool) (cur : Nat) (res : List Block),
      (∀ i line, cur ≤ i → script.LogicalLines[i]? = some line →
        closeLine (Tokenize line) = none) →
      (∀ i, cur ≤ i → i < script.LogicalLines.length →
        ∃ ob c, nextBlock Tokenize script f0 i = (.ok ob, c)) →
      f0 + (script.LogicalLines.length - cur) < fuel →
      (readBlockBody Tokenize script fuel a cur res).1 = .error "Missing \x7d." := by
  induction fuel with
  | zero =>
    intro a cur res _ _ h
    omega
  | succ n ih =>
    intro a cur res hno hok hf
    rw [readBlockBody]
    split
    · rfl
    · rename_i hlt
      have hlt' : cur < script.LogicalLines.length := by omega
      rw [List.getElem?_eq_getElem hlt']
      simp only []
      rw [hno cur _ (Nat.le_refl _) (List.getElem?_eq_getElem hlt')]
      simp only []
      obtain ⟨ob, c, hnb⟩ := hok cur (Nat.le_refl _) hlt'
      have hnb' := nextBlock_mono Tokenize script f0 n (by omega) _ _ _ hnb (by simp)
      have hadv := nextBlock_ok_advance Tokenize script _ _ _ _ hnb hlt'
      rw [hnb']
      cases ob with
      | none =>
        simp only []
        exact ih a c res (fun i line hi hl => hno i line (by omega) hl)
          (fun i hi hl => hok i (by omega) hl) (by omega)
      | some blk =>
        simp only []
        exact ih a c _ (fun i line hi hl => hno i line (by omega) hl)
          (fun i hi hl => hok i (by omega) hl) (by omega)

theorem ParseProgram_for_unclosed (ParseScript : Splitter) (Tokenize : Tokenizer)
    (scriptStr l0 : String) (n0 : Int) (g : Nat)
    (hscript : ParseScript scriptStr = .ok ⟨[l0], [n0]⟩)
    (h0 : Tokenize l0 = .ok [lit "for", lit "x", lit "\x7d"]) :
    ParseProgram ParseScript Tokenize (g + 4) scriptStr
      = .error ("Error at line " ++ Itoa n0 ++ ": Missing \x7d.") := by
  have hbody : readBlockBody Tokenize ⟨[l0], [n0]⟩ (g + 1) false 1 []
      = (.error "Missing \x7d.", 1) := by
    rw [readBlockBody]
    simp
  have hfor : readForLoop Tokenize ⟨[l0], [n0]⟩ (g + 2) [lit "for", lit "x", lit "\x7d"] 1
      = (.error "Missing \x7d.", 1) := by
    rw [readForLoop]
    simp [endsWithOpenCurly, lit, headerArgs, convertTokens,
      tokenToArgument_of_literal Tokenize (g + 1) ⟨"x", false⟩ rfl, hbody]
  have hnext : nextBlock Tokenize ⟨[l0], [n0]⟩ (g + 3) 0
      = (.error ("Error at line " ++ Itoa n0 ++ ": Missing \x7d."), 1) := by
    simp only [lit] at hfor
    rw [nextBlock]
    simp [h0, hfor, lit, String.append_assoc]
  unfold ParseProgram
  rw [hscript]
  simp only []
  rw [parseProgramLoop]
  simp [hnext]

/-! ## Keyword lines -/

theorem readForLoop_ok_shape (Tokenize : Tokenizer) (script : Script) (fuel : Nat)
    (t : List Token) (c : Nat) (b : Block) (d : Nat)
    (h : readForLoop Tokenize script fuel t c = (.ok b, d)) :
    ∃ k v body, b = Block.ForBlock k v body := by
  cases fuel with
  | zero => simp [readForLoop] at h
  | succ g =>
    rw [readForLoop] at h
    repeat' (split at h)
    all_goals simp only [Prod.mk.injEq] at h
    all_goals first
      | (obtain ⟨h1, _⟩ := h; contradiction)
      | (obtain ⟨h1, _⟩ := h
         simp only [Outcome.ok.injEq] at h1
         exact ⟨_, _, _, h1.symm⟩)

theorem readWhileLoop_ok_shape (Tokenize : Tokenizer) (script : Script) (fuel : Nat)
    (t : List Token) (c : Nat) (b : Block) (d : Nat)
    (h : readWhileLoop Tokenize script fuel t c = (.ok b, d)) :
    ∃ cond body, b = Block.WhileBlock cond body := by
  cases fuel with
  | zero => simp [readWhileLoop] at h
  | succ g =>
    rw [readWhileLoop] at h
    repeat' (split at h)
    all_goals simp only [Prod.mk.injEq] at h
    all_goals first
      | (obtain ⟨h1, _⟩ := h; contradiction)
      | (obtain ⟨h1, _⟩ := h
         simp only [Outcome.ok.injEq] at h1
         exact ⟨_, _, h1.symm⟩)

theorem keyword_not_command (Tokenize : Tokenizer) (script : Script) (i : Nat)
    (line : String) (tok0 : Token) (rest : List Token)
    (hline : script.LogicalLines[i]? = some line)
    (htok : Tokenize line = .ok (tok0 :: rest))
    (hlit : tok0.Command = false) (fuel : Nat) (ob : Option Block) (d : Nat)
    (h : nextBlock Tokenize script fuel i = (.ok ob, d)) :
    (tok0.Text = "for" → ∃ k v body, ob = some (Block.ForBlock k v body)) ∧
    (tok0.Text = "while" → ∃ cond body, ob = some (Block.WhileBlock cond body)) := by
  have hlt : i < script.LogicalLines.length := lt_length_of_getElem? hline
  cases fuel with
  | zero => simp [nextBlock] at h
  | succ f =>
    rw [nextBlock] at h
    simp only [Nat.ne_of_lt hlt, if_false, hline, htok, hlit] at h
    constructor
    · intro hfor
      simp only [hfor] at h
      split at h
      · cases h
      · simp only [Bool.not_false, Bool.true_and, beq_self_eq_true, if_true] at h
        split at h
        all_goals simp only [Prod.mk.injEq] at h
        all_goals first
          | (obtain ⟨h1, _⟩ := h; contradiction)
          | (obtain ⟨h1, _⟩ := h
             simp only [Outcome.ok.injEq] at h1
             obtain ⟨k, v, body, hb⟩ := readForLoop_ok_shape _ _ _ _ _ _ _
               ‹readForLoop Tokenize script f _ _ = _›
             exact ⟨k, v, body, by rw [← h1, hb]⟩)
    · intro hwhile
      simp only [hwhile] at h
      split at h
      · cases h
      · simp only [Bool.not_false, Bool.true_and, beq_self_eq_true, if_true] at h
        have hne : ("while" == "for") = false := by decide
        simp only [hne, Bool.false_eq_true, if_false] at h
        split at h
        all_goals simp only [Prod.mk.injEq] at h
        all_goals first
          | (obtain ⟨h1, _⟩ := h; contradiction)
          | (obtain ⟨h1, _⟩ := h
             simp only [Outcome.ok.injEq] at h1
             obtain ⟨cond, body, hb⟩ := readWhileLoop_ok_shape _ _ _ _ _ _ _
               ‹readWhileLoop Tokenize script f _ _ = _›
             exact ⟨cond, body, by rw [← h1, hb]⟩)

theorem nextBlock_missing_open (Tokenize : Tokenizer) (script : Script) (i : Nat) (n : Int)
    (line : String) (tok0 : Token) (rest : List Token)
    (hstart : script.LineStarts[i]? = some n)
    (hline : script.LogicalLines[i]? = some line)
    (htok : Tokenize line = .ok (tok0 :: rest))
    (hlit : tok0.Command = false)
    (hopen : endsWithOpenCurly (tok0 :: rest) = .ok false) (fuel : Nat) :
    (tok0.Text = "for" →
      nextBlock Tokenize script (fuel + 2) i
        = (.error ("Error at line " ++ Itoa n ++ ": Missing \x7b in for-loop."), i + 1)) ∧
    (tok0.Text = "while" →
      nextBlock Tokenize script (fuel + 2) i
        = (.error ("Error at line " ++ Itoa n ++ ": Missing \x7b in while-loop."), i + 1)) := by
  have hlt : i < script.LogicalLines.length := lt_length_of_getElem? hline
  constructor
  · intro hfor
    rw [nextBlock]
    simp only [Nat.ne_of_lt hlt, if_false, hstart, hline, htok, hlit, hfor]
    rw [readForLoop]
    simp [hopen, String.append_assoc]
  · intro hwhile
    have hne : ("while" == "for") = false := by decide
    rw [nextBlock]
    simp only [Nat.ne_of_lt hlt, if_false, hstart, hline, htok, hlit, hwhile, hne]
    rw [readWhileLoop]
    simp [hopen, String.append_assoc]

/-! ## Sample facts -/

theorem sample_no_close :
    ∀ i line tok0 rest, 0 ≤ i →
      (⟨["echo hi", "echo x"], [4, 5]⟩ : Script).LogicalLines[i]? = some line →
      sampleTokenizer line = .ok (tok0 :: rest) →
      ¬ (tok0.Command = false ∧ tok0.Text = "\x7d") := by
  intro i line tok0 rest _ hl ht
  match i, hl with
  | 0, hl =>
    simp at hl
    subst hl
    have : tok0 = lit "echo" := by
      have h : sampleTokenizer "echo hi" = .ok [lit "echo", lit "hi"] := rfl
      rw [h] at ht
      simp at ht
      exact ht.1.symm
    subst this
    simp [lit]
  | 1, hl =>
    simp at hl
    subst hl
    have : tok0 = lit "echo" := by
      have h : sampleTokenizer "echo x" = .ok [lit "echo", lit "x"] := rfl
      rw [h] at ht
      simp at ht
      exact ht.1.symm
    subst this
    simp [lit]
  | n + 2, hl => simp at hl

theorem sample_all_ok :
    ∀ i, 0 ≤ i → i < (⟨["echo hi", "echo x"], [4, 5]⟩ : Script).LogicalLines.length →
      ∃ ob c, nextBlock sampleTokenizer ⟨["echo hi", "echo x"], [4, 5]⟩ 1 i = (.ok ob, c) := by
  intro i _ hi
  match i, hi with
  | 0, _ => exact ⟨_, _, rfl⟩
  | 1, _ => exact ⟨_, _, rfl⟩
  | n + 2, hi => simp at hi

/-! ## Inserting a blank line -/

theorem insert_getElem?_lt {α : Type} (l : List α) (k i : Nat) (x : α) (h : i < k)
    (hk : k ≤ l.length) : (l.take k ++ x :: l.drop k)[i]? = l[i]? := by
  rw [List.getElem?_append_left (by simp; omega), List.getElem?_take_of_lt h]

theorem insert_getElem?_eq {α : Type} (l : List α) (k : Nat) (x : α)
    (hk : k ≤ l.length) : (l.take k ++ x :: l.drop k)[k]? = some x := by
  rw [List.getElem?_append_right (by simp)]
  simp [Nat.min_eq_left hk]

theorem insert_getElem?_gt {α : Type} (l : List α) (k i : Nat) (x : α) (h : k ≤ i)
    (hk : k ≤ l.length) : (l.take k ++ x :: l.drop k)[i + 1]? = l[i]? := by
  rw [List.getElem?_append_right (by simp; omega)]
  simp only [List.length_take, Nat.min_eq_left hk]
  have : i + 1 - k = (i - k) + 1 := by omega
  rw [this, List.getElem?_cons_succ, List.getElem?_drop]
  congr 1
  omega

theorem insert_length {α : Type} (l : List α) (k : Nat) (x : α) (hk : k ≤ l.length) :
    (l.take k ++ x :: l.drop k).length = l.length + 1 := by
  simp
  omega

theorem shift_all (Tokenize : Tokenizer) (script : Script) (k : Nat) (blank : String)
    (nb : Int) (hk : k ≤ script.LogicalLines.length)
    (hwf : script.LineStarts.length = script.LogicalLines.length) (fuel : Nat) :
    (∀ c r d, k ≤ c → nextBlock Tokenize script fuel c = (r, d) →
      nextBlock Tokenize (insertLine script k blank nb) fuel (c + 1) = (r, d + 1)) ∧
    (∀ a c res r d, k ≤ c → readBlockBody Tokenize script fuel a c res = (r, d) →
      readBlockBody Tokenize (insertLine script k blank nb) fuel a (c + 1) res
        = (r, d + 1)) ∧
    (∀ t c r d, k ≤ c → readForLoop Tokenize script fuel t c = (r, d) →
      readForLoop Tokenize (insertLine script k blank nb) fuel t (c + 1) = (r, d + 1)) ∧
    (∀ t c r d, k ≤ c → readWhileLoop Tokenize script fuel t c = (r, d) →
      readWhileLoop Tokenize (insertLine script k blank nb) fuel t (c + 1) = (r, d + 1)) := by
  have hk' : k ≤ script.LineStarts.length := by omega
  induction fuel with
  | zero =>
    refine ⟨?_, ?_, ?_, ?_⟩ <;> intros <;>
      simp_all [nextBlock, readBlockBody, readForLoop, readWhileLoop]
  | succ n ih =>
    obtain ⟨ihN, ihB, ihF, ihW⟩ := ih
    refine ⟨?_, ?_, ?_, ?_⟩
    · intro c r d hc h
      have hL : (insertLine script k blank nb).LogicalLines[c + 1]? = script.LogicalLines[c]? :=
        insert_getElem?_gt _ _ _ _ hc hk
      have hS : (insertLine script k blank nb).LineStarts[c + 1]? = script.LineStarts[c]? :=
        insert_getElem?_gt _ _ _ _ hc hk'
      have hlen : (insertLine script k blank nb).LogicalLines.length
          = script.LogicalLines.length + 1 := insert_length _ _ _ hk
      rw [nextBlock] at h ⊢
      rw [hL, hS, hlen]
      repeat' (split at h)
      all_goals simp only [Prod.mk.injEq] at h
      all_goals obtain ⟨rfl, rfl⟩ := h
      all_goals try
        (have h0 := ‹readForLoop Tokenize script n _ _ = _›
         have h1 := ihF _ _ _ _ (by omega) h0
         rw [h1])
      all_goals try
        (have h0 := ‹readWhileLoop Tokenize script n _ _ = _›
         have h1 := ihW _ _ _ _ (by omega) h0
         rw [h1])
      all_goals simp [*]
    · intro a c res r d hc h
      have hL : (insertLine script k blank nb).LogicalLines[c + 1]? = script.LogicalLines[c]? :=
        insert_getElem?_gt _ _ _ _ hc hk
      have hlen : (insertLine script k blank nb).LogicalLines.length
          = script.LogicalLines.length + 1 := insert_length _ _ _ hk
      rw [readBlockBody] at h ⊢
      rw [hL, hlen]
      repeat' (split at h)
      all_goals first
        | (simp only [Prod.mk.injEq] at h
           obtain ⟨rfl, rfl⟩ := h
           first
             | (have h1 := ihN _ _ _ hc ‹nextBlock Tokenize script n _ = _›
                simp [*])
             | simp [*])
        | (have h1 := ihN _ _ _ hc ‹nextBlock Tokenize script n _ = _›
           have hle := (cursor_le_all Tokenize script n).1 _ _ _
             ‹nextBlock Tokenize script n _ = _›
           have h2 := ihB _ _ _ _ _ (Nat.le_trans hc hle) h
           simp [*])
    · intro t c r d hc h
      rw [readForLoop] at h ⊢
      repeat' (split at h)
      all_goals simp only [Prod.mk.injEq] at h
      all_goals obtain ⟨rfl, rfl⟩ := h
      all_goals first
        | (have h1 := ihB _ _ _ _ _ hc ‹readBlockBody Tokenize script n _ _ _ = _›
           simp [*])
        | simp [*]
    · intro t c r d hc h
      rw [readWhileLoop] at h ⊢
      repeat' (split at h)
      all_goals simp only [Prod.mk.injEq] at h
      all_goals obtain ⟨rfl, rfl⟩ := h
      all_goals first
        | (have h1 := ihB _ _ _ _ _ hc ‹readBlockBody Tokenize script n _ _ _ = _›
           simp [*])
        | simp [*]

theorem unshift_of_le {k c : Nat} (h : c ≤ k) : unshift k c = c := by
  simp [unshift, h]

theorem unshift_succ_of_ge {k c : Nat} (h : k ≤ c) : unshift k (c + 1) = c := by
  simp [unshift]
  omega

theorem nextBlock_blank (Tokenize : Tokenizer) (script : Script) (k : Nat) (blank : String)
    (nb : Int) (hk : k ≤ script.LogicalLines.length)
    (hwf : script.LineStarts.length = script.LogicalLines.length)
    (hblank : Tokenize blank = .ok []) (fuel : Nat) :
    nextBlock Tokenize (insertLine script k blank nb) (fuel + 1) k = (.ok none, k + 1) := by
  have hL : (insertLine script k blank nb).LogicalLines[k]? = some blank :=
    insert_getElem?_eq _ _ _ hk
  have hS : (insertLine script k blank nb).LineStarts[k]? = some nb :=
    insert_getElem?_eq _ _ _ (by omega)
  have hlen : (insertLine script k blank nb).LogicalLines.length
      = script.LogicalLines.length + 1 := insert_length _ _ _ hk
  rw [nextBlock, hL, hS, hlen]
  simp [hblank]
  omega

theorem rev_gt (Tokenize : Tokenizer) (script : Script) (k : Nat) (blank : String)
    (nb : Int) (hk : k ≤ script.LogicalLines.length)
    (hwf : script.LineStarts.length = script.LogicalLines.length) (fuel : Nat) :
    (∀ c r d, k < c → nextBlock Tokenize (insertLine script k blank nb) fuel c = (r, d) →
      nextBlock Tokenize script fuel (unshift k c) = (r, unshift k d)) ∧
    (∀ a c res r d, k < c →
      readBlockBody Tokenize (insertLine script k blank nb) fuel a c res = (r, d) →
      readBlockBody Tokenize script fuel a (unshift k c) res = (r, unshift k d)) ∧
    (∀ t c r d, k < c → readForLoop Tokenize (insertLine script k blank nb) fuel t c = (r, d) →
      readForLoop Tokenize script fuel t (unshift k c) = (r, unshift k d)) ∧
    (∀ t c r d, k < c →
      readWhileLoop Tokenize (insertLine script k blank nb) fuel t c = (r, d) →
      readWhileLoop Tokenize script fuel t (unshift k c) = (r, unshift k d)) := by
  obtain ⟨sN, sB, sF, sW⟩ := shift_all Tokenize script k blank nb hk hwf fuel
  have hcur := cursor_le_all Tokenize script fuel
  refine ⟨?_, ?_, ?_, ?_⟩
  · intro c r d hc h
    obtain ⟨c0, rfl⟩ : ∃ c0, c = c0 + 1 := ⟨c - 1, by omega⟩
    cases h0 : nextBlock Tokenize script fuel c0 with
    | mk r0 d0 =>
      have h1 := sN c0 r0 d0 (by omega) h0
      have hle := hcur.1 _ _ _ h0
      rw [h1] at h
      simp only [Prod.mk.injEq] at h
      obtain ⟨rfl, rfl⟩ := h
      rw [unshift_succ_of_ge (by omega), unshift_succ_of_ge (by omega)]
      exact h0
  · intro a c res r d hc h
    obtain ⟨c0, rfl⟩ : ∃ c0, c = c0 + 1 := ⟨c - 1, by omega⟩
    cases h0 : readBlockBody Tokenize script fuel a c0 res with
    | mk r0 d0 =>
      have h1 := sB a c0 res r0 d0 (by omega) h0
      have hle := hcur.2.1 _ _ _ _ _ h0
      rw [h1] at h
      simp only [Prod.mk.injEq] at h
      obtain ⟨rfl, rfl⟩ := h
      rw [unshift_succ_of_ge (by omega), unshift_succ_of_ge (by omega)]
      exact h0
  · intro t c r d hc h
    obtain ⟨c0, rfl⟩ : ∃ c0, c = c0 + 1 := ⟨c - 1, by omega⟩
    cases h0 : readForLoop Tokenize script fuel t c0 with
    | mk r0 d0 =>
      have h1 := sF t c0 r0 d0 (by omega) h0
      have hle := hcur.2.2.1 _ _ _ _ h0
      rw [h1] at h
      simp only [Prod.mk.injEq] at h
      obtain ⟨rfl, rfl⟩ := h
      rw [unshift_succ_of_ge (by omega), unshift_succ_of_ge (by omega)]
      exact h0
  · intro t c r d hc h
    obtain ⟨c0, rfl⟩ : ∃ c0, c = c0 + 1 := ⟨c - 1, by omega⟩
    cases h0 : readWhileLoop Tokenize script fuel t c0 with
    | mk r0 d0 =>
      have h1 := sW t c0 r0 d0 (by omega) h0
      have hle := hcur.2.2.2 _ _ _ _ h0
      rw [h1] at h
      simp only [Prod.mk.injEq] at h
      obtain ⟨rfl, rfl⟩ := h
      rw [unshift_succ_of_ge (by omega), unshift_succ_of_ge (by omega)]
      exact h0

theorem rev_all (Tokenize : Tokenizer) (script : Script) (k : Nat) (blank : String)
    (nb : Int) (hk : k ≤ script.LogicalLines.length)
    (hwf : script.LineStarts.length = script.LogicalLines.length)
    (hblank : Tokenize blank = .ok []) (fuel : Nat) :
    (∀ c r d, c ≠ k → nextBlock Tokenize (insertLine script k blank nb) fuel c = (r, d) →
      r ≠ .outOfFuel → nextBlock Tokenize script fuel (unshift k c) = (r, unshift k d)) ∧
    (∀ a c res r d,
      readBlockBody Tokenize (insertLine script k blank nb) fuel a c res = (r, d) →
      r ≠ .outOfFuel →
      readBlockBody Tokenize script fuel a (unshift k c) res = (r, unshift k d)) ∧
    (∀ t c r d, readForLoop Tokenize (insertLine script k blank nb) fuel t c = (r, d) →
      r ≠ .outOfFuel → readForLoop Tokenize script fuel t (unshift k c) = (r, unshift k d)) ∧
    (∀ t c r d, readWhileLoop Tokenize (insertLine script k blank nb) fuel t c = (r, d) →
      r ≠ .outOfFuel →
      readWhileLoop Tokenize script fuel t (unshift k c) = (r, unshift k d)) := by
  have hk' : k ≤ script.LineStarts.length := by omega
  have hlen : (insertLine script k blank nb).LogicalLines.length
      = script.LogicalLines.length + 1 := insert_length _ _ _ hk
  induction fuel with
  | zero =>
    refine ⟨?_, ?_, ?_, ?_⟩ <;> intros <;>
      simp_all [nextBlock, readBlockBody, readForLoop, readWhileLoop]
  | succ n ih =>
    obtain ⟨ihN, ihB, ihF, ihW⟩ := ih
    refine ⟨?_, ?_, ?_, ?_⟩
    · intro c r d hck h hr
      rcases Nat.lt_or_gt_of_ne hck with hlt | hgt
      · have hL : (insertLine script k blank nb).LogicalLines[c]? = script.LogicalLines[c]? :=
          insert_getElem?_lt _ _ _ _ hlt hk
        have hS : (insertLine script k blank nb).LineStarts[c]? = script.LineStarts[c]? :=
          insert_getElem?_lt _ _ _ _ hlt hk'
        have hne1 : c ≠ script.LogicalLines.length + 1 := by omega
        have hne2 : c ≠ script.LogicalLines.length := by omega
        have hu1 : unshift k (c + 1) = c + 1 := unshift_of_le (by omega)
        rw [unshift_of_le (Nat.le_of_lt hlt)]
        rw [nextBlock] at h ⊢
        rw [hL, hS, hlen] at h
        simp only [hne1, if_false] at h
        simp only [hne2, if_false]
        repeat' (split at h)
        all_goals simp only [Prod.mk.injEq] at h
        all_goals obtain ⟨rfl, rfl⟩ := h
        all_goals first
          | exact absurd rfl hr
          | (have h0 := ‹readForLoop Tokenize (insertLine script k blank nb) n _ _ = _›
             have h1 := ihF _ _ _ _ h0 (by simp)
             rw [hu1] at h1
             simp [*])
          | (have h0 := ‹readWhileLoop Tokenize (insertLine script k blank nb) n _ _ = _›
             have h1 := ihW _ _ _ _ h0 (by simp)
             rw [hu1] at h1
             simp [*])
          | simp [*, unshift_of_le (Nat.le_of_lt hlt)]
      · exact (rev_gt Tokenize script k blank nb hk hwf (n + 1)).1 c r d hgt h
    · intro a c res r d h hr
      rcases Nat.lt_trichotomy c k with hlt | heq | hgt
      · have hL : (insertLine script k blank nb).LogicalLines[c]? = script.LogicalLines[c]? :=
          insert_getElem?_lt _ _ _ _ hlt hk
        have hne1 : ¬ c ≥ script.LogicalLines.length + 1 := by omega
        have hne2 : ¬ c ≥ script.LogicalLines.length := by omega
        have hu1 : unshift k (c + 1) = c + 1 := unshift_of_le (by omega)
        have hu0 : unshift k c = c := unshift_of_le (Nat.le_of_lt hlt)
        rw [hu0]
        rw [readBlockBody] at h ⊢
        rw [hL, hlen] at h
        simp only [hne1, if_false] at h
        simp only [hne2, if_false]
        repeat' (split at h)
        all_goals first
          | (simp only [Prod.mk.injEq] at h
             obtain ⟨rfl, rfl⟩ := h
             first
               | exact absurd rfl hr
               | (have h0 := ‹nextBlock Tokenize (insertLine script k blank nb) n _ = _›
                  have h1 := ihN _ _ _ (Nat.ne_of_lt hlt) h0 (by simp)
                  rw [hu0] at h1
                  simp [*])
               | simp [*])
          | (have h0 := ‹nextBlock Tokenize (insertLine script k blank nb) n _ = _›
             have h1 := ihN _ _ _ (Nat.ne_of_lt hlt) h0 (by simp)
             rw [hu0] at h1
             have h2 := ihB _ _ _ _ _ h hr
             simp [*])
      · subst heq
        have hL : (insertLine script c blank nb).LogicalLines[c]? = some blank :=
          insert_getElem?_eq _ _ _ hk
        have hne1 : ¬ c ≥ script.LogicalLines.length + 1 := by omega
        rw [readBlockBody] at h
        rw [hL, hlen] at h
        simp only [hne1, if_false, hblank, closeLine] at h
        cases n with
        | zero =>
          simp only [nextBlock] at h
          simp only [Prod.mk.injEq] at h
          exact absurd h.1.symm hr
        | succ j =>
          rw [nextBlock_blank Tokenize script c blank nb hk hwf hblank j] at h
          simp only [] at h
          have h2 := ihB _ _ _ _ _ h hr
          rw [unshift_succ_of_ge (Nat.le_refl _)] at h2
          rw [unshift_of_le (Nat.le_refl _)]
          exact (fuel_succ_all Tokenize script (j + 1)).2.1 _ _ _ _ _ h2 hr
      · exact (rev_gt Tokenize script k blank nb hk hwf (n + 1)).2.1 a c res r d hgt h
    · intro t c r d h hr
      rw [readForLoop] at h ⊢
      repeat' (split at h)
      all_goals simp only [Prod.mk.injEq] at h
      all_goals obtain ⟨rfl, rfl⟩ := h
      all_goals first
        | exact absurd rfl hr
        | (have h0 := ‹readBlockBody Tokenize (insertLine script k blank nb) n _ _ _ = _›
           have h1 := ihB _ _ _ _ _ h0 (by simp)
           simp [*])
        | simp [*]
    · intro t c r d h hr
      rw [readWhileLoop] at h ⊢
      repeat' (split at h)
      all_goals simp only [Prod.mk.injEq] at h
      all_goals obtain ⟨rfl, rfl⟩ := h
      all_goals first
        | exact absurd rfl hr
        | (have h0 := ‹readBlockBody Tokenize (insertLine script k blank nb) n _ _ _ = _›
           have h1 := ihB _ _ _ _ _ h0 (by simp)
           simp [*])
        | simp [*]

theorem fwd_gt (Tokenize : Tokenizer) (script : Script) (k : Nat) (blank : String)
    (nb : Int) (hk : k ≤ script.LogicalLines.length)
    (hwf : script.LineStarts.length = script.LogicalLines.length) (fuel : Nat) :
    (∀ c r d, k < c → nextBlock Tokenize script fuel (unshift k c) = (r, d) →
      r ≠ .outOfFuel →
      ∃ d', nextBlock Tokenize (insertLine script k blank nb) (fuel + 1) c = (r, d') ∧
        unshift k d' = d) ∧
    (∀ a c res r d, k < c → readBlockBody Tokenize script fuel a (unshift k c) res = (r, d) →
      r ≠ .outOfFuel →
      ∃ d', readBlockBody Tokenize (insertLine script k blank nb) (fuel + 1) a c res = (r, d') ∧
        unshift k d' = d) ∧
    (∀ t c r d, k < c → readForLoop Tokenize script fuel t (unshift k c) = (r, d) →
      r ≠ .outOfFuel →
      ∃ d', readForLoop Tokenize (insertLine script k blank nb) (fuel + 1) t c = (r, d') ∧
        unshift k d' = d) ∧
    (∀ t c r d, k < c → readWhileLoop Tokenize script fuel t (unshift k c) = (r, d) →
      r ≠ .outOfFuel →
      ∃ d', readWhileLoop Tokenize (insertLine script k blank nb) (fuel + 1) t c = (r, d') ∧
        unshift k d' = d) := by
  obtain ⟨sN, sB, sF, sW⟩ := shift_all Tokenize script k blank nb hk hwf fuel
  obtain ⟨mN, mB, mF, mW⟩ := fuel_succ_all Tokenize (insertLine script k blank nb) fuel
  have hcur := cursor_le_all Tokenize script fuel
  refine ⟨?_, ?_, ?_, ?_⟩
  · intro c r d hc h hr
    obtain ⟨c0, rfl⟩ : ∃ c0, c = c0 + 1 := ⟨c - 1, by omega⟩
    rw [unshift_succ_of_ge (by omega)] at h
    have hle := hcur.1 _ _ _ h
    exact ⟨d + 1, mN _ _ _ (sN c0 r d (by omega) h) hr, unshift_succ_of_ge (by omega)⟩
  · intro a c res r d hc h hr
    obtain ⟨c0, rfl⟩ : ∃ c0, c = c0 + 1 := ⟨c - 1, by omega⟩
    rw [unshift_succ_of_ge (by omega)] at h
    have hle := hcur.2.1 _ _ _ _ _ h
    exact ⟨d + 1, mB _ _ _ _ _ (sB a c0 res r d (by omega) h) hr,
      unshift_succ_of_ge (by omega)⟩
  · intro t c r d hc h hr
    obtain ⟨c0, rfl⟩ : ∃ c0, c = c0 + 1 := ⟨c - 1, by omega⟩
    rw [unshift_succ_of_ge (by omega)] at h
    have hle := hcur.2.2.1 _ _ _ _ h
    exact ⟨d + 1, mF _ _ _ _ (sF t c0 r d (by omega) h) hr, unshift_succ_of_ge (by omega)⟩
  · intro t c r d hc h hr
    obtain ⟨c0, rfl⟩ : ∃ c0, c = c0 + 1 := ⟨c - 1, by omega⟩
    rw [unshift_succ_of_ge (by omega)] at h
    have hle := hcur.2.2.2 _ _ _ _ h
    exact ⟨d + 1, mW _ _ _ _ (sW t c0 r d (by omega) h) hr, unshift_succ_of_ge (by omega)⟩

theorem fwd_all (Tokenize : Tokenizer) (script : Script) (k : Nat) (blank : String)
    (nb : Int) (hk : k ≤ script.LogicalLines.length)
    (hwf : script.LineStarts.length = script.LogicalLines.length)
    (hblank : Tokenize blank = .ok []) (fuel : Nat) :
    (∀ c r d, c ≠ k → nextBlock Tokenize script fuel (unshift k c) = (r, d) →
      r ≠ .outOfFuel →
      ∃ d', nextBlock Tokenize (insertLine script k blank nb) (fuel + 1) c = (r, d') ∧
        unshift k d' = d) ∧
    (∀ a c res r d, readBlockBody Tokenize script fuel a (unshift k c) res = (r, d) →
      r ≠ .outOfFuel →
      ∃ d', readBlockBody Tokenize (insertLine script k blank nb) (fuel + 1) a c res = (r, d') ∧
        unshift k d' = d) ∧
    (∀ t c r d, readForLoop Tokenize script fuel t (unshift k c) = (r, d) →
      r ≠ .outOfFuel →
      ∃ d', readForLoop Tokenize (insertLine script k blank nb) (fuel + 1) t c = (r, d') ∧
        unshift k d' = d) ∧
    (∀ t c r d, readWhileLoop Tokenize script fuel t (unshift k c) = (r, d) →
      r ≠ .outOfFuel →
      ∃ d', readWhileLoop Tokenize (insertLine script k blank nb) (fuel + 1) t c = (r, d') ∧
        unshift k d' = d) := by
  have hk' : k ≤ script.LineStarts.length := by omega
  have hlen : (insertLine script k blank nb).LogicalLines.length
      = script.LogicalLines.length + 1 := insert_length _ _ _ hk
  induction fuel with
  | zero =>
    refine ⟨?_, ?_, ?_, ?_⟩ <;> intros <;>
      simp_all [nextBlock, readBlockBody, readForLoop, readWhileLoop]
  | succ n ih =>
    obtain ⟨ihN, ihB, ihF, ihW⟩ := ih
    refine ⟨?_, ?_, ?_, ?_⟩
    · intro c r d hck h hr
      rcases Nat.lt_or_gt_of_ne hck with hlt | hgt
      · have hL : (insertLine script k blank nb).LogicalLines[c]? = script.LogicalLines[c]? :=
          insert_getElem?_lt _ _ _ _ hlt hk
        have hS : (insertLine script k blank nb).LineStarts[c]? = script.LineStarts[c]? :=
          insert_getElem?_lt _ _ _ _ hlt hk'
        have hne1 : c ≠ script.LogicalLines.length + 1 := by omega
        have hne2 : c ≠ script.LogicalLines.length := by omega
        have hu1 : unshift k (c + 1) = c + 1 := unshift_of_le (by omega)
        have hu0 : unshift k c = c := unshift_of_le (Nat.le_of_lt hlt)
        rw [hu0] at h
        rw [nextBlock] at h ⊢
        rw [hL, hS, hlen]
        simp only [hne1, if_false]
        simp only [hne2, if_false] at h
        repeat' (split at h)
        all_goals simp only [Prod.mk.injEq] at h
        all_goals obtain ⟨rfl, rfl⟩ := h
        all_goals first
          | exact absurd rfl hr
          | (have h0 := ‹readForLoop Tokenize script n _ _ = _›
             rw [← hu1] at h0
             obtain ⟨d', h1, rfl⟩ := ihF _ _ _ _ h0 (by simp)
             exact ⟨d', by simp [*], rfl⟩)
          | (have h0 := ‹readWhileLoop Tokenize script n _ _ = _›
             rw [← hu1] at h0
             obtain ⟨d', h1, rfl⟩ := ihW _ _ _ _ h0 (by simp)
             exact ⟨d', by simp [*], rfl⟩)
          | (have h1 := tokensToCommand_mono Tokenize n (n + 1) (by omega) _
              (by rw [‹tokensToCommand Tokenize n _ = _›]; simp)
             exact ⟨c + 1, by simp [*], hu1⟩)
          | exact ⟨c + 1, by simp [*], hu1⟩
          | exact ⟨c, by simp [*], hu0⟩
      · exact (fwd_gt Tokenize script k blank nb hk hwf (n + 1)).1 c r d hgt h hr
    · intro a c res r d h hr
      rcases Nat.lt_trichotomy c k with hlt | heq | hgt
      · have hL : (insertLine script k blank nb).LogicalLines[c]? = script.LogicalLines[c]? :=
          insert_getElem?_lt _ _ _ _ hlt hk
        have hne1 : ¬ c ≥ script.LogicalLines.length + 1 := by omega
        have hne2 : ¬ c ≥ script.LogicalLines.length := by omega
        have hu1 : unshift k (c + 1) = c + 1 := unshift_of_le (by omega)
        have hu0 : unshift k c = c := unshift_of_le (Nat.le_of_lt hlt)
        rw [hu0] at h
        rw [readBlockBody] at h ⊢
        rw [hL, hlen]
        simp only [hne1, if_false]
        simp only [hne2, if_false] at h
        repeat' (split at h)
        all_goals first
          | (simp only [Prod.mk.injEq] at h
             obtain ⟨rfl, rfl⟩ := h
             first
               | exact absurd rfl hr
               | (have h0 := ‹nextBlock Tokenize script n _ = _›
                  rw [← hu0] at h0
                  obtain ⟨d', h1, rfl⟩ := ihN _ _ _ (Nat.ne_of_lt hlt) h0 (by simp)
                  exact ⟨d', by simp [*], rfl⟩)
               | exact ⟨c + 1, by simp [*], hu1⟩
               | exact ⟨c, by simp [*], hu0⟩)
          | (have h0 := ‹nextBlock Tokenize script n _ = _›
             rw [← hu0] at h0
             obtain ⟨d1, h1, rfl⟩ := ihN _ _ _ (Nat.ne_of_lt hlt) h0 (by simp)
             obtain ⟨d', h2, rfl⟩ := ihB _ _ _ _ _ h hr
             exact ⟨d', by simp [*], rfl⟩)
      · subst heq
        have hL : (insertLine script c blank nb).LogicalLines[c]? = some blank :=
          insert_getElem?_eq _ _ _ hk
        have hne1 : ¬ c ≥ script.LogicalLines.length + 1 := by omega
        rw [unshift_of_le (Nat.le_refl _)] at h
        have hle := (cursor_le_all Tokenize script (n + 1)).2.1 _ _ _ _ _ h
        have hs := (shift_all Tokenize script c blank nb hk hwf (n + 1)).2.1 a c res r d
          (Nat.le_refl _) h
        refine ⟨d + 1, ?_, unshift_succ_of_ge hle⟩
        rw [readBlockBody]
        rw [hL, hlen]
        simp only [hne1, if_false, hblank, closeLine]
        rw [nextBlock_blank Tokenize script c blank nb hk hwf hblank n]
        exact hs
      · exact (fwd_gt Tokenize script k blank nb hk hwf (n + 1)).2.1 a c res r d hgt h hr
    · intro t c r d h hr
      rw [readForLoop] at h ⊢
      repeat' (split at h)
      all_goals simp only [Prod.mk.injEq] at h
      all_goals obtain ⟨rfl, rfl⟩ := h
      all_goals first
        | exact absurd rfl hr
        | (have h0 := convertTokens_mono Tokenize n (n + 1) (by omega) _
            (by rw [‹convertTokens (tokenToArgument Tokenize n) _ = _›]; simp)
           have h1 := ‹readBlockBody Tokenize script n _ _ _ = _›
           obtain ⟨d', h2, rfl⟩ := ihB _ _ _ _ _ h1 (by simp)
           exact ⟨d', by simp [*], rfl⟩)
        | (have h0 := convertTokens_mono Tokenize n (n + 1) (by omega) _
            (by rw [‹convertTokens (tokenToArgument Tokenize n) _ = _›]; simp)
           exact ⟨c, by simp [*], rfl⟩)
        | exact ⟨c, by simp [*], rfl⟩
    · intro t c r d h hr
      rw [readWhileLoop] at h ⊢
      repeat' (split at h)
      all_goals simp only [Prod.mk.injEq] at h
      all_goals obtain ⟨rfl, rfl⟩ := h
      all_goals first
        | exact absurd rfl hr
        | (have h0 := convertTokens_mono Tokenize n (n + 1) (by omega) _
            (by rw [‹convertTokens (tokenToArgument Tokenize n) _ = _›]; simp)
           have h1 := ‹readBlockBody Tokenize script n _ _ _ = _›
           obtain ⟨d', h2, rfl⟩ := ihB _ _ _ _ _ h1 (by simp)
           exact ⟨d', by simp [*], rfl⟩)
        | (have h0 := convertTokens_mono Tokenize n (n + 1) (by omega) _
            (by rw [‹convertTokens (tokenToArgument Tokenize n) _ = _›]; simp)
           exact ⟨c, by simp [*], rfl⟩)
        | exact ⟨c, by simp [*], rfl⟩

theorem parseProgramLoop_cursor_le (Tokenize : Tokenizer) (script : Script) (fuel : Nat) :
    ∀ (c : Nat) (res : List Block) (r : Outcome (List Block)) (d : Nat),
      parseProgramLoop Tokenize script fuel c res = (r, d) → c ≤ d := by
  induction fuel with
  | zero =>
    intro c res r d h
    simp_all [parseProgramLoop]
  | succ m ihm =>
    intro c res r d h
    rw [parseProgramLoop] at h
    repeat' (split at h)
    all_goals first
      | (simp only [Prod.mk.injEq] at h; omega)
      | (have h1 := (cursor_le_all Tokenize script m).1 _ _ _
           ‹nextBlock Tokenize script m _ = _›
         simp only [Prod.mk.injEq] at h; omega)
      | (have h1 := (cursor_le_all Tokenize script m).1 _ _ _
           ‹nextBlock Tokenize script m _ = _›
         have h2 := ihm _ _ _ _ h; omega)

theorem parseProgramLoop_succ (Tokenize : Tokenizer) (script : Script) (fuel : Nat) :
    ∀ c res r d, parseProgramLoop Tokenize script fuel c res = (r, d) → r ≠ .outOfFuel →
      parseProgramLoop Tokenize script (fuel + 1) c res = (r, d) := by
  induction fuel with
  | zero =>
    intro c res r d h hr
    simp_all [parseProgramLoop]
  | succ n ih =>
    intro c res r d h hr
    rw [parseProgramLoop] at h ⊢
    repeat' (split at h)
    all_goals first
      | (simp only [Prod.mk.injEq] at h
         obtain ⟨rfl, rfl⟩ := h
         first
           | exact absurd rfl hr
           | (have h1 := (fuel_succ_all Tokenize script n).1 _ _ _
                ‹nextBlock Tokenize script n _ = _› (by simp)
              simp [*])
           | simp [*])
      | (have h1 := (fuel_succ_all Tokenize script n).1 _ _ _
            ‹nextBlock Tokenize script n _ = _› (by simp)
         have h2 := ih _ _ _ _ h hr
         simp [*])

theorem parseProgramLoop_shift (Tokenize : Tokenizer) (script : Script) (k : Nat)
    (blank : String) (nb : Int) (hk : k ≤ script.LogicalLines.length)
    (hwf : script.LineStarts.length = script.LogicalLines.length) (fuel : Nat) :
    ∀ c res r d, k ≤ c → parseProgramLoop Tokenize script fuel c res = (r, d) →
      parseProgramLoop Tokenize (insertLine script k blank nb) fuel (c + 1) res
        = (r, d + 1) := by
  have hlen : (insertLine script k blank nb).LogicalLines.length
      = script.LogicalLines.length + 1 := insert_length _ _ _ hk
  induction fuel with
  | zero =>
    intro c res r d _ h
    simp_all [parseProgramLoop]
  | succ n ih =>
    intro c res r d hc h
    rw [parseProgramLoop] at h ⊢
    rw [hlen]
    repeat' (split at h)
    all_goals first
      | (simp only [Prod.mk.injEq] at h
         obtain ⟨rfl, rfl⟩ := h
         first
           | (have h1 := (shift_all Tokenize script k blank nb hk hwf n).1 _ _ _ hc
                ‹nextBlock Tokenize script n _ = _›
              simp [*])
           | simp [*])
      | (have h1 := (shift_all Tokenize script k blank nb hk hwf n).1 _ _ _ hc
            ‹nextBlock Tokenize script n _ = _›
         have hle := (cursor_le_all Tokenize script n).1 _ _ _
           ‹nextBlock Tokenize script n _ = _›
         have h2 := ih _ _ _ _ (Nat.le_trans hc hle) h
         simp [*])

theorem parseProgramLoop_rev (Tokenize : Tokenizer) (script : Script) (k : Nat)
    (blank : String) (nb : Int) (hk : k ≤ script.LogicalLines.length)
    (hwf : script.LineStarts.length = script.LogicalLines.length)
    (hblank : Tokenize blank = .ok []) (fuel : Nat) :
    ∀ c res r d,
      parseProgramLoop Tokenize (insertLine script k blank nb) fuel c res = (r, d) →
      r ≠ .outOfFuel →
      parseProgramLoop Tokenize script fuel (unshift k c) res = (r, unshift k d) := by
  have hlen : (insertLine script k blank nb).LogicalLines.length
      = script.LogicalLines.length + 1 := insert_length _ _ _ hk
  induction fuel with
  | zero =>
    intro c res r d h hr
    simp_all [parseProgramLoop]
  | succ n ih =>
    intro c res r d h hr
    rcases Nat.lt_trichotomy c k with hlt | heq | hgt
    · have hne1 : ¬ c ≥ script.LogicalLines.length + 1 := by omega
      have hne2 : ¬ c ≥ script.LogicalLines.length := by omega
      have hu0 : unshift k c = c := unshift_of_le (Nat.le_of_lt hlt)
      rw [hu0]
      rw [parseProgramLoop] at h ⊢
      rw [hlen] at h
      simp only [hne1, if_false] at h
      simp only [hne2, if_false]
      repeat' (split at h)
      all_goals first
        | (simp only [Prod.mk.injEq] at h
           obtain ⟨rfl, rfl⟩ := h
           first
             | exact absurd rfl hr
             | (have h0 := ‹nextBlock Tokenize (insertLine script k blank nb) n _ = _›
                have h1 := (rev_all Tokenize script k blank nb hk hwf hblank n).1 _ _ _
                  (Nat.ne_of_lt hlt) h0 (by simp)
                rw [hu0] at h1
                simp [*]))
        | (have h0 := ‹nextBlock Tokenize (insertLine script k blank nb) n _ = _›
           have h1 := (rev_all Tokenize script k blank nb hk hwf hblank n).1 _ _ _
             (Nat.ne_of_lt hlt) h0 (by simp)
           rw [hu0] at h1
           have h2 := ih _ _ _ _ h hr
           simp [*])
    · subst heq
      have hne1 : ¬ c ≥ script.LogicalLines.length + 1 := by omega
      rw [parseProgramLoop] at h
      rw [hlen] at h
      simp only [hne1, if_false] at h
      cases n with
      | zero =>
        simp only [nextBlock] at h
        simp only [Prod.mk.injEq] at h
        exact absurd h.1.symm hr
      | succ j =>
        rw [nextBlock_blank Tokenize script c blank nb hk hwf hblank j] at h
        simp only [] at h
        have h2 := ih _ _ _ _ h hr
        rw [unshift_succ_of_ge (Nat.le_refl _)] at h2
        rw [unshift_of_le (Nat.le_refl _)]
        exact parseProgramLoop_succ Tokenize script (j + 1) _ _ _ _ h2 hr
    · obtain ⟨c0, rfl⟩ : ∃ c0, c = c0 + 1 := ⟨c - 1, by omega⟩
      cases h0 : parseProgramLoop Tokenize script (n + 1) c0 res with
      | mk r0 d0 =>
        have h1 := parseProgramLoop_shift Tokenize script k blank nb hk hwf (n + 1)
          c0 res r0 d0 (by omega) h0
        rw [h1] at h
        simp only [Prod.mk.injEq] at h
        obtain ⟨rfl, rfl⟩ := h
        have hle : c0 ≤ d0 := parseProgramLoop_cursor_le Tokenize script (n + 1) _ _ _ _ h0
        rw [unshift_succ_of_ge (by omega), unshift_succ_of_ge (by omega)]
        exact h0

theorem parseProgramLoop_fwd (Tokenize : Tokenizer) (script : Script) (k : Nat)
    (blank : String) (nb : Int) (hk : k ≤ script.LogicalLines.length)
    (hwf : script.LineStarts.length = script.LogicalLines.length)
    (hblank : Tokenize blank = .ok []) (fuel : Nat) :
    ∀ c res r d, parseProgramLoop Tokenize script fuel (unshift k c) res = (r, d) →
      r ≠ .outOfFuel →
      ∃ d', parseProgramLoop Tokenize (insertLine script k blank nb) (fuel + 1) c res
          = (r, d') ∧ unshift k d' = d := by
  have hlen : (insertLine script k blank nb).LogicalLines.length
      = script.LogicalLines.length + 1 := insert_length _ _ _ hk
  induction fuel with
  | zero =>
    intro c res r d h hr
    simp_all [parseProgramLoop]
  | succ n ih =>
    intro c res r d h hr
    rcases Nat.lt_trichotomy c k with hlt | heq | hgt
    · have hne1 : ¬ c ≥ script.LogicalLines.length + 1 := by omega
      have hne2 : ¬ c ≥ script.LogicalLines.length := by omega
      have hu0 : unshift k c = c := unshift_of_le (Nat.le_of_lt hlt)
      rw [hu0] at h
      rw [parseProgramLoop] at h ⊢
      rw [hlen]
      simp only [hne1, if_false]
      simp only [hne2, if_false] at h
      repeat' (split at h)
      all_goals first
        | (simp only [Prod.mk.injEq] at h
           obtain ⟨rfl, rfl⟩ := h
           first
             | exact absurd rfl hr
             | (have h0 := ‹nextBlock Tokenize script n _ = _›
                rw [← hu0] at h0
                obtain ⟨d', h1, rfl⟩ := (fwd_all Tokenize script k blank nb hk hwf hblank n).1
                  _ _ _ (Nat.ne_of_lt hlt) h0 (by simp)
                exact ⟨d', by simp [*], rfl⟩))
        | (have h0 := ‹nextBlock Tokenize script n _ = _›
           rw [← hu0] at h0
           obtain ⟨d1, h1, rfl⟩ := (fwd_all Tokenize script k blank nb hk hwf hblank n).1
             _ _ _ (Nat.ne_of_lt hlt) h0 (by simp)
           obtain ⟨d', h2, rfl⟩ := ih _ _ _ _ h hr
           exact ⟨d', by simp [*], rfl⟩)
    · subst heq
      have hne1 : ¬ c ≥ script.LogicalLines.length + 1 := by omega
      rw [unshift_of_le (Nat.le_refl _)] at h
      have hle := parseProgramLoop_cursor_le Tokenize script (n + 1) _ _ _ _ h
      have hs := parseProgramLoop_shift Tokenize script c blank nb hk hwf (n + 1) c res r d
        (Nat.le_refl _) h
      refine ⟨d + 1, ?_, unshift_succ_of_ge hle⟩
      rw [parseProgramLoop]
      rw [hlen]
      simp only [hne1, if_false]
      rw [nextBlock_blank Tokenize script c blank nb hk hwf hblank n]
      exact hs
    · obtain ⟨c0, rfl⟩ : ∃ c0, c = c0 + 1 := ⟨c - 1, by omega⟩
      rw [unshift_succ_of_ge (by omega)] at h
      have hle := parseProgramLoop_cursor_le Tokenize script (n + 1) _ _ _ _ h
      have hs := parseProgramLoop_shift Tokenize script k blank nb hk hwf (n + 1) c0 res r d
        (by omega) h
      exact ⟨d + 1, parseProgramLoop_succ Tokenize _ (n + 1) _ _ _ _ hs hr,
        unshift_succ_of_ge (by omega)⟩

theorem ParseProgram_insertLine (ParseScript : Splitter) (Tokenize : Tokenizer)
    (scriptStr scriptStr' : String) (script : Script) (k : Nat) (blank : String) (nb : Int)
    (hscript : ParseScript scriptStr = .ok script)
    (hscript' : ParseScript scriptStr' = .ok (insertLine script k blank nb))
    (hk : k ≤ script.LogicalLines.length)
    (hwf : script.LineStarts.length = script.LogicalLines.length)
    (hblank : Tokenize blank = .ok [])
    (r : Outcome (List Block)) (hr : r ≠ .outOfFuel) :
    (∃ fuel, ParseProgram ParseScript Tokenize fuel scriptStr' = r) ↔
      (∃ fuel, ParseProgram ParseScript Tokenize fuel scriptStr = r) := by
  unfold ParseProgram
  rw [hscript, hscript']
  simp only []
  constructor
  · rintro ⟨fuel, h⟩
    cases h0 : parseProgramLoop Tokenize (insertLine script k blank nb) fuel 0 [] with
    | mk r0 d0 =>
      rw [h0] at h
      simp only [] at h
      subst h
      have h1 := parseProgramLoop_rev Tokenize script k blank nb hk hwf hblank fuel _ _ _ _
        h0 hr
      rw [unshift_of_le (Nat.zero_le _)] at h1
      exact ⟨fuel, by rw [h1]⟩
  · rintro ⟨fuel, h⟩
    cases h0 : parseProgramLoop Tokenize script fuel 0 [] with
    | mk r0 d0 =>
      rw [h0] at h
      simp only [] at h
      subst h
      rw [← unshift_of_le (Nat.zero_le k)] at h0
      obtain ⟨d', h1, _⟩ := parseProgramLoop_fwd Tokenize script k blank nb hk hwf hblank
        fuel _ _ _ _ h0 hr
      exact ⟨fuel + 1, by rw [h1]⟩

/-! ## Where error messages come from -/

theorem decorated_ne_arity (n : Int) (e : String) :
    "Error at line " ++ Itoa n ++ ": " ++ e ≠ "Invalid number of arguments for for-loop." := by
  intro h
  have h1 := congrArg String.data h
  simp only [String.data_append] at h1
  have h2 : ("Error at line ".data ++ (Itoa n).data ++ ": ".data ++ e.data).head? = some 'E' := rfl
  rw [h1] at h2
  revert h2
  decide

theorem convertTokens_error (conv : Token → Outcome Argument) (ts : List Token) (e : String)
    (h : convertTokens conv ts = .error e) : ∃ t ∈ ts, conv t = .error e := by
  induction ts with
  | nil => simp [convertTokens] at h
  | cons x xs ih =>
    simp only [convertTokens] at h
    split at h
    · split at h
      · cases h
      · rename_i e' he'
        simp only [Outcome.error.injEq] at h
        subst h
        obtain ⟨t, ht, hte⟩ := ih he'
        exact ⟨t, List.mem_cons_of_mem _ ht, hte⟩
      · cases h
      · cases h
    · rename_i e' he'
      simp only [Outcome.error.injEq] at h
      subst h
      exact ⟨x, List.mem_cons_self _ _, he'⟩
    · cases h
    · cases h

theorem tokensToCommandWith_error (conv : Token → Outcome Argument) (ts : List Token)
    (e : String) (h : tokensToCommandWith conv ts = .error e) :
    e = "No tokens in command." ∨ ∃ t ∈ ts, conv t = .error e := by
  unfold tokensToCommandWith at h
  split at h
  · simp only [Outcome.error.injEq] at h
    exact Or.inl h.symm
  · split at h
    · cases h
    · cases h
    · rename_i e' he'
      simp only [Outcome.error.injEq] at h
      subst h
      exact Or.inr (convertTokens_error conv ts _ he')
    · cases h
    · cases h

theorem tokenToArgument_ne_arity (Tokenize : Tokenizer)
    (hmsg : ∀ s, Tokenize s ≠ .error "Invalid number of arguments for for-loop.")
    (fuel : Nat) : ∀ t,
    tokenToArgument Tokenize fuel t ≠ .error "Invalid number of arguments for for-loop." := by
  induction fuel with
  | zero =>
    intro t h
    cases hc : t.Command with
    | false => rw [tokenToArgument_of_literal _ _ _ hc] at h; cases h
    | true => rw [tokenToArgument_of_command_zero _ _ hc] at h; cases h
  | succ n ih =>
    intro t h
    cases hc : t.Command with
    | false => rw [tokenToArgument_of_literal _ _ _ hc] at h; cases h
    | true =>
      rw [tokenToArgument_of_command_succ _ _ _ hc] at h
      split at h
      · rename_i e he
        simp only [Outcome.error.injEq] at h
        subst h
        exact hmsg _ he
      · rename_i tokens htk
        split at h
        · cases h
        · rename_i e he
          simp only [Outcome.error.injEq] at h
          subst h
          rcases tokensToCommandWith_error _ _ _ he with h1 | ⟨t', _, h1⟩
          · revert h1; decide
          · exact ih t' h1
        · cases h
        · cases h

theorem tokensToCommand_ne_arity (Tokenize : Tokenizer)
    (hmsg : ∀ s, Tokenize s ≠ .error "Invalid number of arguments for for-loop.")
    (fuel : Nat) (ts : List Token) :
    tokensToCommand Tokenize fuel ts ≠ .error "Invalid number of arguments for for-loop." := by
  intro h
  rcases tokensToCommandWith_error _ _ _ h with h1 | ⟨t', _, h1⟩
  · revert h1; decide
  · exact tokenToArgument_ne_arity Tokenize hmsg fuel t' h1

theorem nextBlock_ne_arity (Tokenize : Tokenizer) (script : Script)
    (hmsg : ∀ s, Tokenize s ≠ .error "Invalid number of arguments for for-loop.")
    (fuel c d : Nat) :
    nextBlock Tokenize script fuel c
      ≠ (.error "Invalid number of arguments for for-loop.", d) := by
  intro h
  cases fuel with
  | zero => simp [nextBlock] at h
  | succ n =>
    rw [nextBlock] at h
    repeat' (split at h)
    all_goals simp only [Prod.mk.injEq] at h
    all_goals first
      | (obtain ⟨h1, _⟩ := h; contradiction)
      | (obtain ⟨h1, _⟩ := h
         simp only [Outcome.error.injEq] at h1
         exact decorated_ne_arity _ _ h1)
      | (obtain ⟨h1, _⟩ := h
         simp only [Outcome.error.injEq] at h1
         subst h1
         exact tokensToCommand_ne_arity Tokenize hmsg _ _ ‹tokensToCommand Tokenize n _ = _›)

theorem readBlockBody_ne_arity (Tokenize : Tokenizer) (script : Script)
    (hmsg : ∀ s, Tokenize s ≠ .error "Invalid number of arguments for for-loop.")
    (fuel : Nat) : ∀ (a : Bool) (c : Nat) (res : List Block) (d : Nat),
    readBlockBody Tokenize script fuel a c res
      ≠ (.error "Invalid number of arguments for for-loop.", d) := by
  induction fuel with
  | zero =>
    intro a c res d h
    simp [readBlockBody] at h
  | succ n ih =>
    intro a c res d h
    rw [readBlockBody] at h
    repeat' (split at h)
    all_goals first
      | exact ih _ _ _ _ h
      | (simp only [Prod.mk.injEq] at h
         obtain ⟨h1, _⟩ := h
         first
           | contradiction
           | (simp only [Outcome.error.injEq] at h1; revert h1; decide)
           | (simp only [Outcome.error.injEq] at h1
              subst h1
              exact nextBlock_ne_arity Tokenize script hmsg _ _ _
                ‹nextBlock Tokenize script n _ = _›))

theorem readForLoop_arity_iff (Tokenize : Tokenizer) (script : Script) (fuel c : Nat)
    (t : List Token) (hopen : endsWithOpenCurly t = .ok true)
    (hmsg : ∀ s, Tokenize s ≠ .error "Invalid number of arguments for for-loop.") :
    (readForLoop Tokenize script (fuel + 1) t c).1
        = .error "Invalid number of arguments for for-loop." ↔
      (t.length ≠ 3 ∧ t.length ≠ 4) := by
  constructor
  · intro h
    by_contra hlen
    rw [readForLoop] at h
    simp only [hopen, hlen, if_false] at h
    repeat' (split at h)
    all_goals simp only [] at h
    all_goals first
      | contradiction
      | (simp only [Outcome.error.injEq] at h
         subst h
         have h0 := ‹convertTokens (tokenToArgument Tokenize fuel) _ = Outcome.error _›
         have h2 := convertTokens_error _ _ _ h0
         obtain ⟨t', _, h1⟩ := h2
         exact tokenToArgument_ne_arity Tokenize hmsg _ _ h1)
      | (simp only [Outcome.error.injEq] at h
         subst h
         exact readBlockBody_ne_arity Tokenize script hmsg _ _ _ _ _
           ‹readBlockBody Tokenize script fuel _ _ _ = _›)
  · intro hlen
    rw [readForLoop]
    simp [hopen, hlen]

theorem readForLoop_arity_reject (Tokenize : Tokenizer) (script : Script) (fuel c : Nat)
    (t : List Token) (hopen : endsWithOpenCurly t = .ok true)
    (hlen : t.length ≠ 3 ∧ t.length ≠ 4) :
    readForLoop Tokenize script (fuel + 1) t c
      = (.error "Invalid number of arguments for for-loop.", c) := by
  rw [readForLoop]
  simp [hopen, hlen]

theorem readForLoop_arity_only_if (Tokenize : Tokenizer) (script : Script) (fuel c : Nat)
    (t : List Token) (hopen : endsWithOpenCurly t = .ok true)
    (h : (readForLoop Tokenize script (fuel + 1) t c).1
        = .error "Invalid number of arguments for for-loop.") :
    (t.length ≠ 3 ∧ t.length ≠ 4) ∨
      ∃ s, Tokenize s = .error "Invalid number of arguments for for-loop." := by
  by_cases hex : ∃ s, Tokenize s = .error "Invalid number of arguments for for-loop."
  · exact Or.inr hex
  · exact Or.inl ((readForLoop_arity_iff Tokenize script fuel c t hopen
      (fun s hs => hex ⟨s, hs⟩)).1 h)

/-! ## The command builder -/

theorem convertTokens_of_forall₂ (conv : Token → Outcome Argument) :
    ∀ (ts : List Token) (args : List Argument),
      List.Forall₂ (fun t a => conv t = .ok a) ts args → convertTokens conv ts = .ok args := by
  intro ts args h
  induction h with
  | nil => rfl
  | cons h1 _ ih => simp [convertTokens, h1, ih]

theorem convertTokens_first_error (conv : Token → Outcome Argument)
    (pre : List Token) (y : Token) (post : List Token) (e : String)
    (hpre : ∀ z ∈ pre, ∃ a, conv z = .ok a) (hy : conv y = .error e) :
    convertTokens conv (pre ++ y :: post) = .error e := by
  induction pre with
  | nil => simp [convertTokens, hy]
  | cons x xs ih =>
    obtain ⟨a, ha⟩ := hpre x (List.mem_cons_self _ _)
    have := ih (fun z hz => hpre z (List.mem_cons_of_mem _ hz))
    simp [convertTokens, ha, this]

theorem tokensToCommand_ok_iff (Tokenize : Tokenizer) (fuel : Nat) (x : Token)
    (rest : List Token) (name : Argument) (params : List Argument) :
    tokensToCommand Tokenize fuel (x :: rest) = .ok (Command.mk name params) ↔
      tokenToArgument Tokenize fuel x = .ok name ∧
      List.Forall₂ (fun y a => tokenToArgument Tokenize fuel y = .ok a) rest params := by
  constructor
  · intro h
    unfold tokensToCommand tokensToCommandWith at h
    simp only [List.length_cons, Nat.add_one_ne_zero, if_false] at h
    split at h
    · rename_i n ps hc
      simp only [Outcome.ok.injEq, Command.mk.injEq] at h
      obtain ⟨rfl, rfl⟩ := h
      have hf := convertTokens_ok_forall₂ _ _ _ hc
      cases hf with
      | cons h1 h2 => exact ⟨h1, h2⟩
    all_goals cases h
  · rintro ⟨h1, h2⟩
    unfold tokensToCommand tokensToCommandWith
    simp only [List.length_cons, Nat.add_one_ne_zero, if_false]
    rw [convertTokens_of_forall₂ _ _ _ (List.Forall₂.cons h1 h2)]

theorem tokensToCommand_succeeds_iff (Tokenize : Tokenizer) (fuel : Nat) (x : Token)
    (rest : List Token) :
    (∃ cmd, tokensToCommand Tokenize fuel (x :: rest) = .ok cmd) ↔
      ∀ y ∈ x :: rest, ∃ a, tokenToArgument Tokenize fuel y = .ok a := by
  constructor
  · rintro ⟨cmd, h⟩
    obtain ⟨name, params⟩ := cmd
    obtain ⟨h1, h2⟩ := (tokensToCommand_ok_iff Tokenize fuel x rest name params).mp h
    intro y hy
    rcases List.mem_cons.mp hy with rfl | hy
    · exact ⟨name, h1⟩
    · obtain ⟨i, hi, rfl⟩ := List.getElem_of_mem hy
      have hi' : i < params.length := by rw [← h2.length_eq]; exact hi
      exact ⟨params.get ⟨i, hi'⟩, List.Forall₂.get h2 hi hi'⟩
  · intro h
    obtain ⟨args, hargs⟩ := convertTokens_ok_of_forall (tokenToArgument Tokenize fuel)
      (x :: rest) h
    have hf := convertTokens_ok_forall₂ _ _ _ hargs
    cases hf with
    | cons h1 h2 =>
      exact ⟨_, (tokensToCommand_ok_iff Tokenize fuel x rest _ _).mpr ⟨h1, h2⟩⟩

theorem tokensToCommand_first_error (Tokenize : Tokenizer) (fuel : Nat)
    (pre : List Token) (y : Token) (post : List Token) (e : String)
    (hpre : ∀ z ∈ pre, ∃ a, tokenToArgument Tokenize fuel z = .ok a)
    (hy : tokenToArgument Tokenize fuel y = .error e) :
    tokensToCommand Tokenize fuel (pre ++ y :: post) = .error e := by
  unfold tokensToCommand tokensToCommandWith
  have hlen : ¬ (pre ++ y :: post).length = 0 := by simp
  rw [if_neg hlen, convertTokens_first_error _ pre y post e hpre hy]

theorem tokenToArgument_embedded (Tokenize : Tokenizer) (fuel : Nat) (t : Token)
    (hc : t.Command = true) :
    (∀ e, Tokenize t.Text = .error e → tokenToArgument Tokenize (fuel + 1) t = .error e) ∧
    (∀ ts, Tokenize t.Text = .ok ts →
      (∀ cmd, tokensToCommand Tokenize fuel ts = .ok cmd →
        tokenToArgument Tokenize (fuel + 1) t = .ok (Argument.mk "" (some cmd))) ∧
      (∀ e, tokensToCommand Tokenize fuel ts = .error e →
        tokenToArgument Tokenize (fuel + 1) t = .error e)) := by
  rw [tokenToArgument_of_command_succ _ _ _ hc]
  refine ⟨fun e he => by rw [he], fun ts hts => ⟨fun cmd hcmd => ?_, fun e he => ?_⟩⟩
  · rw [hts]
    simp only []
    unfold tokensToCommand at hcmd
    rw [hcmd]
  · rw [hts]
    simp only []
    unfold tokensToCommand at he
    rw [he]

theorem tokenToArgument_fails_iff (Tokenize : Tokenizer) (fuel : Nat) (t : Token)
    (hc : t.Command = true) (e : String) :
    tokenToArgument Tokenize (fuel + 1) t = .error e ↔
      (Tokenize t.Text = .error e ∨
        ∃ ts, Tokenize t.Text = .ok ts ∧ tokensToCommand Tokenize fuel ts = .error e) := by
  rw [tokenToArgument_of_command_succ _ _ _ hc]
  unfold tokensToCommand
  constructor
  · intro h
    split at h
    · rename_i e' he'
      simp only [Outcome.error.injEq] at h
      subst h
      exact Or.inl he'
    · rename_i ts hts
      split at h
      · cases h
      · rename_i e' he'
        simp only [Outcome.error.injEq] at h
        subst h
        exact Or.inr ⟨ts, hts, he'⟩
      · cases h
      · cases h
  · rintro (h | ⟨ts, hts, h⟩)
    · rw [h]
    · rw [hts]
      simp only []
      rw [h]

theorem lookup_mem {α β : Type} [BEq α] (tbl : List (α × β)) (a : α) (b : β)
    (h : tbl.lookup a = some b) : ∃ p ∈ tbl, p.2 = b := by
  induction tbl with
  | nil => simp [List.lookup] at h
  | cons p ps ih =>
    obtain ⟨k, v⟩ := p
    simp only [List.lookup] at h
    split at h
    · simp only [Option.some.injEq] at h
      exact ⟨(k, v), List.mem_cons_self _ _, h⟩
    · obtain ⟨q, hq, hq2⟩ := ih h
      exact ⟨q, List.mem_cons_of_mem _ hq, hq2⟩

theorem tableTokenizer_error (tbl : List (String × Except String (List Token)))
    (s e : String) (h : tableTokenizer tbl s = .error e) :
    e = "unexpected input" ∨ ∃ p ∈ tbl, p.2 = .error e := by
  unfold tableTokenizer at h
  split at h
  · rename_i r hr
    subst h
    exact Or.inr (lookup_mem tbl s _ hr)
  · simp only [Except.error.injEq] at h
    exact Or.inl h.symm

theorem sampleTokenizer_ne_arity :
    ∀ s, sampleTokenizer s ≠ .error "Invalid number of arguments for for-loop." := by
  intro s h
  rcases tableTokenizer_error _ _ _ h with h1 | ⟨p, hp, h1⟩
  · revert h1; decide
  · simp only [List.mem_cons, List.mem_singleton, List.not_mem_nil, or_false] at hp
    rcases hp with rfl | rfl | rfl | rfl | rfl | rfl | rfl | rfl | rfl | rfl | rfl | rfl
    all_goals first
      | contradiction
      | (simp only [Except.error.injEq] at h1; revert h1; decide)

/-! ## The top-level loop as a run of calls -/

theorem parseProgramLoop_calls (Tokenize : Tokenizer) (script : Script) (fuel : Nat) :
    ∀ (c : Nat) (res : List Block),
      (parseProgramLoop Tokenize script fuel c res).1 =
        match firstFailure (topLevelCalls Tokenize script fuel c) with
        | some r => r
        | none => .ok (res ++ producedBlocks (topLevelCalls Tokenize script fuel c)) := by
  induction fuel with
  | zero =>
    intro c res
    simp [parseProgramLoop, topLevelCalls, firstFailure]
  | succ n ih =>
    intro c res
    rw [parseProgramLoop, topLevelCalls]
    split
    · simp [firstFailure, producedBlocks]
    · cases h : nextBlock Tokenize script n c with
      | mk r d =>
        cases r with
        | ok ob =>
          cases ob with
          | none =>
            simp only []
            rw [ih d res]
            simp [firstFailure, producedBlocks]
          | some b =>
            simp only []
            rw [ih d (res ++ [b])]
            simp [firstFailure, producedBlocks]
        | error e => simp [firstFailure]
        | panic => simp [firstFailure]
        | outOfFuel => simp [firstFailure]

theorem topLevelCalls_stop (Tokenize : Tokenizer) (script : Script) (fuel : Nat) :
    ∀ (c : Nat), ∀ p ∈ (topLevelCalls Tokenize script fuel c).dropLast,
      ∃ ob, p.1 = .ok ob := by
  induction fuel with
  | zero =>
    intro c p hp
    simp [topLevelCalls] at hp
  | succ n ih =>
    intro c p hp
    rw [topLevelCalls] at hp
    split at hp
    · simp at hp
    · cases hnb : nextBlock Tokenize script n c with
      | mk r d =>
        rw [hnb] at hp
        cases r with
        | ok ob =>
          simp only [] at hp
          cases hrest : topLevelCalls Tokenize script n d with
          | nil =>
            rw [hrest] at hp
            simp at hp
          | cons q qs =>
            rw [hrest, List.dropLast_cons₂] at hp
            rcases List.mem_cons.mp hp with rfl | hp
            · exact ⟨ob, rfl⟩
            · exact ih d p (by rw [hrest]; exact hp)
        | error e => simp at hp
        | panic => simp at hp
        | outOfFuel => simp at hp

theorem parseProgramLoop_cursor_calls (Tokenize : Tokenizer) (script : Script) (fuel : Nat) :
    ∀ (c : Nat) (res : List Block),
      (parseProgramLoop Tokenize script fuel c res).2 =
        ((topLevelCalls Tokenize script fuel c).getLast?.map Prod.snd).getD c := by
  induction fuel with
  | zero =>
    intro c res
    simp [parseProgramLoop, topLevelCalls]
  | succ n ih =>
    intro c res
    rw [parseProgramLoop, topLevelCalls]
    split
    · simp
    · cases h : nextBlock Tokenize script n c with
      | mk r d =>
        have hle := (cursor_le_all Tokenize script n).1 _ _ _ h
        cases r with
        | ok ob =>
          have hlast : ∀ (l : List (Outcome (Option Block) × Nat)),
              ((((Outcome.ok ob, d) :: l).getLast?).map Prod.snd).getD c
                = ((l.getLast?).map Prod.snd).getD d := by
            intro l
            cases l with
            | nil => simp
            | cons q qs =>
              rw [List.getLast?_cons_cons, List.getLast?_eq_getLast _ (List.cons_ne_nil _ _)]
              rfl
          cases ob with
          | none =>
            simp only []
            rw [ih d res, hlast]
          | some b =>
            simp only []
            rw [ih d (res ++ [b]), hlast]
        | error e => simp
        | panic => simp
        | outOfFuel => simp

theorem nextBlock_control_error (Tokenize : Tokenizer) (script : Script) (fuel i : Nat)
    (n : Int) (line : String) (tok0 : Token) (rest : List Token)
    (hstart : script.LineStarts[i]? = some n)
    (hline : script.LogicalLines[i]? = some line)
    (htok : Tokenize line = .ok (tok0 :: rest))
    (hlit : tok0.Command = false) (e : String) (d : Nat) :
    (tok0.Text = "for" →
      (nextBlock Tokenize script (fuel + 1) i = (.error e, d) ↔
        ∃ inner, e = "Error at line " ++ Itoa n ++ ": " ++ inner ∧
          readForLoop Tokenize script fuel (tok0 :: rest) (i + 1) = (.error inner, d))) ∧
    (tok0.Text = "while" →
      (nextBlock Tokenize script (fuel + 1) i = (.error e, d) ↔
        ∃ inner, e = "Error at line " ++ Itoa n ++ ": " ++ inner ∧
          readWhileLoop Tokenize script fuel (tok0 :: rest) (i + 1) = (.error inner, d))) := by
  have hlt : i < script.LogicalLines.length := lt_length_of_getElem? hline
  constructor
  · intro hfor
    rw [nextBlock]
    simp only [Nat.ne_of_lt hlt, if_false, hstart, hline, htok, hlit, hfor]
    cases hr : readForLoop Tokenize script fuel (tok0 :: rest) (i + 1) with
    | mk r d' =>
      cases r <;> simp
      · constructor
        · rintro ⟨rfl, rfl⟩
          exact ⟨_, rfl, rfl, rfl⟩
        · rintro ⟨inner, rfl, rfl, rfl⟩
          exact ⟨rfl, rfl⟩
  · intro hwhile
    have hne : ("while" == "for") = false := by decide
    rw [nextBlock]
    simp only [Nat.ne_of_lt hlt, if_false, hstart, hline, htok, hlit, hwhile, hne]
    cases hr : readWhileLoop Tokenize script fuel (tok0 :: rest) (i + 1) with
    | mk r d' =>
      cases r <;> simp
      · constructor
        · rintro ⟨rfl, rfl⟩
          exact ⟨_, rfl, rfl, rfl⟩
        · rintro ⟨inner, rfl, rfl, rfl⟩
          exact ⟨rfl, rfl⟩

/-! ## The cursor stays within the script -/

theorem cursor_bound_all (Tokenize : Tokenizer) (script : Script) (fuel : Nat) :
    (∀ c r d, c ≤ script.LogicalLines.length → nextBlock Tokenize script fuel c = (r, d) →
      d ≤ script.LogicalLines.length) ∧
    (∀ a c res r d, c ≤ script.LogicalLines.length →
      readBlockBody Tokenize script fuel a c res = (r, d) → d ≤ script.LogicalLines.length) ∧
    (∀ t c r d, c ≤ script.LogicalLines.length → readForLoop Tokenize script fuel t c = (r, d) →
      d ≤ script.LogicalLines.length) ∧
    (∀ t c r d, c ≤ script.LogicalLines.length →
      readWhileLoop Tokenize script fuel t c = (r, d) → d ≤ script.LogicalLines.length) := by
  induction fuel with
  | zero =>
    refine ⟨?_, ?_, ?_, ?_⟩ <;> intros <;>
      simp_all [nextBlock, readBlockBody, readForLoop, readWhileLoop]
  | succ n ih =>
    obtain ⟨ihN, ihB, ihF, ihW⟩ := ih
    refine ⟨?_, ?_, ?_, ?_⟩
    · intro c r d hc h
      rw [nextBlock] at h
      repeat' (split at h)
      all_goals simp only [Prod.mk.injEq] at h
      all_goals first
        | omega
        | (have h0 := ‹readForLoop Tokenize script n _ _ = _›
           have h1 := ihF _ _ _ _ (by omega) h0
           omega)
        | (have h0 := ‹readWhileLoop Tokenize script n _ _ = _›
           have h1 := ihW _ _ _ _ (by omega) h0
           omega)
    · intro a c res r d hc h
      rw [readBlockBody] at h
      repeat' (split at h)
      all_goals first
        | (simp only [Prod.mk.injEq] at h; omega)
        | (have h1 := ihN _ _ _ hc ‹nextBlock Tokenize script n _ = _›
           simp only [Prod.mk.injEq] at h; omega)
        | (have h1 := ihN _ _ _ hc ‹nextBlock Tokenize script n _ = _›
           exact ihB _ _ _ _ _ h1 h)
    · intro t c r d hc h
      rw [readForLoop] at h
      repeat' (split at h)
      all_goals simp only [Prod.mk.injEq] at h
      all_goals first
        | omega
        | (have h1 := ihB _ _ _ _ _ hc ‹readBlockBody Tokenize script n _ _ _ = _›; omega)
    · intro t c r d hc h
      rw [readWhileLoop] at h
      repeat' (split at h)
      all_goals simp only [Prod.mk.injEq] at h
      all_goals first
        | omega
        | (have h1 := ihB _ _ _ _ _ hc ‹readBlockBody Tokenize script n _ _ _ = _›; omega)

theorem nextBlock_at_end (Tokenize : Tokenizer) (script : Script) (fuel : Nat) :
    nextBlock Tokenize script (fuel + 1) script.LogicalLines.length
      = (.ok none, script.LogicalLines.length) := by
  rw [nextBlock]
  simp

/-! ## The body-open check and the close marker -/

theorem endsWithOpenCurly_of_ne_nil (t : List Token) (ht : t ≠ []) :
    ∃ last, t.getLast? = some last ∧
      endsWithOpenCurly t
        = .ok (decide (1 < t.length) && (!last.Command && last.Text == "\x7d")) := by
  cases hl : t.getLast? with
  | none => exact absurd (List.getLast?_eq_none_iff.mp hl) ht
  | some last =>
    refine ⟨last, rfl, ?_⟩
    unfold endsWithOpenCurly
    split
    · rename_i h1
      simp [h1]
    · rename_i h1
      have h2 : 1 < t.length := by
        have : t.length ≠ 0 := fun h0 => ht (List.length_eq_zero.mp h0)
        omega
      simp [hl, h2]

theorem endsWithOpenCurly_true_iff (t : List Token) (ht : t ≠ []) :
    endsWithOpenCurly t = .ok true ↔
      (1 < t.length ∧
        ∃ last, t.getLast? = some last ∧ last.Command = false ∧ last.Text = "\x7d") := by
  obtain ⟨last, hl, he⟩ := endsWithOpenCurly_of_ne_nil t ht
  rw [he]
  constructor
  · intro h
    simp only [Outcome.ok.injEq, Bool.and_eq_true, decide_eq_true_eq, Bool.not_eq_true',
      beq_iff_eq] at h
    exact ⟨h.1, last, hl, h.2.1, h.2.2⟩
  · rintro ⟨h1, last', hl', hc, ht'⟩
    rw [hl] at hl'
    cases hl'
    simp [h1, hc, ht']

theorem endsWithOpenCurly_total (t : List Token) (ht : t ≠ []) :
    endsWithOpenCurly t = .ok true ∨ endsWithOpenCurly t = .ok false := by
  obtain ⟨last, _, he⟩ := endsWithOpenCurly_of_ne_nil t ht
  rw [he]
  cases (decide (1 < t.length) && (!last.Command && last.Text == "\x7d")) <;> simp

theorem endsWithOpenCurly_same_marker (t : List Token) (last : Token)
    (hl : t.getLast? = some last) (hlen : 1 < t.length) :
    endsWithOpenCurly t = .ok true ↔ closeLine (.ok [last]) = some [last] := by
  have ht : t ≠ [] := by
    intro h
    subst h
    simp at hlen
  rw [endsWithOpenCurly_true_iff t ht]
  constructor
  · rintro ⟨_, last', hl', hc, ht'⟩
    rw [hl] at hl'
    cases hl'
    simp [closeLine, hc, ht']
  · intro h
    simp only [closeLine] at h
    split at h
    · rename_i hh
      simp only [Bool.and_eq_true, Bool.not_eq_true', beq_iff_eq] at hh
      exact ⟨hlen, last, hl, hh.1, hh.2⟩
    · cases h

theorem nextBlock_close_marker_command (Tokenize : Tokenizer) (script : Script)
    (fuel i : Nat) (n : Int) (line : String) (tok0 : Token) (rest : List Token)
    (hstart : script.LineStarts[i]? = some n)
    (hline : script.LogicalLines[i]? = some line)
    (htok : Tokenize line = .ok (tok0 :: rest))
    (hc : tok0.Command = false) (ht : tok0.Text = "\x7d") :
    nextBlock Tokenize script (fuel + 1) i =
      (match tokensToCommand Tokenize fuel (tok0 :: rest) with
        | .ok cmd => .ok (some (Block.CommandBlock cmd))
        | .error e => .error e
        | .panic => .panic
        | .outOfFuel => .outOfFuel, i + 1) := by
  have hlt : i < script.LogicalLines.length := lt_length_of_getElem? hline
  have h1 : ("\x7d" == "for") = false := by decide
  have h2 : ("\x7d" == "while") = false := by decide
  rw [nextBlock]
  simp only [Nat.ne_of_lt hlt, if_false, hstart, hline, htok, hc, ht, h1, h2, Bool.and_false,
    Bool.false_eq_true]
  cases tokensToCommand Tokenize fuel (tok0 :: rest) <;> rfl

theorem ParseProgram_close_marker_line (ParseScript : Splitter) (Tokenize : Tokenizer)
    (scriptStr l0 : String) (n0 : Int) (g : Nat)
    (hscript : ParseScript scriptStr = .ok ⟨[l0], [n0]⟩)
    (h0 : Tokenize l0 = .ok [lit "\x7d"]) :
    ParseProgram ParseScript Tokenize (g + 2) scriptStr
      = .ok [Block.CommandBlock (Command.mk (Argument.mk "\x7d" none) [])] := by
  have hnb := nextBlock_close_marker_command Tokenize ⟨[l0], [n0]⟩ g 0 n0 l0 (lit "\x7d") []
    rfl rfl h0 rfl rfl
  rw [tokensToCommand_literal Tokenize g (lit "\x7d") [] (by simp [lit])] at hnb
  simp only [List.map_nil, literalArgument, lit] at hnb
  unfold ParseProgram
  rw [hscript]
  simp only []
  rw [parseProgramLoop]
  simp only [List.length_singleton, ge_iff_le, Nat.not_succ_le_zero, if_false, hnb]
  rw [parseProgramLoop]
  simp

theorem readBlockBody_close_marker_no_block (Tokenize : Tokenizer) (script : Script)
    (fuel current : Nat) (allowExtra : Bool) (res : List Block) (line : String)
    (tok0 : Token) (rest : List Token)
    (hline : script.LogicalLines[current]? = some line)
    (htok : Tokenize line = .ok (tok0 :: rest))
    (hc : tok0.Command = false) (ht : tok0.Text = "\x7d") :
    readBlockBody Tokenize script (fuel + 1) allowExtra current res
        = (.error "Unexpected tokens after \x7d.", current) ∨
    readBlockBody Tokenize script (fuel + 1) allowExtra current res
        = (.ok res, current + 1) := by
  have hlt : current < script.LogicalLines.length := lt_length_of_getElem? hline
  have hcl := closeLine_of_close htok hc ht
  rw [readBlockBody]
  simp only [ge_iff_le, Nat.not_le.mpr hlt, if_false, hline, hcl]
  split
  · exact Or.inl rfl
  · exact Or.inr rfl

/-! ## No run-time panic -/

theorem convertTokens_ne_panic (conv : Token → Outcome Argument)
    (h : ∀ t, conv t ≠ .panic) (ts : List Token) : convertTokens conv ts ≠ .panic := by
  induction ts with
  | nil => simp [convertTokens]
  | cons x xs ih =>
    intro hp
    simp only [convertTokens] at hp
    split at hp
    · split at hp
      · cases hp
      · cases hp
      · rename_i hx; exact ih hx
      · cases hp
    · cases hp
    · rename_i hx; exact h x hx
    · cases hp

theorem tokensToCommandWith_ne_panic (conv : Token → Outcome Argument)
    (h : ∀ t, conv t ≠ .panic) (ts : List Token) : tokensToCommandWith conv ts ≠ .panic := by
  intro hp
  unfold tokensToCommandWith at hp
  split at hp
  · cases hp
  · rename_i hlen
    split at hp
    · cases hp
    · rename_i hc
      have := (convertTokens_ok_forall₂ _ _ _ hc).length_eq
      simp only [List.length_nil] at this
      exact hlen this
    · cases hp
    · rename_i hc; exact convertTokens_ne_panic conv h ts hc
    · cases hp

theorem tokenToArgument_ne_panic (Tokenize : Tokenizer) (fuel : Nat) :
    ∀ t, tokenToArgument Tokenize fuel t ≠ .panic := by
  induction fuel with
  | zero =>
    intro t h
    cases hc : t.Command with
    | false => rw [tokenToArgument_of_literal _ _ _ hc] at h; cases h
    | true => rw [tokenToArgument_of_command_zero _ _ hc] at h; cases h
  | succ n ih =>
    intro t h
    cases hc : t.Command with
    | false => rw [tokenToArgument_of_literal _ _ _ hc] at h; cases h
    | true =>
      rw [tokenToArgument_of_command_succ _ _ _ hc] at h
      split at h
      · cases h
      · split at h
        · cases h
        · cases h
        · rename_i hw; exact tokensToCommandWith_ne_panic _ ih _ hw
        · cases h

theorem tokensToCommand_ne_panic (Tokenize : Tokenizer) (fuel : Nat) (ts : List Token) :
    tokensToCommand Tokenize fuel ts ≠ .panic :=
  tokensToCommandWith_ne_panic _ (tokenToArgument_ne_panic Tokenize fuel) ts

theorem endsWithOpenCurly_ne_panic (t : List Token) (ht : t ≠ []) :
    endsWithOpenCurly t ≠ .panic := by
  rcases endsWithOpenCurly_total t ht with h | h <;> rw [h] <;> simp

theorem no_panic_all (Tokenize : Tokenizer) (script : Script)
    (hwf : script.LineStarts.length = script.LogicalLines.length) (fuel : Nat) :
    (∀ c d, c ≤ script.LogicalLines.length →
      nextBlock Tokenize script fuel c ≠ (.panic, d)) ∧
    (∀ a c res d, c ≤ script.LogicalLines.length →
      readBlockBody Tokenize script fuel a c res ≠ (.panic, d)) ∧
    (∀ t c d, t ≠ [] → c ≤ script.LogicalLines.length →
      readForLoop Tokenize script fuel t c ≠ (.panic, d)) ∧
    (∀ t c d, t ≠ [] → c ≤ script.LogicalLines.length →
      readWhileLoop Tokenize script fuel t c ≠ (.panic, d)) := by
  induction fuel with
  | zero =>
    refine ⟨?_, ?_, ?_, ?_⟩ <;> intros <;>
      simp_all [nextBlock, readBlockBody, readForLoop, readWhileLoop]
  | succ n ih =>
    obtain ⟨ihN, ihB, ihF, ihW⟩ := ih
    refine ⟨?_, ?_, ?_, ?_⟩
    · intro c d hc h
      rw [nextBlock] at h
      repeat' (split at h)
      all_goals simp only [Prod.mk.injEq] at h
      all_goals first
        | (obtain ⟨h1, _⟩ := h; contradiction)
        | (have h0 := ‹script.LineStarts[c]? = none›
           rw [List.getElem?_eq_none_iff] at h0
           omega)
        | (have h0 := ‹script.LogicalLines[c]? = none›
           rw [List.getElem?_eq_none_iff] at h0
           omega)
        | (have h0 := ‹readForLoop Tokenize script n _ _ = _›
           have hlt := lt_length_of_getElem? ‹script.LogicalLines[c]? = some _›
           exact ihF _ _ _ (List.cons_ne_nil _ _) (by omega) h0)
        | (have h0 := ‹readWhileLoop Tokenize script n _ _ = _›
           have hlt := lt_length_of_getElem? ‹script.LogicalLines[c]? = some _›
           exact ihW _ _ _ (List.cons_ne_nil _ _) (by omega) h0)
        | exact tokensToCommand_ne_panic Tokenize n _ ‹tokensToCommand Tokenize n _ = _›
    · intro a c res d hc h
      rw [readBlockBody] at h
      repeat' (split at h)
      all_goals first
        | (have h1 := (cursor_bound_all Tokenize script n).1 _ _ _ hc
              ‹nextBlock Tokenize script n _ = _›
           exact ihB _ _ _ _ h1 h)
        | (simp only [Prod.mk.injEq] at h
           first
             | (obtain ⟨h1, _⟩ := h; contradiction)
             | (have h0 := ‹script.LogicalLines[c]? = none›
                rw [List.getElem?_eq_none_iff] at h0
                omega)
             | exact ihN _ _ hc ‹nextBlock Tokenize script n _ = _›)
    · intro t c d ht hc h
      rw [readForLoop] at h
      repeat' (split at h)
      all_goals simp only [Prod.mk.injEq] at h
      all_goals first
        | (obtain ⟨h1, _⟩ := h; contradiction)
        | exact endsWithOpenCurly_ne_panic t ht ‹endsWithOpenCurly t = _›
        | exact convertTokens_ne_panic _ (tokenToArgument_ne_panic Tokenize n) _
            ‹convertTokens (tokenToArgument Tokenize n) _ = _›
        | exact ihB _ _ _ _ hc ‹readBlockBody Tokenize script n _ _ _ = _›
        | (have h0 := ‹convertTokens (tokenToArgument Tokenize n) _ = Outcome.ok []›
           have h2 := (convertTokens_ok_forall₂ _ _ _ h0).length_eq
           rw [headerArgs_length] at h2
           simp only [List.length_nil] at h2
           omega)
    · intro t c d ht hc h
      rw [readWhileLoop] at h
      repeat' (split at h)
      all_goals simp only [Prod.mk.injEq] at h
      all_goals first
        | (obtain ⟨h1, _⟩ := h; contradiction)
        | exact endsWithOpenCurly_ne_panic t ht ‹endsWithOpenCurly t = _›
        | exact convertTokens_ne_panic _ (tokenToArgument_ne_panic Tokenize n) _
            ‹convertTokens (tokenToArgument Tokenize n) _ = _›
        | exact ihB _ _ _ _ hc ‹readBlockBody Tokenize script n _ _ _ = _›
        | (have h0 := endsWithOpenCurly_true_length ‹endsWithOpenCurly t = Outcome.ok true›
           omega)

theorem parseProgramLoop_bound (Tokenize : Tokenizer) (script : Script) (fuel : Nat) :
    ∀ c res r d, c ≤ script.LogicalLines.length →
      parseProgramLoop Tokenize script fuel c res = (r, d) →
      d ≤ script.LogicalLines.length := by
  induction fuel with
  | zero =>
    intro c res r d hc h
    simp_all [parseProgramLoop]
  | succ n ih =>
    intro c res r d hc h
    rw [parseProgramLoop] at h
    repeat' (split at h)
    all_goals first
      | (simp only [Prod.mk.injEq] at h; omega)
      | (have h1 := (cursor_bound_all Tokenize script n).1 _ _ _ hc
            ‹nextBlock Tokenize script n _ = _›
         simp only [Prod.mk.injEq] at h; omega)
      | (have h1 := (cursor_bound_all Tokenize script n).1 _ _ _ hc
            ‹nextBlock Tokenize script n _ = _›
         exact ih _ _ _ _ h1 h)

theorem parseProgramLoop_ne_panic (Tokenize : Tokenizer) (script : Script)
    (hwf : script.LineStarts.length = script.LogicalLines.length) (fuel : Nat) :
    ∀ c res d, c ≤ script.LogicalLines.length →
      parseProgramLoop Tokenize script fuel c res ≠ (.panic, d) := by
  induction fuel with
  | zero =>
    intro c res d hc h
    simp_all [parseProgramLoop]
  | succ n ih =>
    intro c res d hc h
    rw [parseProgramLoop] at h
    repeat' (split at h)
    all_goals first
      | (have h1 := (cursor_bound_all Tokenize script n).1 _ _ _ hc
            ‹nextBlock Tokenize script n _ = _›
         exact ih _ _ _ h1 h)
      | (simp only [Prod.mk.injEq] at h
         first
           | (obtain ⟨h1, _⟩ := h; contradiction)
           | exact (no_panic_all Tokenize script hwf n).1 _ _ hc
               ‹nextBlock Tokenize script n _ = _›)

theorem fst_ne_of_ne {α : Type} {p : Outcome α × Nat} (h : ∀ d, p ≠ (.panic, d)) :
    p.1 ≠ .panic := by
  intro hp
  exact h p.2 (Prod.ext hp rfl)

/-! ## Termination -/

theorem le_maxLineLength (script : Script) (i : Nat) (line : String)
    (h : script.LogicalLines[i]? = some line) : line.length ≤ maxLineLength script := by
  unfold maxLineLength
  have hmem : line ∈ script.LogicalLines := List.getElem?_mem h
  generalize script.LogicalLines = l at hmem
  induction l with
  | nil => cases hmem
  | cons x xs ih =>
    simp only [List.map_cons, List.foldr_cons]
    rcases List.mem_cons.mp hmem with rfl | hm
    · exact Nat.le_max_left _ _
    · exact Nat.le_trans (ih hm) (Nat.le_max_right _ _)

theorem convertTokens_ne_outOfFuel (conv : Token → Outcome Argument) (ts : List Token)
    (h : ∀ t ∈ ts, conv t ≠ .outOfFuel) : convertTokens conv ts ≠ .outOfFuel := by
  induction ts with
  | nil => simp [convertTokens]
  | cons x xs ih =>
    intro hp
    simp only [convertTokens] at hp
    split at hp
    · split at hp
      · cases hp
      · cases hp
      · cases hp
      · rename_i hx
        exact ih (fun t ht => h t (List.mem_cons_of_mem _ ht)) hx
    · cases hp
    · cases hp
    · rename_i hx
      exact h x (List.mem_cons_self _ _) hx

theorem tokensToCommandWith_ne_outOfFuel (conv : Token → Outcome Argument) (ts : List Token)
    (h : ∀ t ∈ ts, conv t ≠ .outOfFuel) : tokensToCommandWith conv ts ≠ .outOfFuel := by
  intro hp
  unfold tokensToCommandWith at hp
  split at hp
  · cases hp
  · split at hp
    · cases hp
    · cases hp
    · cases hp
    · cases hp
    · rename_i hc
      exact convertTokens_ne_outOfFuel conv ts h hc

theorem tokenToArgument_terminates (Tokenize : Tokenizer) (hshrink : ShrinkingTokenizer Tokenize)
    (fuel : Nat) : ∀ t, (t.Command = true → t.Text.length < fuel) →
      tokenToArgument Tokenize fuel t ≠ .outOfFuel := by
  induction fuel with
  | zero =>
    intro t ht h
    cases hc : t.Command with
    | false => rw [tokenToArgument_of_literal _ _ _ hc] at h; cases h
    | true => exact absurd (ht hc) (Nat.not_lt_zero _)
  | succ n ih =>
    intro t ht h
    cases hc : t.Command with
    | false => rw [tokenToArgument_of_literal _ _ _ hc] at h; cases h
    | true =>
      rw [tokenToArgument_of_command_succ _ _ _ hc] at h
      split at h
      · cases h
      · rename_i ts hts
        have hall : ∀ t' ∈ ts, tokenToArgument Tokenize n t' ≠ .outOfFuel := by
          intro t' ht'
          apply ih
          intro hc'
          have h1 := hshrink _ _ hts t' ht' hc'
          have h2 := ht hc
          omega
        have hw := tokensToCommandWith_ne_outOfFuel _ ts hall
        split at h
        · cases h
        · cases h
        · cases h
        · rename_i hh; exact hw hh

theorem line_tokens_terminate (Tokenize : Tokenizer) (hshrink : ShrinkingTokenizer Tokenize)
    (script : Script) (i : Nat) (line : String) (ts : List Token)
    (hline : script.LogicalLines[i]? = some line) (hts : Tokenize line = .ok ts)
    (fuel : Nat) (hf : maxLineLength script ≤ fuel) :
    ∀ t ∈ ts, tokenToArgument Tokenize fuel t ≠ .outOfFuel := by
  intro t ht
  apply tokenToArgument_terminates Tokenize hshrink
  intro hc
  have h1 := hshrink _ _ hts t ht hc
  have h2 := le_maxLineLength script i line hline
  omega

theorem endsWithOpenCurly_ne_outOfFuel (t : List Token) :
    endsWithOpenCurly t ≠ .outOfFuel := by
  unfold endsWithOpenCurly
  split
  · simp
  · split <;> simp

theorem mem_of_mem_headerArgs {t : List Token} {x : Token} (h : x ∈ headerArgs t) : x ∈ t :=
  List.mem_of_mem_drop (List.mem_of_mem_take h)

theorem header_tokens_terminate (Tokenize : Tokenizer) (hshrink : ShrinkingTokenizer Tokenize)
    (bound : Nat) (t : List Token) (ht : ∀ x ∈ t, x.Command = true → x.Text.length < bound)
    (fuel : Nat) (hf : bound ≤ fuel) :
    convertTokens (tokenToArgument Tokenize fuel) (headerArgs t) ≠ .outOfFuel := by
  apply convertTokens_ne_outOfFuel
  intro x hx
  apply tokenToArgument_terminates Tokenize hshrink
  intro hc
  have := ht x (mem_of_mem_headerArgs hx) hc
  omega

theorem terminates_all (Tokenize : Tokenizer) (hshrink : ShrinkingTokenizer Tokenize)
    (script : Script) (fuel : Nat) :
    (∀ c d, c ≤ script.LogicalLines.length →
      maxLineLength script + 3 * (script.LogicalLines.length - c) + 1 ≤ fuel →
      nextBlock Tokenize script fuel c ≠ (.outOfFuel, d)) ∧
    (∀ a c res d, c ≤ script.LogicalLines.length →
      maxLineLength script + 3 * (script.LogicalLines.length - c) + 2 ≤ fuel →
      readBlockBody Tokenize script fuel a c res ≠ (.outOfFuel, d)) ∧
    (∀ t c d, c ≤ script.LogicalLines.length →
      (∀ x ∈ t, x.Command = true → x.Text.length < maxLineLength script) →
      maxLineLength script + 3 * (script.LogicalLines.length - c) + 3 ≤ fuel →
      readForLoop Tokenize script fuel t c ≠ (.outOfFuel, d)) ∧
    (∀ t c d, c ≤ script.LogicalLines.length →
      (∀ x ∈ t, x.Command = true → x.Text.length < maxLineLength script) →
      maxLineLength script + 3 * (script.LogicalLines.length - c) + 3 ≤ fuel →
      readWhileLoop Tokenize script fuel t c ≠ (.outOfFuel, d)) := by
  induction fuel with
  | zero =>
    refine ⟨?_, ?_, ?_, ?_⟩ <;> intros <;> omega
  | succ n ih =>
    obtain ⟨ihN, ihB, ihF, ihW⟩ := ih
    refine ⟨?_, ?_, ?_, ?_⟩
    · intro c d hc hf h
      rw [nextBlock] at h
      repeat' (split at h)
      all_goals simp only [Prod.mk.injEq] at h
      all_goals first
        | (obtain ⟨h1, _⟩ := h; contradiction)
        | (have h0 := ‹readForLoop Tokenize script n _ _ = _›
           have hl := ‹script.LogicalLines[c]? = some _›
           have htk := ‹Tokenize _ = Except.ok (_ :: _)›
           have hlt := lt_length_of_getElem? hl
           refine ihF _ _ _ (by omega) ?_ (by omega) h0
           intro x hx hcx
           have h1 := hshrink _ _ htk x hx hcx
           have h2 := le_maxLineLength script c _ hl
           omega)
        | (have h0 := ‹readWhileLoop Tokenize script n _ _ = _›
           have hl := ‹script.LogicalLines[c]? = some _›
           have htk := ‹Tokenize _ = Except.ok (_ :: _)›
           have hlt := lt_length_of_getElem? hl
           refine ihW _ _ _ (by omega) ?_ (by omega) h0
           intro x hx hcx
           have h1 := hshrink _ _ htk x hx hcx
           have h2 := le_maxLineLength script c _ hl
           omega)
        | (have h0 := ‹tokensToCommand Tokenize n _ = _›
           have hl := ‹script.LogicalLines[c]? = some _›
           have htk := ‹Tokenize _ = Except.ok (_ :: _)›
           exact tokensToCommandWith_ne_outOfFuel _ _
             (line_tokens_terminate Tokenize hshrink script c _ _ hl htk n (by omega)) h0)
    · intro a c res d hc hf h
      rw [readBlockBody] at h
      repeat' (split at h)
      all_goals first
        | (have h0 := ‹nextBlock Tokenize script n _ = _›
           have hge : ¬ c ≥ script.LogicalLines.length := ‹_›
           have h1 := (cursor_bound_all Tokenize script n).1 _ _ _ hc h0
           have h2 := nextBlock_ok_advance Tokenize script n c _ _ h0 (by omega)
           exact ihB _ _ _ _ h1 (by omega) h)
        | (simp only [Prod.mk.injEq] at h
           first
             | (obtain ⟨h1, _⟩ := h; contradiction)
             | exact ihN _ _ hc (by omega) ‹nextBlock Tokenize script n _ = _›)
    · intro t c d hc ht hf h
      rw [readForLoop] at h
      repeat' (split at h)
      all_goals simp only [Prod.mk.injEq] at h
      all_goals first
        | (obtain ⟨h1, _⟩ := h; contradiction)
        | exact endsWithOpenCurly_ne_outOfFuel t ‹endsWithOpenCurly t = _›
        | exact header_tokens_terminate Tokenize hshrink _ t ht n (by omega)
            ‹convertTokens (tokenToArgument Tokenize n) _ = _›
        | exact ihB _ _ _ _ hc (by omega) ‹readBlockBody Tokenize script n _ _ _ = _›
    · intro t c d hc ht hf h
      rw [readWhileLoop] at h
      repeat' (split at h)
      all_goals simp only [Prod.mk.injEq] at h
      all_goals first
        | (obtain ⟨h1, _⟩ := h; contradiction)
        | exact endsWithOpenCurly_ne_outOfFuel t ‹endsWithOpenCurly t = _›
        | exact header_tokens_terminate Tokenize hshrink _ t ht n (by omega)
            ‹convertTokens (tokenToArgument Tokenize n) _ = _›
        | exact ihB _ _ _ _ hc (by omega) ‹readBlockBody Tokenize script n _ _ _ = _›

theorem parseProgramLoop_terminates (Tokenize : Tokenizer)
    (hshrink : ShrinkingTokenizer Tokenize) (script : Script) (fuel : Nat) :
    ∀ c res d, c ≤ script.LogicalLines.length →
      maxLineLength script + 3 * (script.LogicalLines.length - c) + 2 ≤ fuel →
      parseProgramLoop Tokenize script fuel c res ≠ (.outOfFuel, d) := by
  induction fuel with
  | zero =>
    intro c res d hc hf
    omega
  | succ n ih =>
    intro c res d hc hf h
    rw [parseProgramLoop] at h
    repeat' (split at h)
    all_goals first
      | (have h0 := ‹nextBlock Tokenize script n _ = _›
         have hge : ¬ c ≥ script.LogicalLines.length := ‹_›
         have h1 := (cursor_bound_all Tokenize script n).1 _ _ _ hc h0
         have h2 := nextBlock_ok_advance Tokenize script n c _ _ h0 (by omega)
         exact ih _ _ _ h1 (by omega) h)
      | (simp only [Prod.mk.injEq] at h
         first
           | (obtain ⟨h1, _⟩ := h; contradiction)
           | exact (terminates_all Tokenize hshrink script n).1 _ _ hc (by omega)
               ‹nextBlock Tokenize script n _ = _›)

theorem topLevelCalls_length (Tokenize : Tokenizer) (script : Script) (fuel : Nat) :
    ∀ c, c ≤ script.LogicalLines.length → script.LogicalLines.length - c < fuel →
      (topLevelCalls Tokenize script fuel c).length ≤ script.LogicalLines.length - c := by
  induction fuel with
  | zero =>
    intro c hc hf
    omega
  | succ n ih =>
    intro c hc hf
    rw [topLevelCalls]
    split
    · simp
    · rename_i hge
      cases h0 : nextBlock Tokenize script n c with
      | mk r d =>
        cases r with
        | ok ob =>
          have h1 := (cursor_bound_all Tokenize script n).1 _ _ _ hc h0
          have h2 := nextBlock_ok_advance Tokenize script n c _ _ h0 (by omega)
          have h3 := ih d h1 (by omega)
          simp only [List.length_cons]
          omega
        | error e => simp only [List.length_singleton]; omega
        | panic => simp only [List.length_singleton]; omega
        | outOfFuel => simp only [List.length_singleton]; omega

theorem fst_ne_outOfFuel {α : Type} {p : Outcome α × Nat} (h : ∀ d, p ≠ (.outOfFuel, d)) :
    p.1 ≠ .outOfFuel := by
  intro hp
  exact h p.2 (Prod.ext hp rfl)

theorem lookup_mem_key (tbl : List (String × Except String (List Token))) (a : String)
    (b : Except String (List Token)) (h : tbl.lookup a = some b) :
    ∃ p ∈ tbl, p.1 = a ∧ p.2 = b := by
  induction tbl with
  | nil => simp [List.lookup] at h
  | cons p ps ih =>
    obtain ⟨k, v⟩ := p
    simp only [List.lookup] at h
    split at h
    · rename_i hk
      simp only [Option.some.injEq] at h
      exact ⟨(k, v), List.mem_cons_self _ _, (beq_iff_eq.mp hk).symm, h⟩
    · obtain ⟨q, hq, hq2⟩ := ih h
      exact ⟨q, List.mem_cons_of_mem _ hq, hq2⟩

theorem nestedTokenizer_shrinking : ShrinkingTokenizer nestedTokenizer := by
  intro s ts h t ht hc
  unfold nestedTokenizer tableTokenizer at h
  split at h
  · rename_i r hr
    obtain ⟨p, hp, hk, hv⟩ := lookup_mem_key _ _ _ hr
    rw [h] at hv
    simp only [List.mem_cons, List.mem_singleton, List.not_mem_nil, or_false] at hp
    rcases hp with rfl | rfl | rfl | rfl | rfl | rfl
    all_goals simp only [Except.ok.injEq] at hv
    all_goals first
      | contradiction
      | (subst hv; subst hk
         simp only [List.mem_cons, List.mem_singleton, List.not_mem_nil, or_false] at ht
         rcases ht with rfl | rfl
         all_goals first
           | (simp [lit] at hc)
           | decide)
      | (subst hv; simp at ht)
  · cases h

/-! ## Claims -/

/-- C1: in a script whose every logical line tokenizes to literal tokens not
starting with `for` or `while`, `ParseProgram` succeeds (given more fuel than
there are lines) and returns, in line order, one CommandBlock per non-blank
line, with the first token as name and the remaining tokens as parameters. -/
theorem ParseProgram_literal_lines (ParseScript : Splitter) (Tokenize : Tokenizer)
    (scriptStr : String) (script : Script) (toks : List (List Token)) (fuel : Nat)
    (hscript : ParseScript scriptStr = .ok script)
    (hwf : script.LineStarts.length = script.LogicalLines.length)
    (htok : script.LogicalLines.map Tokenize = toks.map Except.ok)
    (hlit : ∀ ts ∈ toks, ∀ t ∈ ts, t.Command = false)
    (hkw : ∀ ts ∈ toks, ∀ t, ts.head? = some t → t.Text ≠ "for" ∧ t.Text ≠ "while")
    (hfuel : script.LogicalLines.length < fuel) :
    ParseProgram ParseScript Tokenize fuel scriptStr
      = .ok (toks.filterMap commandBlockOfLine) := by
  unfold ParseProgram
  rw [hscript]
  simp only []
  rw [parseProgramLoop_literal Tokenize script toks hwf htok hlit hkw
    script.LogicalLines.length fuel 0 [] (by omega) hfuel]
  simp

/-- Witness of C1: the lines `echo hi`, a blank line and `echo x`. -/
theorem ParseProgram_literal_lines_witness :
    ParseProgram (constSplitter ⟨["echo hi", "", "echo x"], [1, 2, 3]⟩) sampleTokenizer 4
        "echo hi\n\necho x"
      = .ok [Block.CommandBlock (Command.mk (Argument.mk "echo" none) [Argument.mk "hi" none]),
          Block.CommandBlock (Command.mk (Argument.mk "echo" none) [Argument.mk "x" none])] :=
  ParseProgram_literal_lines (constSplitter ⟨["echo hi", "", "echo x"], [1, 2, 3]⟩)
    sampleTokenizer "echo hi\n\necho x" ⟨["echo hi", "", "echo x"], [1, 2, 3]⟩
    [[lit "echo", lit "hi"], [], [lit "echo", lit "x"]] 4 rfl rfl rfl
    (by decide) (by simp [lit]) (by decide)

/-- C2: for a header that passes the body-open check and whose body read succeeds
with body `b`, a three-token header gives a ForBlock with no key, value the
converted argument token and body `b`; a four-token header gives a ForBlock whose
key and value are the converted first and second argument tokens, and body `b`. -/
theorem readForLoop_key_value (Tokenize : Tokenizer) (script : Script)
    (fuel current : Nat) (t : List Token) (b : List Block) (c : Nat)
    (hopen : endsWithOpenCurly t = .ok true)
    (hbody : readBlockBody Tokenize script fuel false current [] = (.ok b, c)) :
    (∀ kw x m v, t = [kw, x, m] → tokenToArgument Tokenize fuel x = .ok v →
      readForLoop Tokenize script (fuel + 1) t current
        = (.ok (Block.ForBlock none v b), c)) ∧
    (∀ kw x y m k v, t = [kw, x, y, m] → tokenToArgument Tokenize fuel x = .ok k →
      tokenToArgument Tokenize fuel y = .ok v →
      readForLoop Tokenize script (fuel + 1) t current
        = (.ok (Block.ForBlock (some k) v b), c)) := by
  constructor
  · intro kw x m v ht hv
    subst ht
    rw [readForLoop]
    simp [hopen, headerArgs, convertTokens, hv, hbody]
  · intro kw x y m k v ht hk hv
    subst ht
    rw [readForLoop]
    simp [hopen, headerArgs, convertTokens, hk, hv, hbody]

/-- Witness of C2: the headers `for x }` and `for k v }` followed by a closing line. -/
theorem readForLoop_key_value_witness :
    readForLoop sampleTokenizer ⟨["for x \x7d", "\x7d"], [1, 2]⟩ 2
        [lit "for", lit "x", lit "\x7d"] 1
      = (.ok (Block.ForBlock none (Argument.mk "x" none) []), 2) ∧
    readForLoop sampleTokenizer ⟨["for k v \x7d", "\x7d"], [1, 2]⟩ 2
        [lit "for", lit "k", lit "v", lit "\x7d"] 1
      = (.ok (Block.ForBlock (some (Argument.mk "k" none)) (Argument.mk "v" none) []), 2) :=
  ⟨(readForLoop_key_value sampleTokenizer ⟨["for x \x7d", "\x7d"], [1, 2]⟩ 1 1
      [lit "for", lit "x", lit "\x7d"] [] 2 rfl rfl).1 _ _ _ _ rfl rfl,
   (readForLoop_key_value sampleTokenizer ⟨["for k v \x7d", "\x7d"], [1, 2]⟩ 1 1
      [lit "for", lit "k", lit "v", lit "\x7d"] [] 2 rfl rfl).2 _ _ _ _ _ _ rfl rfl rfl⟩

/-- C3: on three logical lines tokenizing to `for x }`, `echo x` and `}`,
`ParseProgram` returns exactly one ForBlock with no key, value `x` and the body
`[echo x]`, and the cursor ends at 3 (all three lines consumed). -/
theorem ParseProgram_for_example (ParseScript : Splitter) (Tokenize : Tokenizer) (scriptStr : String)
    (l0 l1 l2 : String) (n0 n1 n2 : Int) (fuel : Nat)
    (hscript : ParseScript scriptStr = .ok ⟨[l0, l1, l2], [n0, n1, n2]⟩)
    (h0 : Tokenize l0 = .ok [lit "for", lit "x", lit "\x7d"])
    (h1 : Tokenize l1 = .ok [lit "echo", lit "x"])
    (h2 : Tokenize l2 = .ok [lit "\x7d"])
    (hfuel : 5 ≤ fuel) :
    ParseProgram ParseScript Tokenize fuel scriptStr
      = .ok [Block.ForBlock none (Argument.mk "x" none)
          [Block.CommandBlock (Command.mk (Argument.mk "echo" none) [Argument.mk "x" none])]] ∧
    (parseProgramLoop Tokenize ⟨[l0, l1, l2], [n0, n1, n2]⟩ fuel 0 []).2 = 3 := by
  obtain ⟨g, rfl⟩ : ∃ g, fuel = g + 5 := ⟨fuel - 5, by omega⟩
  have hloop := parseProgramLoop_for_example Tokenize l0 l1 l2 n0 n1 n2 g h0 h1 h2
  constructor
  · unfold ParseProgram
    rw [hscript]
    simp only [hloop]
  · rw [hloop]

/-- Witness of C3 with the sample tokenizer. -/
theorem ParseProgram_for_example_witness :
    ParseProgram (constSplitter ⟨["for x \x7d", "echo x", "\x7d"], [1, 2, 3]⟩)
        sampleTokenizer 5 "for x \x7d\necho x\n\x7d"
      = .ok [Block.ForBlock none (Argument.mk "x" none)
          [Block.CommandBlock (Command.mk (Argument.mk "echo" none) [Argument.mk "x" none])]] ∧
    (parseProgramLoop sampleTokenizer ⟨["for x \x7d", "echo x", "\x7d"], [1, 2, 3]⟩ 5 0 []).2
      = 3 :=
  ParseProgram_for_example (constSplitter ⟨["for x \x7d", "echo x", "\x7d"], [1, 2, 3]⟩)
    sampleTokenizer "for x \x7d\necho x\n\x7d" "for x \x7d" "echo x" "\x7d" 1 2 3 5
    rfl rfl rfl rfl (by decide)

/-- C4: for a header that passes the body-open check and whose argument tokens
all convert, if the body read succeeds with body `b` then `readWhileLoop` returns
a WhileBlock with body `b` whose Condition has `len(t) - 2` Arguments, the i-th
being `tokenToArgument` of header token `i + 1`. -/
theorem readWhileLoop_condition (Tokenize : Tokenizer) (script : Script)
    (fuel current : Nat) (t : List Token) (b : List Block) (c : Nat)
    (hopen : endsWithOpenCurly t = .ok true)
    (hconv : ∀ i (h : i < t.length), 1 ≤ i → i + 1 < t.length →
      ∃ a, tokenToArgument Tokenize fuel t[i] = .ok a)
    (hbody : readBlockBody Tokenize script fuel false current [] = (.ok b, c)) :
    ∃ cond : List Argument,
      readWhileLoop Tokenize script (fuel + 1) t current
        = (.ok (Block.WhileBlock cond b), c) ∧
      cond.length = t.length - 2 ∧
      ∀ i (h1 : i < cond.length) (h2 : i + 1 < t.length),
        tokenToArgument Tokenize fuel t[i + 1] = .ok cond[i] := by
  have hlen := endsWithOpenCurly_true_length hopen
  have hall : ∀ x ∈ headerArgs t, ∃ a, tokenToArgument Tokenize fuel x = .ok a := by
    intro x hx
    obtain ⟨i, hi, rfl⟩ := List.getElem_of_mem hx
    rw [headerArgs_length] at hi
    have hget := headerArgs_getElem? t i (by omega)
    rw [List.getElem?_eq_getElem (by rw [headerArgs_length]; exact hi),
      List.getElem?_eq_getElem (by omega)] at hget
    rw [Option.some.inj hget]
    exact hconv (i + 1) (by omega) (by omega) (by omega)
  obtain ⟨cond, hcond⟩ := convertTokens_ok_of_forall _ _ hall
  have hf2 := convertTokens_ok_forall₂ _ _ _ hcond
  have hl : cond.length = t.length - 2 := by
    rw [← hf2.length_eq, headerArgs_length]
  refine ⟨cond, ?_, hl, ?_⟩
  · rw [readWhileLoop]
    simp [hopen, Nat.not_lt.mpr hlen, hcond, hbody]
  · intro i h1 h2
    have hi : i < (headerArgs t).length := by rw [headerArgs_length]; omega
    have h3 := List.Forall₂.get hf2 hi h1
    have hget := headerArgs_getElem? t i (by omega)
    rw [List.getElem?_eq_getElem hi, List.getElem?_eq_getElem h2] at hget
    have hget' : (headerArgs t).get ⟨i, hi⟩ = t[i + 1] := Option.some.inj hget
    rw [hget'] at h3
    exact h3

/-- Witness of C4: the header `while a b }` followed by a closing line. -/
theorem readWhileLoop_condition_witness :
    ∃ cond : List Argument,
      readWhileLoop sampleTokenizer ⟨["while a b \x7d", "\x7d"], [1, 2]⟩ 2
          [lit "while", lit "a", lit "b", lit "\x7d"] 1
        = (.ok (Block.WhileBlock cond []), 2) ∧
      cond.length = [lit "while", lit "a", lit "b", lit "\x7d"].length - 2 ∧
      ∀ i (h1 : i < cond.length) (h2 : i + 1 < [lit "while", lit "a", lit "b", lit "\x7d"].length),
        tokenToArgument sampleTokenizer 1 [lit "while", lit "a", lit "b", lit "\x7d"][i + 1]
          = .ok cond[i] :=
  readWhileLoop_condition sampleTokenizer ⟨["while a b \x7d", "\x7d"], [1, 2]⟩ 1 1
    [lit "while", lit "a", lit "b", lit "\x7d"] [] 2 rfl
    (fun i h _ _ => ⟨literalArgument ([lit "while", lit "a", lit "b", lit "\x7d"][i]),
      tokenToArgument_of_literal _ _ _ (by
        have : ∀ x ∈ [lit "while", lit "a", lit "b", lit "\x7d"], x.Command = false := by decide
        exact this _ (List.getElem_mem h))⟩)
    rfl

/-- C5: inserting, at any index `k`, a logical line that tokenizes to zero tokens
leaves the outcome of `ParseProgram` unchanged: it returns a block sequence
exactly when the original does, and then the same one; it fails with a message
exactly when the original fails with that message; and `nextBlock` on the
inserted line yields nothing (no Block, no failure) and moves past it. -/
theorem ParseProgram_blank_line_skipped (ParseScript : Splitter) (Tokenize : Tokenizer)
    (scriptStr scriptStr' : String) (script : Script) (k : Nat) (blank : String) (nb : Int)
    (hscript : ParseScript scriptStr = .ok script)
    (hscript' : ParseScript scriptStr' = .ok (insertLine script k blank nb))
    (hk : k ≤ script.LogicalLines.length)
    (hwf : script.LineStarts.length = script.LogicalLines.length)
    (hblank : Tokenize blank = .ok []) :
    (∀ bs, (∃ fuel, ParseProgram ParseScript Tokenize fuel scriptStr' = .ok bs) ↔
      (∃ fuel, ParseProgram ParseScript Tokenize fuel scriptStr = .ok bs)) ∧
    (∀ e, (∃ fuel, ParseProgram ParseScript Tokenize fuel scriptStr' = .error e) ↔
      (∃ fuel, ParseProgram ParseScript Tokenize fuel scriptStr = .error e)) ∧
    (∀ fuel, nextBlock Tokenize (insertLine script k blank nb) (fuel + 1) k
      = (.ok none, k + 1)) :=
  ⟨fun bs => ParseProgram_insertLine ParseScript Tokenize scriptStr scriptStr' script k blank
      nb hscript hscript' hk hwf hblank (.ok bs) (by simp),
   fun e => ParseProgram_insertLine ParseScript Tokenize scriptStr scriptStr' script k blank
      nb hscript hscript' hk hwf hblank (.error e) (by simp),
   fun fuel => nextBlock_blank Tokenize script k blank nb hk hwf hblank fuel⟩

/-- Witness of C5: a blank line inserted inside the body of `for x }`. -/
theorem ParseProgram_blank_line_skipped_witness :
    (∀ bs,
      (∃ fuel, ParseProgram
          (tableSplitter
            [("for x \x7d\necho x\n\x7d", ⟨["for x \x7d", "echo x", "\x7d"], [1, 2, 3]⟩),
             ("for x \x7d\n\necho x\n\x7d",
                insertLine ⟨["for x \x7d", "echo x", "\x7d"], [1, 2, 3]⟩ 1 "" 9)])
          sampleTokenizer fuel "for x \x7d\n\necho x\n\x7d" = .ok bs) ↔
      (∃ fuel, ParseProgram
          (tableSplitter
            [("for x \x7d\necho x\n\x7d", ⟨["for x \x7d", "echo x", "\x7d"], [1, 2, 3]⟩),
             ("for x \x7d\n\necho x\n\x7d",
                insertLine ⟨["for x \x7d", "echo x", "\x7d"], [1, 2, 3]⟩ 1 "" 9)])
          sampleTokenizer fuel "for x \x7d\necho x\n\x7d" = .ok bs)) ∧
    (∀ fuel, nextBlock sampleTokenizer
        (insertLine ⟨["for x \x7d", "echo x", "\x7d"], [1, 2, 3]⟩ 1 "" 9) (fuel + 1) 1
      = (.ok none, 1 + 1)) :=
  ⟨(ParseProgram_blank_line_skipped
      (tableSplitter
        [("for x \x7d\necho x\n\x7d", ⟨["for x \x7d", "echo x", "\x7d"], [1, 2, 3]⟩),
         ("for x \x7d\n\necho x\n\x7d",
            insertLine ⟨["for x \x7d", "echo x", "\x7d"], [1, 2, 3]⟩ 1 "" 9)])
      sampleTokenizer "for x \x7d\necho x\n\x7d" "for x \x7d\n\necho x\n\x7d"
      ⟨["for x \x7d", "echo x", "\x7d"], [1, 2, 3]⟩ 1 "" 9 rfl rfl (by decide) rfl rfl).1,
   (ParseProgram_blank_line_skipped
      (tableSplitter
        [("for x \x7d\necho x\n\x7d", ⟨["for x \x7d", "echo x", "\x7d"], [1, 2, 3]⟩),
         ("for x \x7d\n\necho x\n\x7d",
            insertLine ⟨["for x \x7d", "echo x", "\x7d"], [1, 2, 3]⟩ 1 "" 9)])
      sampleTokenizer "for x \x7d\necho x\n\x7d" "for x \x7d\n\necho x\n\x7d"
      ⟨["for x \x7d", "echo x", "\x7d"], [1, 2, 3]⟩ 1 "" 9 rfl rfl (by decide) rfl rfl).2.2⟩

/-- C6: if no logical line at or after the cursor tokenizes to a list whose first
token is the literal close marker, `readBlockBody` never returns a body; if in
addition `nextBlock` succeeds on every line of that range, it returns the error
`Missing }.` (given enough fuel).  In particular a script whose only line
tokenizes to `for x }` makes `ParseProgram` fail with exactly
`Error at line N: Missing }.`, `N` being the recorded line number. -/
theorem readBlockBody_missing_close_marker (Tokenize : Tokenizer) :
    (∀ (script : Script) (cur : Nat),
      (∀ i line tok0 rest, cur ≤ i → script.LogicalLines[i]? = some line →
        Tokenize line = .ok (tok0 :: rest) →
        ¬ (tok0.Command = false ∧ tok0.Text = "\x7d")) →
      (∀ fuel allowExtra res b d,
        readBlockBody Tokenize script fuel allowExtra cur res ≠ (.ok b, d)) ∧
      (∀ f0, (∀ i, cur ≤ i → i < script.LogicalLines.length →
            ∃ ob c, nextBlock Tokenize script f0 i = (.ok ob, c)) →
        ∀ fuel allowExtra res, f0 + (script.LogicalLines.length - cur) < fuel →
          (readBlockBody Tokenize script fuel allowExtra cur res).1
            = .error "Missing \x7d.")) ∧
    (∀ (ParseScript : Splitter) (scriptStr l0 : String) (n0 : Int) (fuel : Nat),
      ParseScript scriptStr = .ok ⟨[l0], [n0]⟩ →
      Tokenize l0 = .ok [lit "for", lit "x", lit "\x7d"] →
      4 ≤ fuel →
      ParseProgram ParseScript Tokenize fuel scriptStr
        = .error ("Error at line " ++ Itoa n0 ++ ": Missing \x7d.")) := by
  constructor
  · intro script cur hno
    have hno' : ∀ i line, cur ≤ i → script.LogicalLines[i]? = some line →
        closeLine (Tokenize line) = none := fun i line hi hl =>
      closeLine_eq_none_of (fun tok0 rest ht => hno i line tok0 rest hi hl ht)
    exact ⟨fun fuel a res b d => readBlockBody_no_close_not_ok Tokenize script fuel a cur res b d hno',
      fun f0 hok fuel a res hf =>
        readBlockBody_missing_close Tokenize script f0 fuel a cur res hno' hok hf⟩
  · intro ParseScript scriptStr l0 n0 fuel hscript h0 hfuel
    obtain ⟨g, rfl⟩ : ∃ g, fuel = g + 4 := ⟨fuel - 4, by omega⟩
    exact ParseProgram_for_unclosed ParseScript Tokenize scriptStr l0 n0 g hscript h0

/-- Witness of C6: two command lines and no closing line; the single line `for x }`. -/
theorem readBlockBody_missing_close_marker_witness :
    ((∀ fuel allowExtra res b d,
        readBlockBody sampleTokenizer ⟨["echo hi", "echo x"], [4, 5]⟩ fuel allowExtra 0 res
          ≠ (.ok b, d)) ∧
      (readBlockBody sampleTokenizer ⟨["echo hi", "echo x"], [4, 5]⟩ 4 false 0 []).1
        = .error "Missing \x7d.") ∧
    ParseProgram (constSplitter ⟨["for x \x7d"], [7]⟩) sampleTokenizer 4 "for x \x7d"
      = .error "Error at line 7: Missing \x7d." :=
  ⟨⟨((readBlockBody_missing_close_marker sampleTokenizer).1 ⟨["echo hi", "echo x"], [4, 5]⟩ 0
        sample_no_close).1,
    ((readBlockBody_missing_close_marker sampleTokenizer).1 ⟨["echo hi", "echo x"], [4, 5]⟩ 0
        sample_no_close).2 1 sample_all_ok 4 false [] (by decide)⟩,
   (readBlockBody_missing_close_marker sampleTokenizer).2 (constSplitter ⟨["for x \x7d"], [7]⟩)
      "for x \x7d" "for x \x7d" 7 4 rfl rfl (by decide)⟩

/-- C7: on a line whose first token is the literal close marker, `readBlockBody`
with extra tokens on the line fails with `Unexpected tokens after }.` and leaves
the cursor on that line when `allowExtra` is false, and returns the accumulated
body with the cursor past the line when `allowExtra` is true; when the marker is
the only token, both modes return the accumulated body and advance. -/
theorem readBlockBody_close_line (Tokenize : Tokenizer) (script : Script) (fuel current : Nat)
    (res : List Block) (line : String) (tok0 : Token) (rest : List Token)
    (hline : script.LogicalLines[current]? = some line)
    (htok : Tokenize line = .ok (tok0 :: rest))
    (hc : tok0.Command = false) (ht : tok0.Text = "\x7d") :
    (rest ≠ [] →
      readBlockBody Tokenize script (fuel + 1) false current res
          = (.error "Unexpected tokens after \x7d.", current) ∧
      readBlockBody Tokenize script (fuel + 1) true current res = (.ok res, current + 1)) ∧
    (rest = [] → ∀ allowExtra,
      readBlockBody Tokenize script (fuel + 1) allowExtra current res
        = (.ok res, current + 1)) := by
  have hlt : current < script.LogicalLines.length := lt_length_of_getElem? hline
  have hcl := closeLine_of_close htok hc ht
  refine ⟨fun hrest => ⟨?_, ?_⟩, fun hrest allowExtra => ?_⟩
  · rw [readBlockBody]
    simp only [ge_iff_le, Nat.not_le.mpr hlt, if_false, hline, hcl]
    cases rest with
    | nil => exact absurd rfl hrest
    | cons a b => simp
  · rw [readBlockBody]
    simp [Nat.not_le.mpr hlt, hline, hcl]
  · subst hrest
    rw [readBlockBody]
    simp [Nat.not_le.mpr hlt, hline, hcl]

/-- Witness of C7: the closing lines `} done` and `}` after one body line. -/
theorem readBlockBody_close_line_witness :
    (readBlockBody sampleTokenizer ⟨["echo x", "\x7d done"], [1, 2]⟩ 1 false 1
          [Block.CommandBlock (Command.mk (Argument.mk "echo" none) [Argument.mk "x" none])]
        = (.error "Unexpected tokens after \x7d.", 1) ∧
      readBlockBody sampleTokenizer ⟨["echo x", "\x7d done"], [1, 2]⟩ 1 true 1
          [Block.CommandBlock (Command.mk (Argument.mk "echo" none) [Argument.mk "x" none])]
        = (.ok [Block.CommandBlock
            (Command.mk (Argument.mk "echo" none) [Argument.mk "x" none])], 2)) ∧
    (∀ allowExtra, readBlockBody sampleTokenizer ⟨["echo x", "\x7d"], [1, 2]⟩ 1 allowExtra 1
          [Block.CommandBlock (Command.mk (Argument.mk "echo" none) [Argument.mk "x" none])]
        = (.ok [Block.CommandBlock
            (Command.mk (Argument.mk "echo" none) [Argument.mk "x" none])], 2)) :=
  ⟨(readBlockBody_close_line sampleTokenizer ⟨["echo x", "\x7d done"], [1, 2]⟩ 0 1 _ "\x7d done" (lit "\x7d")
      [lit "done"] rfl rfl rfl rfl).1 (by simp),
   (readBlockBody_close_line sampleTokenizer ⟨["echo x", "\x7d"], [1, 2]⟩ 0 1 _ "\x7d" (lit "\x7d")
      [] rfl rfl rfl rfl).2 rfl⟩

/-- C8 (evaluation at the failing input): on the single line `echo ()`, whose
embedded-command token re-tokenizes to zero tokens, `nextBlock` returns the bare
message `No tokens in command.`, which does not begin with the decoration
`Error at line 7: `. -/
theorem nextBlock_command_error_undecorated :
    nextBlock sampleTokenizer ⟨["echo ()"], [7]⟩ 3 0 = (.error "No tokens in command.", 1) ∧
    ¬ ("Error at line " ++ Itoa 7 ++ ": ").data <+: ("No tokens in command.").data := by
  constructor
  · rfl
  · decide

/-- C9: if the tokenizer fails on the line at the cursor with message `m`,
`nextBlock` fails with exactly `Error at line N: m`, `N` the recorded original
line number, and leaves the cursor where it was; if the tokenizer succeeds, the
cursor has advanced by at least one when `nextBlock` is done, whatever the
outcome. -/
theorem nextBlock_tokenizer_failure (Tokenize : Tokenizer) (script : Script) (fuel i : Nat) (n : Int)
    (line : String)
    (hstart : script.LineStarts[i]? = some n)
    (hline : script.LogicalLines[i]? = some line) :
    (∀ m, Tokenize line = .error m →
      nextBlock Tokenize script (fuel + 1) i
        = (.error ("Error at line " ++ Itoa n ++ ": " ++ m), i)) ∧
    (∀ ts, Tokenize line = .ok ts →
      i + 1 ≤ (nextBlock Tokenize script (fuel + 1) i).2) := by
  have hlt : i < script.LogicalLines.length := lt_length_of_getElem? hline
  constructor
  · intro m hm
    rw [nextBlock]
    simp [Nat.ne_of_lt hlt, hstart, hline, hm]
  · intro ts hts
    generalize hres : nextBlock Tokenize script (fuel + 1) i = p
    obtain ⟨r, d⟩ := p
    show i + 1 ≤ d
    rw [nextBlock] at hres
    simp only [Nat.ne_of_lt hlt, if_false, hstart, hline, hts] at hres
    repeat' (split at hres)
    all_goals simp only [Prod.mk.injEq] at hres
    all_goals first
      | contradiction
      | omega
      | (have h1 := (cursor_le_all Tokenize script fuel).2.2.1 _ _ _ _
          ‹readForLoop Tokenize script fuel _ _ = _›; omega)
      | (have h1 := (cursor_le_all Tokenize script fuel).2.2.2 _ _ _ _
          ‹readWhileLoop Tokenize script fuel _ _ = _›; omega)

/-- Witness of C9: an unterminated quote on line 9, and the command `echo hi`. -/
theorem nextBlock_tokenizer_failure_witness :
    nextBlock sampleTokenizer ⟨["echo hi", "\"open"], [3, 9]⟩ 1 1
        = (.error "Error at line 9: Unterminated quote.", 1) ∧
    0 + 1 ≤ (nextBlock sampleTokenizer ⟨["echo hi", "\"open"], [3, 9]⟩ 1 0).2 :=
  ⟨(nextBlock_tokenizer_failure sampleTokenizer ⟨["echo hi", "\"open"], [3, 9]⟩ 0 1 9 "\"open" rfl rfl).1 _ rfl,
   (nextBlock_tokenizer_failure sampleTokenizer ⟨["echo hi", "\"open"], [3, 9]⟩ 0 0 3 "echo hi" rfl rfl).2 _ rfl⟩

/-- C10: on a line whose first token is the literal `for` (`while`), whenever
`nextBlock` returns a block it is a ForBlock (WhileBlock), never a CommandBlock
or nothing; and when the token list fails the body-open check, `nextBlock` fails
with the line-number decoration followed by `Missing { in for-loop.`
(`Missing { in while-loop.`). -/
theorem nextBlock_keyword_line (Tokenize : Tokenizer) (script : Script) (i : Nat) (n : Int)
    (line : String) (tok0 : Token) (rest : List Token)
    (hstart : script.LineStarts[i]? = some n)
    (hline : script.LogicalLines[i]? = some line)
    (htok : Tokenize line = .ok (tok0 :: rest))
    (hlit : tok0.Command = false) :
    (∀ fuel ob d, nextBlock Tokenize script fuel i = (.ok ob, d) →
      (tok0.Text = "for" → ∃ k v body, ob = some (Block.ForBlock k v body)) ∧
      (tok0.Text = "while" → ∃ cond body, ob = some (Block.WhileBlock cond body))) ∧
    (endsWithOpenCurly (tok0 :: rest) = .ok false → ∀ fuel,
      (tok0.Text = "for" →
        nextBlock Tokenize script (fuel + 2) i
          = (.error ("Error at line " ++ Itoa n ++ ": Missing \x7b in for-loop."), i + 1)) ∧
      (tok0.Text = "while" →
        nextBlock Tokenize script (fuel + 2) i
          = (.error ("Error at line " ++ Itoa n ++ ": Missing \x7b in while-loop."),
              i + 1))) :=
  ⟨fun fuel ob d h =>
      keyword_not_command Tokenize script i line tok0 rest hline htok hlit fuel ob d h,
    fun hopen fuel =>
      nextBlock_missing_open Tokenize script i n line tok0 rest hstart hline htok hlit hopen
        fuel⟩

/-- Witness of C10: `for x }` closed on the next line, and the headers `for x`
and `while a` without the marker. -/
theorem nextBlock_keyword_line_witness :
    (∃ k v body, some (Block.ForBlock none (Argument.mk "x" none) [])
        = some (Block.ForBlock k v body)) ∧
    nextBlock sampleTokenizer ⟨["for x"], [5]⟩ 2 0
      = (.error "Error at line 5: Missing \x7b in for-loop.", 1) ∧
    nextBlock sampleTokenizer ⟨["while a"], [6]⟩ 2 0
      = (.error "Error at line 6: Missing \x7b in while-loop.", 1) :=
  ⟨((nextBlock_keyword_line sampleTokenizer ⟨["for x \x7d", "\x7d"], [1, 2]⟩ 0 1 "for x \x7d" (lit "for")
        [lit "x", lit "\x7d"] rfl rfl rfl rfl).1 3 _ 2 rfl).1 rfl,
   ((nextBlock_keyword_line sampleTokenizer ⟨["for x"], [5]⟩ 0 5 "for x" (lit "for") [lit "x"]
        rfl rfl rfl rfl).2 rfl 0).1 rfl,
   ((nextBlock_keyword_line sampleTokenizer ⟨["while a"], [6]⟩ 0 6 "while a" (lit "while") [lit "a"]
        rfl rfl rfl rfl).2 rfl 0).2 rfl⟩

/-- C11, counterexample: the header `for (x) }` has 3 tokens and passes the
body-open check, yet `readForLoop` fails with `Invalid number of arguments for
for-loop.`: the tokenizer failed with that text on the embedded command and its
message is returned unchanged.  The same text also comes back from the body of
the 3-token header `for i }`, through the plain command line `echo (x)`.  So
the message does not imply that the length is neither 3 nor 4. -/
theorem readForLoop_arity_passthrough :
    endsWithOpenCurly [lit "for", emb "x", lit "\x7d"] = .ok true ∧
    [lit "for", emb "x", lit "\x7d"].length = 3 ∧
    readForLoop arityTokenizer ⟨[], []⟩ 2 [lit "for", emb "x", lit "\x7d"] 0
      = (.error "Invalid number of arguments for for-loop.", 0) ∧
    endsWithOpenCurly [lit "for", lit "i", lit "\x7d"] = .ok true ∧
    readForLoop arityTokenizer ⟨["for i \x7d", "echo (x)", "\x7d"], [1, 2, 3]⟩ 5
        [lit "for", lit "i", lit "\x7d"] 1
      = (.error "Invalid number of arguments for for-loop.", 2) ∧
    ¬ ((readForLoop arityTokenizer ⟨[], []⟩ 2 [lit "for", emb "x", lit "\x7d"] 0).1
          = .error "Invalid number of arguments for for-loop." ↔
        ([lit "for", emb "x", lit "\x7d"].length ≠ 3 ∧
          [lit "for", emb "x", lit "\x7d"].length ≠ 4)) :=
  ⟨rfl, rfl, rfl, rfl, rfl, fun h => (h.1 rfl).1 rfl⟩

/-- C11, amended: for a header that passes the body-open check, a length that is
neither 3 nor 4 makes `readForLoop` fail with `Invalid number of arguments for
for-loop.`, with the same result for every tokenizer and script and the cursor
unchanged: no argument is converted and no body is read.  Conversely, when
`readForLoop` fails with that message, either the length is neither 3 nor 4 or
the tokenizer itself fails with that text on some input (its message is passed
through unchanged); so with a tokenizer that never fails with that text the
message is returned exactly when the length is neither 3 nor 4. -/
theorem readForLoop_arity (Tokenize : Tokenizer) (script : Script) (fuel c : Nat)
    (t : List Token) (hopen : endsWithOpenCurly t = .ok true) :
    (t.length ≠ 3 ∧ t.length ≠ 4 → ∀ (Tokenize' : Tokenizer) (script' : Script),
      readForLoop Tokenize' script' (fuel + 1) t c
        = (.error "Invalid number of arguments for for-loop.", c)) ∧
    ((readForLoop Tokenize script (fuel + 1) t c).1
        = .error "Invalid number of arguments for for-loop." →
      (t.length ≠ 3 ∧ t.length ≠ 4) ∨
        ∃ s, Tokenize s = .error "Invalid number of arguments for for-loop.") ∧
    ((∀ s, Tokenize s ≠ .error "Invalid number of arguments for for-loop.") →
      ((readForLoop Tokenize script (fuel + 1) t c).1
          = .error "Invalid number of arguments for for-loop." ↔
        (t.length ≠ 3 ∧ t.length ≠ 4))) :=
  ⟨fun hlen Tokenize' script' =>
     readForLoop_arity_reject Tokenize' script' fuel c t hopen hlen,
   fun h => readForLoop_arity_only_if Tokenize script fuel c t hopen h,
   fun hmsg => readForLoop_arity_iff Tokenize script fuel c t hopen hmsg⟩

/-- Witness of C11: the two-token header `for }`, a header with three
arguments, and the 3-token header whose embedded command fails in the tokenizer. -/
theorem readForLoop_arity_witness :
    (∀ (Tokenize' : Tokenizer) (script' : Script),
      readForLoop Tokenize' script' (0 + 1) [lit "for", lit "\x7d"] 1
        = (.error "Invalid number of arguments for for-loop.", 1)) ∧
    ((readForLoop sampleTokenizer ⟨["for x \x7d", "\x7d"], [1, 2]⟩ (1 + 1)
          [lit "for", lit "a", lit "b", lit "c", lit "\x7d"] 1).1
        = .error "Invalid number of arguments for for-loop." ↔
      ([lit "for", lit "a", lit "b", lit "c", lit "\x7d"].length ≠ 3 ∧
        [lit "for", lit "a", lit "b", lit "c", lit "\x7d"].length ≠ 4)) ∧
    (([lit "for", emb "x", lit "\x7d"].length ≠ 3 ∧
        [lit "for", emb "x", lit "\x7d"].length ≠ 4) ∨
      ∃ s, arityTokenizer s = .error "Invalid number of arguments for for-loop.") :=
  ⟨(readForLoop_arity sampleTokenizer ⟨[], []⟩ 0 1 [lit "for", lit "\x7d"] rfl).1 (by decide),
   (readForLoop_arity sampleTokenizer ⟨["for x \x7d", "\x7d"], [1, 2]⟩ 1 1
      [lit "for", lit "a", lit "b", lit "c", lit "\x7d"] rfl).2.2 sampleTokenizer_ne_arity,
   (readForLoop_arity arityTokenizer ⟨[], []⟩ 1 0 [lit "for", emb "x", lit "\x7d"] rfl).2.1 rfl⟩

/-- C12: `tokensToCommand` fails with `No tokens in command.` on the empty list;
on a non-empty list it succeeds exactly when `tokenToArgument` succeeds on every
token, the name being the converted first token and the parameters the converted
remaining tokens in order (one fewer than the tokens); and when a token fails
after all earlier ones converted, its error is the result. -/
theorem tokensToCommand_contract (Tokenize : Tokenizer) (fuel : Nat) :
    tokensToCommand Tokenize fuel [] = .error "No tokens in command." ∧
    (∀ x rest,
      ((∃ cmd, tokensToCommand Tokenize fuel (x :: rest) = .ok cmd) ↔
        ∀ y ∈ x :: rest, ∃ a, tokenToArgument Tokenize fuel y = .ok a) ∧
      (∀ name params,
        tokensToCommand Tokenize fuel (x :: rest) = .ok (Command.mk name params) ↔
          tokenToArgument Tokenize fuel x = .ok name ∧
          List.Forall₂ (fun y a => tokenToArgument Tokenize fuel y = .ok a) rest params) ∧
      (∀ name params,
        tokensToCommand Tokenize fuel (x :: rest) = .ok (Command.mk name params) →
          params.length = (x :: rest).length - 1)) ∧
    (∀ pre y post e, (∀ z ∈ pre, ∃ a, tokenToArgument Tokenize fuel z = .ok a) →
      tokenToArgument Tokenize fuel y = .error e →
      tokensToCommand Tokenize fuel (pre ++ y :: post) = .error e) := by
  refine ⟨rfl, fun x rest => ⟨tokensToCommand_succeeds_iff Tokenize fuel x rest,
    fun name params => tokensToCommand_ok_iff Tokenize fuel x rest name params,
    fun name params h => ?_⟩,
    fun pre y post e hpre hy => tokensToCommand_first_error Tokenize fuel pre y post e hpre hy⟩
  have h2 := ((tokensToCommand_ok_iff Tokenize fuel x rest name params).mp h).2
  simp [h2.length_eq]

/-- Witness of C12: a command whose parameter is an embedded command, and a
command whose second token fails to re-tokenize. -/
theorem tokensToCommand_contract_witness :
    tokensToCommand nestedTokenizer 1 (lit "echo" :: [emb "ls x"])
      = .ok (Command.mk (Argument.mk "echo" none)
          [Argument.mk "" (some (Command.mk (Argument.mk "ls" none) [Argument.mk "x" none]))]) ∧
    tokensToCommand nestedTokenizer 1 ([lit "echo"] ++ emb "\"open" :: [lit "x"])
      = .error "Unterminated quote." :=
  ⟨(((tokensToCommand_contract nestedTokenizer 1).2.1 (lit "echo") [emb "ls x"]).2.1 _ _).mpr
      ⟨rfl, List.Forall₂.cons rfl List.Forall₂.nil⟩,
   (tokensToCommand_contract nestedTokenizer 1).2.2 [lit "echo"] (emb "\"open") [lit "x"]
      "Unterminated quote." (by simp [lit, tokenToArgument]) rfl⟩

/-- C13: on a literal token `tokenToArgument` returns the literal Argument with
the text unchanged and no nested command; on an embedded-command token it
returns the nested-command Argument, with empty text, of
`tokensToCommand (Tokenize text)`, it fails with `e` exactly when the tokenizer
or `tokensToCommand` fails with `e`, and this holds at every depth (every fuel). -/
theorem tokenToArgument_contract (Tokenize : Tokenizer) (fuel : Nat) (t : Token) :
    (t.Command = false →
      tokenToArgument Tokenize fuel t = .ok (Argument.mk t.Text none)) ∧
    (t.Command = true →
      (∀ e, Tokenize t.Text = .error e → tokenToArgument Tokenize (fuel + 1) t = .error e) ∧
      (∀ ts, Tokenize t.Text = .ok ts →
        (∀ cmd, tokensToCommand Tokenize fuel ts = .ok cmd →
          tokenToArgument Tokenize (fuel + 1) t = .ok (Argument.mk "" (some cmd))) ∧
        (∀ e, tokensToCommand Tokenize fuel ts = .error e →
          tokenToArgument Tokenize (fuel + 1) t = .error e)) ∧
      (∀ e, tokenToArgument Tokenize (fuel + 1) t = .error e ↔
        (Tokenize t.Text = .error e ∨
          ∃ ts, Tokenize t.Text = .ok ts ∧ tokensToCommand Tokenize fuel ts = .error e))) :=
  ⟨fun hc => tokenToArgument_of_literal Tokenize fuel t hc,
   fun hc => ⟨(tokenToArgument_embedded Tokenize fuel t hc).1,
     (tokenToArgument_embedded Tokenize fuel t hc).2,
     fun e => tokenToArgument_fails_iff Tokenize fuel t hc e⟩⟩

/-- Witness of C13: a literal, a command nested two levels below the argument,
and an inner text that fails to tokenize. -/
theorem tokenToArgument_contract_witness :
    tokenToArgument nestedTokenizer 0 (lit "x") = .ok (Argument.mk "x" none) ∧
    tokenToArgument nestedTokenizer (1 + 1) (emb "cat (ls x)")
      = .ok (Argument.mk "" (some (Command.mk (Argument.mk "cat" none)
          [Argument.mk "" (some (Command.mk (Argument.mk "ls" none)
            [Argument.mk "x" none]))]))) ∧
    tokenToArgument nestedTokenizer (0 + 1) (emb "\"open") = .error "Unterminated quote." :=
  ⟨(tokenToArgument_contract nestedTokenizer 0 (lit "x")).1 rfl,
   (((tokenToArgument_contract nestedTokenizer 1 (emb "cat (ls x)")).2 rfl).2.1
      [lit "cat", emb "ls x"] rfl).1 _ rfl,
   ((tokenToArgument_contract nestedTokenizer 0 (emb "\"open")).2 rfl).1 _ rfl⟩

/-- C14: if the line splitter fails, `ParseProgram` returns that error; otherwise
its result is the one the spec gives for the run of `nextBlock` calls of the
top-level loop: the error of the first failing call and no blocks, or, when
every call succeeded, the produced blocks in call order with the nil results
left out.  No call follows a failing one, and the cursor stays where the last
call left it. -/
theorem ParseProgram_no_partial_result (ParseScript : Splitter) (Tokenize : Tokenizer)
    (fuel : Nat) (scriptStr : String) :
    (∀ e, ParseScript scriptStr = .error e →
      ParseProgram ParseScript Tokenize fuel scriptStr = .error e) ∧
    (∀ script, ParseScript scriptStr = .ok script →
      ParseProgram ParseScript Tokenize fuel scriptStr
        = resultOfCalls (topLevelCalls Tokenize script fuel 0) ∧
      (∀ p ∈ (topLevelCalls Tokenize script fuel 0).dropLast, ∃ ob, p.1 = .ok ob) ∧
      (parseProgramLoop Tokenize script fuel 0 []).2
        = ((topLevelCalls Tokenize script fuel 0).getLast?.map Prod.snd).getD 0) := by
  constructor
  · intro e he
    unfold ParseProgram
    rw [he]
  · intro script hs
    refine ⟨?_, topLevelCalls_stop Tokenize script fuel 0,
      parseProgramLoop_cursor_calls Tokenize script fuel 0 []⟩
    unfold ParseProgram resultOfCalls
    rw [hs]
    simp only []
    rw [parseProgramLoop_calls Tokenize script fuel 0 []]
    simp

/-- Witness of C14: the second of three lines fails to tokenize; the first block
is dropped and the third line is never reached. -/
theorem ParseProgram_no_partial_result_witness :
    ParseProgram (constSplitter ⟨["echo hi", "\"open", "echo x"], [1, 2, 3]⟩) sampleTokenizer 5
        "echo hi\n\"open\necho x"
      = .error "Error at line 2: Unterminated quote." ∧
    (parseProgramLoop sampleTokenizer ⟨["echo hi", "\"open", "echo x"], [1, 2, 3]⟩ 5 0 []).2
      = 1 :=
  ⟨((ParseProgram_no_partial_result (constSplitter ⟨["echo hi", "\"open", "echo x"], [1, 2, 3]⟩)
      sampleTokenizer 5 "echo hi\n\"open\necho x").2 _ rfl).1,
   ((ParseProgram_no_partial_result (constSplitter ⟨["echo hi", "\"open", "echo x"], [1, 2, 3]⟩)
      sampleTokenizer 5 "echo hi\n\"open\necho x").2 _ rfl).2.2⟩

/-- C15: on a line whose first token is the literal `for` (`while`), `nextBlock`
fails with `e` exactly when `readForLoop` (`readWhileLoop`) fails with some
`inner` (a header conversion or body read failure, nested lines and nested
commands included) and `e` is `Error at line N: ` followed by `inner` unchanged,
`N` being the recorded number of the line that started the construct. -/
theorem nextBlock_control_block_error (Tokenize : Tokenizer) (script : Script) (fuel i : Nat)
    (n : Int) (line : String) (tok0 : Token) (rest : List Token)
    (hstart : script.LineStarts[i]? = some n)
    (hline : script.LogicalLines[i]? = some line)
    (htok : Tokenize line = .ok (tok0 :: rest))
    (hlit : tok0.Command = false) (e : String) (d : Nat) :
    (tok0.Text = "for" →
      (nextBlock Tokenize script (fuel + 1) i = (.error e, d) ↔
        ∃ inner, e = "Error at line " ++ Itoa n ++ ": " ++ inner ∧
          readForLoop Tokenize script fuel (tok0 :: rest) (i + 1) = (.error inner, d))) ∧
    (tok0.Text = "while" →
      (nextBlock Tokenize script (fuel + 1) i = (.error e, d) ↔
        ∃ inner, e = "Error at line " ++ Itoa n ++ ": " ++ inner ∧
          readWhileLoop Tokenize script fuel (tok0 :: rest) (i + 1) = (.error inner, d))) :=
  nextBlock_control_error Tokenize script fuel i n line tok0 rest hstart hline htok hlit e d

/-- Witness of C15: the body line 2 of a for-loop started on line 1 fails to
tokenize. -/
theorem nextBlock_control_block_error_witness :
    nextBlock sampleTokenizer ⟨["for x \x7d", "\"open"], [1, 2]⟩ (4 + 1) 0
      = (.error "Error at line 1: Error at line 2: Unterminated quote.", 1) :=
  ((nextBlock_control_block_error sampleTokenizer ⟨["for x \x7d", "\"open"], [1, 2]⟩ 4 0 1
      "for x \x7d" (lit "for") [lit "x", lit "\x7d"] rfl rfl rfl rfl
      "Error at line 1: Error at line 2: Unterminated quote." 1).1 rfl).mpr
    ⟨"Error at line 2: Unterminated quote.", rfl, rfl⟩

/-- C16: from a cursor `c` with `c <= len(LogicalLines)`, each of `nextBlock`,
`readBlockBody`, `readForLoop` and `readWhileLoop` leaves the cursor at a value
between `c` and the number of logical lines, whatever the outcome; and
`nextBlock` at the end of input yields nothing and leaves the cursor unchanged. -/
theorem cursor_monotone_bounded (Tokenize : Tokenizer) (script : Script) (fuel c : Nat)
    (hc : c ≤ script.LogicalLines.length) :
    (c ≤ (nextBlock Tokenize script fuel c).2 ∧
      (nextBlock Tokenize script fuel c).2 ≤ script.LogicalLines.length) ∧
    (∀ allowExtra res,
      c ≤ (readBlockBody Tokenize script fuel allowExtra c res).2 ∧
      (readBlockBody Tokenize script fuel allowExtra c res).2 ≤ script.LogicalLines.length) ∧
    (∀ t, c ≤ (readForLoop Tokenize script fuel t c).2 ∧
      (readForLoop Tokenize script fuel t c).2 ≤ script.LogicalLines.length) ∧
    (∀ t, c ≤ (readWhileLoop Tokenize script fuel t c).2 ∧
      (readWhileLoop Tokenize script fuel t c).2 ≤ script.LogicalLines.length) ∧
    nextBlock Tokenize script (fuel + 1) script.LogicalLines.length
      = (.ok none, script.LogicalLines.length) := by
  obtain ⟨lN, lB, lF, lW⟩ := cursor_le_all Tokenize script fuel
  obtain ⟨bN, bB, bF, bW⟩ := cursor_bound_all Tokenize script fuel
  exact ⟨⟨lN c _ _ rfl, bN c _ _ hc rfl⟩,
    fun a res => ⟨lB a c res _ _ rfl, bB a c res _ _ hc rfl⟩,
    fun t => ⟨lF t c _ _ rfl, bF t c _ _ hc rfl⟩,
    fun t => ⟨lW t c _ _ rfl, bW t c _ _ hc rfl⟩,
    nextBlock_at_end Tokenize script fuel⟩

/-- Witness of C16: a for-loop over three lines, and a call at the end of input. -/
theorem cursor_monotone_bounded_witness :
    (0 ≤ (nextBlock sampleTokenizer ⟨["for x \x7d", "echo x", "\x7d"], [1, 2, 3]⟩ 4 0).2 ∧
      (nextBlock sampleTokenizer ⟨["for x \x7d", "echo x", "\x7d"], [1, 2, 3]⟩ 4 0).2 ≤ 3) ∧
    nextBlock sampleTokenizer ⟨["for x \x7d", "echo x", "\x7d"], [1, 2, 3]⟩ (4 + 1) 3
      = (.ok none, 3) :=
  ⟨(cursor_monotone_bounded sampleTokenizer ⟨["for x \x7d", "echo x", "\x7d"], [1, 2, 3]⟩ 4 0
      (by decide)).1,
   (cursor_monotone_bounded sampleTokenizer ⟨["for x \x7d", "echo x", "\x7d"], [1, 2, 3]⟩ 4 0
      (by decide)).2.2.2.2⟩

/-- C17: under a tokenizer whose embedded-command tokens always carry a text
strictly shorter than the text they were cut from, every parse terminates:
`ParseProgram` returns once the fuel is at least the longest line plus three
times the number of lines plus two, and so do `nextBlock`, `readBlockBody` and
the readers from every cursor within the script; a `nextBlock` call before the
end of input that returns strictly increases the cursor, so the top-level loop
makes at most as many calls as there are logical lines. -/
theorem parse_terminates (ParseScript : Splitter) (Tokenize : Tokenizer)
    (scriptStr : String) (script : Script)
    (hshrink : ShrinkingTokenizer Tokenize)
    (hscript : ParseScript scriptStr = .ok script) :
    (∀ fuel, maxLineLength script + 3 * script.LogicalLines.length + 2 ≤ fuel →
      ParseProgram ParseScript Tokenize fuel scriptStr ≠ .outOfFuel) ∧
    (∀ fuel c, c ≤ script.LogicalLines.length →
      maxLineLength script + 3 * (script.LogicalLines.length - c) + 3 ≤ fuel →
      (nextBlock Tokenize script fuel c).1 ≠ .outOfFuel ∧
      (∀ allowExtra res,
        (readBlockBody Tokenize script fuel allowExtra c res).1 ≠ .outOfFuel) ∧
      (∀ t, (∀ x ∈ t, x.Command = true → x.Text.length < maxLineLength script) →
        (readForLoop Tokenize script fuel t c).1 ≠ .outOfFuel ∧
        (readWhileLoop Tokenize script fuel t c).1 ≠ .outOfFuel)) ∧
    (∀ fuel c ob d, c < script.LogicalLines.length →
      nextBlock Tokenize script fuel c = (.ok ob, d) → c < d) ∧
    (∀ fuel, script.LogicalLines.length < fuel →
      (topLevelCalls Tokenize script fuel 0).length ≤ script.LogicalLines.length) := by
  refine ⟨fun fuel hf => ?_, fun fuel c hc hf => ?_, fun fuel c ob d hc h => ?_,
    fun fuel hf => ?_⟩
  · unfold ParseProgram
    rw [hscript]
    exact fst_ne_outOfFuel (fun d =>
      parseProgramLoop_terminates Tokenize hshrink script fuel 0 [] d (Nat.zero_le _)
        (by omega))
  · obtain ⟨tN, tB, tF, tW⟩ := terminates_all Tokenize hshrink script fuel
    exact ⟨fst_ne_outOfFuel (fun d => tN c d hc (by omega)),
      fun a res => fst_ne_outOfFuel (fun d => tB a c res d hc (by omega)),
      fun t ht => ⟨fst_ne_outOfFuel (fun d => tF t c d hc ht hf),
        fst_ne_outOfFuel (fun d => tW t c d hc ht hf)⟩⟩
  · exact nextBlock_ok_advance Tokenize script fuel c ob d h hc
  · have := topLevelCalls_length Tokenize script fuel 0 (Nat.zero_le _) (by omega)
    omega

/-- Witness of C17: a line with a command nested two levels deep, then a blank line. -/
theorem parse_terminates_witness :
    ParseProgram (constSplitter ⟨["echo (cat (ls x))", ""], [1, 2]⟩) nestedTokenizer 25
        "echo (cat (ls x))\n" ≠ .outOfFuel ∧
    (topLevelCalls nestedTokenizer ⟨["echo (cat (ls x))", ""], [1, 2]⟩ 25 0).length ≤ 2 :=
  ⟨(parse_terminates (constSplitter ⟨["echo (cat (ls x))", ""], [1, 2]⟩) nestedTokenizer
      "echo (cat (ls x))\n" ⟨["echo (cat (ls x))", ""], [1, 2]⟩ nestedTokenizer_shrinking
      rfl).1 25 (by decide),
   (parse_terminates (constSplitter ⟨["echo (cat (ls x))", ""], [1, 2]⟩) nestedTokenizer
      "echo (cat (ls x))\n" ⟨["echo (cat (ls x))", ""], [1, 2]⟩ nestedTokenizer_shrinking
      rfl).2.2.2 25 (by decide)⟩

/-- C18, counterexample: on the empty token list `endsWithOpenCurly` does not
return false; `t[len(t)-1]` is out of range and the call panics. -/
theorem endsWithOpenCurly_empty :
    endsWithOpenCurly [] = .panic ∧ endsWithOpenCurly [] ≠ .ok false :=
  ⟨rfl, by simp [endsWithOpenCurly]⟩

/-- C18, amended: for every non-empty token list, `endsWithOpenCurly` returns
true if and only if the list has more than one token and its last token is the
literal close marker, and false in every other case; the marker is the one
`readBlockBody` recognises at the start of a closing line. -/
theorem endsWithOpenCurly_nonempty (t : List Token) (ht : t ≠ []) :
    (endsWithOpenCurly t = .ok true ↔
      (1 < t.length ∧
        ∃ last, t.getLast? = some last ∧ last.Command = false ∧ last.Text = "\x7d")) ∧
    (endsWithOpenCurly t = .ok true ∨ endsWithOpenCurly t = .ok false) ∧
    (∀ last, t.getLast? = some last → 1 < t.length →
      (endsWithOpenCurly t = .ok true ↔ closeLine (.ok [last]) = some [last])) :=
  ⟨endsWithOpenCurly_true_iff t ht, endsWithOpenCurly_total t ht,
   fun last hl hlen => endsWithOpenCurly_same_marker t last hl hlen⟩

/-- Witness of C18: the header `for x }` and the one-token list `}`. -/
theorem endsWithOpenCurly_nonempty_witness :
    (endsWithOpenCurly [lit "for", lit "x", lit "\x7d"] = .ok true ↔
      closeLine (.ok [lit "\x7d"]) = some [lit "\x7d"]) ∧
    (endsWithOpenCurly [lit "\x7d"] = .ok true ∨ endsWithOpenCurly [lit "\x7d"] = .ok false) :=
  ⟨(endsWithOpenCurly_nonempty [lit "for", lit "x", lit "\x7d"] (by simp)).2.2 (lit "\x7d")
      rfl (by decide),
   (endsWithOpenCurly_nonempty [lit "\x7d"] (by simp)).2.1⟩

/-- C19: when `LineStarts` and `LogicalLines` have equal length, no index access
of a parse is out of range: `ParseProgram` never panics and its cursor ends
within the script; from every cursor `c <= len` neither `nextBlock` nor
`readBlockBody` panics, nor do the readers on the non-empty token lists they
are given; the `>=` test of `done` and the `==` test of `nextBlock` agree there;
`endsWithOpenCurly` does not panic on a non-empty list, and a header that passes
it has at least two tokens, so `len(t)-2` is not negative. -/
theorem no_index_out_of_range (ParseScript : Splitter) (Tokenize : Tokenizer)
    (scriptStr : String) (script : Script) (fuel : Nat)
    (hscript : ParseScript scriptStr = .ok script)
    (hwf : script.LineStarts.length = script.LogicalLines.length) :
    ParseProgram ParseScript Tokenize fuel scriptStr ≠ .panic ∧
    (parseProgramLoop Tokenize script fuel 0 []).2 ≤ script.LogicalLines.length ∧
    (∀ c, c ≤ script.LogicalLines.length →
      (nextBlock Tokenize script fuel c).1 ≠ .panic ∧
      (∀ allowExtra res, (readBlockBody Tokenize script fuel allowExtra c res).1 ≠ .panic) ∧
      (∀ t, t ≠ [] → (readForLoop Tokenize script fuel t c).1 ≠ .panic ∧
        (readWhileLoop Tokenize script fuel t c).1 ≠ .panic) ∧
      (c ≥ script.LogicalLines.length ↔ c = script.LogicalLines.length)) ∧
    (∀ t, t ≠ [] → endsWithOpenCurly t ≠ .panic) ∧
    (∀ t, endsWithOpenCurly t = .ok true → 2 ≤ t.length) := by
  obtain ⟨pN, pB, pF, pW⟩ := no_panic_all Tokenize script hwf fuel
  refine ⟨?_, parseProgramLoop_bound Tokenize script fuel 0 [] _ _ (Nat.zero_le _) rfl,
    fun c hc => ⟨fst_ne_of_ne (fun d => pN c d hc),
      fun a res => fst_ne_of_ne (fun d => pB a c res d hc),
      fun t ht => ⟨fst_ne_of_ne (fun d => pF t c d ht hc),
        fst_ne_of_ne (fun d => pW t c d ht hc)⟩,
      by omega⟩,
    endsWithOpenCurly_ne_panic, fun t h => endsWithOpenCurly_true_length h⟩
  unfold ParseProgram
  rw [hscript]
  exact fst_ne_of_ne (fun d =>
    parseProgramLoop_ne_panic Tokenize script hwf fuel 0 [] d (Nat.zero_le _))

/-- Witness of C19: the three-line for-loop script. -/
theorem no_index_out_of_range_witness :
    ParseProgram (constSplitter ⟨["for x \x7d", "echo x", "\x7d"], [1, 2, 3]⟩)
        sampleTokenizer 5 "for x \x7d\necho x\n\x7d" ≠ .panic ∧
    (parseProgramLoop sampleTokenizer ⟨["for x \x7d", "echo x", "\x7d"], [1, 2, 3]⟩ 5 0 []).2
      ≤ 3 :=
  ⟨(no_index_out_of_range (constSplitter ⟨["for x \x7d", "echo x", "\x7d"], [1, 2, 3]⟩)
      sampleTokenizer "for x \x7d\necho x\n\x7d" ⟨["for x \x7d", "echo x", "\x7d"], [1, 2, 3]⟩
      5 rfl rfl).1,
   (no_index_out_of_range (constSplitter ⟨["for x \x7d", "echo x", "\x7d"], [1, 2, 3]⟩)
      sampleTokenizer "for x \x7d\necho x\n\x7d" ⟨["for x \x7d", "echo x", "\x7d"], [1, 2, 3]⟩
      5 rfl rfl).2.1⟩

/-- C20: a line whose first token is the literal close marker, when it reaches
`nextBlock`, is parsed as a plain command (the result is that of
`tokensToCommand`, with the cursor past the line), so a script whose only line
tokenizes to the marker alone parses to one CommandBlock named by the marker
with no parameters; at the head of a `readBlockBody` turn the same line ends the
body or fails with `Unexpected tokens after }.` and adds no block. -/
theorem close_marker_only_in_body (Tokenize : Tokenizer) (script : Script)
    (fuel i : Nat) (line : String) (tok0 : Token) (rest : List Token)
    (hline : script.LogicalLines[i]? = some line)
    (htok : Tokenize line = .ok (tok0 :: rest))
    (hc : tok0.Command = false) (ht : tok0.Text = "\x7d") :
    (∀ n, script.LineStarts[i]? = some n →
      nextBlock Tokenize script (fuel + 1) i =
        (match tokensToCommand Tokenize fuel (tok0 :: rest) with
          | .ok cmd => .ok (some (Block.CommandBlock cmd))
          | .error e => .error e
          | .panic => .panic
          | .outOfFuel => .outOfFuel, i + 1)) ∧
    (∀ (ParseScript : Splitter) (scriptStr : String) (n0 : Int),
      ParseScript scriptStr = .ok ⟨[line], [n0]⟩ → rest = [] →
      ParseProgram ParseScript Tokenize (fuel + 2) scriptStr
        = .ok [Block.CommandBlock (Command.mk (Argument.mk "\x7d" none) [])]) ∧
    (∀ allowExtra res,
      readBlockBody Tokenize script (fuel + 1) allowExtra i res
          = (.error "Unexpected tokens after \x7d.", i) ∨
      readBlockBody Tokenize script (fuel + 1) allowExtra i res = (.ok res, i + 1)) := by
  refine ⟨fun n hstart =>
      nextBlock_close_marker_command Tokenize script fuel i n line tok0 rest hstart hline htok
        hc ht,
    fun ParseScript scriptStr n0 hscript hrest => ?_,
    fun allowExtra res =>
      readBlockBody_close_marker_no_block Tokenize script fuel i allowExtra res line tok0 rest
        hline htok hc ht⟩
  subst hrest
  have h0 : tok0 = lit "\x7d" := by
    cases tok0
    simp only [lit, Token.mk.injEq]
    exact ⟨ht, hc⟩
  subst h0
  exact ParseProgram_close_marker_line ParseScript Tokenize scriptStr line n0 fuel hscript htok

/-- Witness of C20: the single line `}` at top level, and the same line after one
body line. -/
theorem close_marker_only_in_body_witness :
    ParseProgram (constSplitter ⟨["\x7d"], [4]⟩) sampleTokenizer (0 + 2) "\x7d"
      = .ok [Block.CommandBlock (Command.mk (Argument.mk "\x7d" none) [])] ∧
    (readBlockBody sampleTokenizer ⟨["echo x", "\x7d"], [1, 2]⟩ (0 + 1) false 1 []
        = (.error "Unexpected tokens after \x7d.", 1) ∨
      readBlockBody sampleTokenizer ⟨["echo x", "\x7d"], [1, 2]⟩ (0 + 1) false 1 []
        = (.ok [], 1 + 1)) :=
  ⟨(close_marker_only_in_body sampleTokenizer ⟨["\x7d"], [4]⟩ 0 0 "\x7d" (lit "\x7d") []
      rfl rfl rfl rfl).2.1 (constSplitter ⟨["\x7d"], [4]⟩) "\x7d" 4 rfl rfl,
   (close_marker_only_in_body sampleTokenizer ⟨["echo x", "\x7d"], [1, 2]⟩ 0 1 "\x7d"
      (lit "\x7d") [] rfl rfl rfl rfl).2.2 false []⟩

end Pragmash
